import Mathlib

/-!
# SharpPhysics: a shallow embedding of the simulation core

The C++ sources (`Base.h`, `Math.cpp`, `Body.h`, `Body.cpp`, `System.h`,
`System.cpp`) are translated function by function.

## Numbers

`spf` is `double` in the source.  Rounding is not modelled: finite values are
elements of an arbitrary linearly ordered field `K` and are combined exactly.
The special values that the source relies on are kept: `NaN` (the "no event"
sentinel), `+Infinity` and `-Infinity` (immovable mass, default horizon,
division by zero).  Special values follow IEEE-754 (`0/0 = NaN`,
`x/0 = ±Infinity`, `0 * Infinity = NaN`, `Infinity - Infinity = NaN`, every
comparison with `NaN` is false).  There is a single zero: the sign of a zero
is not tracked, so `x / 0` takes the sign of `x`.

`std::sqrt` on finite non-negative values is the operation `SqrtOp.sqrt` of the
field; theorems that need the square root to be exact say so in a hypothesis
about the value it is applied to.  On `ℚ` the operation is `Rat.sqrt`, which is
exact on squares of rationals.
-/

namespace SharpPhysics

/-- Square root on the field of finite values (`std::sqrt` on finite, non-negative doubles). -/
class SqrtOp (K : Type) where
  sqrt : K → K

instance : SqrtOp ℚ := ⟨Rat.sqrt⟩

/-- Values of type `spf` (`double`): NaN, minus infinity, a finite value, plus infinity. -/
inductive Spf (K : Type) where
  | nan : Spf K
  | ninf : Spf K
  | fin (x : K) : Spf K
  | pinf : Spf K
deriving DecidableEq, Repr

namespace Spf

variable {K : Type} [LinearOrderedField K]

/-- Unary minus on doubles. -/
def neg : Spf K → Spf K
  | nan => nan
  | ninf => pinf
  | fin x => fin (-x)
  | pinf => ninf

/-- Addition of doubles (exact on finite values). -/
def add : Spf K → Spf K → Spf K
  | fin x, fin y => fin (x + y)
  | fin _, pinf => pinf
  | fin _, ninf => ninf
  | pinf, fin _ => pinf
  | pinf, pinf => pinf
  | ninf, fin _ => ninf
  | ninf, ninf => ninf
  | _, _ => nan

/-- Sign-directed infinity: the result of an infinite product or quotient whose sign is that of `x`. -/
def signedInf (x : K) : Spf K :=
  if 0 < x then pinf else ninf

/-- Multiplication of doubles (exact on finite values). -/
def mul : Spf K → Spf K → Spf K
  | fin x, fin y => fin (x * y)
  | fin x, pinf => if x = 0 then nan else signedInf x
  | fin x, ninf => if x = 0 then nan else signedInf (-x)
  | pinf, fin y => if y = 0 then nan else signedInf y
  | ninf, fin y => if y = 0 then nan else signedInf (-y)
  | pinf, pinf => pinf
  | pinf, ninf => ninf
  | ninf, pinf => ninf
  | ninf, ninf => pinf
  | _, _ => nan

/-- Division of doubles (exact on finite values, IEEE results for a zero divisor). -/
def div : Spf K → Spf K → Spf K
  | fin x, fin y => if y = 0 then (if x = 0 then nan else signedInf x) else fin (x / y)
  | fin _, pinf => fin 0
  | fin _, ninf => fin 0
  | pinf, fin y => if 0 ≤ y then pinf else ninf
  | ninf, fin y => if 0 ≤ y then ninf else pinf
  | _, _ => nan

instance : Neg (Spf K) := ⟨neg⟩
instance : Add (Spf K) := ⟨add⟩
instance : Sub (Spf K) := ⟨fun a b => add a (neg b)⟩
instance : Mul (Spf K) := ⟨mul⟩
instance : Div (Spf K) := ⟨div⟩

/-- The comparison `a < b` on doubles: false as soon as one side is NaN. -/
def ltb : Spf K → Spf K → Bool
  | fin x, fin y => decide (x < y)
  | ninf, fin _ => true
  | ninf, pinf => true
  | fin _, pinf => true
  | _, _ => false

/-- The comparison `a <= b` on doubles: false as soon as one side is NaN. -/
def leb : Spf K → Spf K → Bool
  | nan, _ => false
  | _, nan => false
  | a, b => !(ltb b a)

/-- The comparison `a == b` on doubles: NaN is not equal to itself. -/
def ceq : Spf K → Spf K → Bool
  | fin x, fin y => decide (x = y)
  | pinf, pinf => true
  | ninf, ninf => true
  | _, _ => false

instance : LT (Spf K) := ⟨fun a b => ltb a b = true⟩
instance : LE (Spf K) := ⟨fun a b => leb a b = true⟩
instance (a b : Spf K) : Decidable (a < b) := inferInstanceAs (Decidable (ltb a b = true))
instance (a b : Spf K) : Decidable (a ≤ b) := inferInstanceAs (Decidable (leb a b = true))

/-- The test `std::isnan`. -/
def isnan : Spf K → Bool
  | nan => true
  | _ => false

/-- The test `std::isinf`. -/
def isinf : Spf K → Bool
  | pinf => true
  | ninf => true
  | _ => false

/-- A value that is neither NaN nor infinite. -/
def IsFinite : Spf K → Prop
  | fin _ => True
  | _ => False

instance (a : Spf K) : Decidable (IsFinite a) := by
  cases a <;> unfold IsFinite <;> infer_instance

/-- The test `signbit`: true on negative values.  The sign bit of a NaN is read as clear. -/
def signbit : Spf K → Bool
  | fin x => decide (x < 0)
  | ninf => true
  | _ => false

/-- The function `std::abs`. -/
def abs : Spf K → Spf K
  | nan => nan
  | ninf => pinf
  | pinf => pinf
  | fin x => fin |x|

/-- The function `std::sqrt`. -/
def sqrt [SqrtOp K] : Spf K → Spf K
  | fin x => if x < 0 then nan else fin (SqrtOp.sqrt x)
  | pinf => pinf
  | _ => nan

/-- The function `std::min(a, b)`, which is `(b < a) ? b : a`. -/
def min (a b : Spf K) : Spf K :=
  if b < a then b else a

/-- The call `std::pow(x, 2)`. -/
def pow2 (x : Spf K) : Spf K := x * x

/-- The call `std::pow(x, 3)`. -/
def pow3 (x : Spf K) : Spf K := x * x * x

end Spf

/-! ## Base.h: vectors and segments -/

/-- The struct `Vec2d` (also used as `Point2d`). -/
structure Vec2d (K : Type) where
  x : Spf K
  y : Spf K
deriving DecidableEq, Repr

namespace Vec2d

variable {K : Type} [LinearOrderedField K]

/-- The constant `Vec2d::Zero`. -/
def Zero : Vec2d K := ⟨Spf.fin 0, Spf.fin 0⟩

/-- The constant `Vec2d::NaN`. -/
def NaN : Vec2d K := ⟨Spf.nan, Spf.nan⟩

/-- The static function `Vec2d::Dot`. -/
def Dot (a b : Vec2d K) : Spf K :=
  a.x * b.x + a.y * b.y

/-- The member `SqrMagnitude`. -/
def SqrMagnitude (v : Vec2d K) : Spf K :=
  v.x * v.x + v.y * v.y

/-- The member `Magnitude`. -/
def Magnitude [SqrtOp K] (v : Vec2d K) : Spf K :=
  Spf.sqrt v.SqrMagnitude

/-- The member `operator*` (vector times scalar). -/
def scale (v : Vec2d K) (n : Spf K) : Vec2d K :=
  ⟨v.x * n, v.y * n⟩

/-- The member `operator+`. -/
def add (a b : Vec2d K) : Vec2d K :=
  ⟨a.x + b.x, a.y + b.y⟩

/-- The binary member `operator-`. -/
def sub (a b : Vec2d K) : Vec2d K :=
  ⟨a.x - b.x, a.y - b.y⟩

/-- The unary member `operator-`. -/
def neg (a : Vec2d K) : Vec2d K :=
  ⟨-a.x, -a.y⟩

instance : Add (Vec2d K) := ⟨add⟩
instance : Sub (Vec2d K) := ⟨sub⟩
instance : Neg (Vec2d K) := ⟨neg⟩
instance : HMul (Vec2d K) (Spf K) (Vec2d K) := ⟨scale⟩

/-- The member `Normalized`. -/
def Normalized [SqrtOp K] (v : Vec2d K) : Vec2d K :=
  if Spf.ceq v.x (Spf.fin 0) && Spf.ceq v.y (Spf.fin 0) then Zero
  else v * (Spf.fin 1 / v.Magnitude)

/-- The member `IsNaN`. -/
def IsNaN (v : Vec2d K) : Bool :=
  Spf.isnan v.x

/-- Both coordinates are finite. -/
def IsFinite (v : Vec2d K) : Prop :=
  v.x.IsFinite ∧ v.y.IsFinite

end Vec2d

/-- The struct `LineSeg`. -/
structure LineSeg (K : Type) where
  a : Vec2d K
  b : Vec2d K
deriving DecidableEq, Repr

namespace LineSeg

variable {K : Type} [LinearOrderedField K]

/-- The member `GetDelta`. -/
def GetDelta (l : LineSeg K) : Vec2d K :=
  l.b - l.a

end LineSeg

/-! ## Math.cpp -/

section MathCpp

variable {K : Type} [LinearOrderedField K]

/-- The function `LineSegsIntersect`, with the operands of the source kept as written. -/
def LineSegsIntersect (l1 l2 : LineSeg K) : Bool :=
  let l1d := l1.GetDelta
  let l2d := l2.GetDelta
  let delta := l2d.x * l1d.y - l2d.y * l1d.x
  if Spf.ceq delta (Spf.fin 0) then false
  else
    let s := (l1d.x * (l2.a.y - l1.a.y) + l1d.y * (l1.a.x - l1.a.x)) / delta
    let t := (l2d.x * (l1.a.y - l2.a.y) + l2d.y * (l2.a.x - l2.a.x)) / (-delta)
    (decide (Spf.fin 0 ≤ s) && decide (s ≤ Spf.fin 1)) &&
      (decide (Spf.fin 0 ≤ t) && decide (t ≤ Spf.fin 1))

/-- The function `PointLineSegDistanceSquared`. -/
def PointLineSegDistanceSquared (p : Vec2d K) (l : LineSeg K) : Spf K :=
  let ld := l.GetDelta
  if Spf.ceq ld.x (Spf.fin 0) && Spf.ceq ld.y (Spf.fin 0) then (l.a - p).SqrMagnitude
  else
    let t := ((p.x - l.a.x) * ld.x + (p.y - l.a.y) * ld.y) / (ld.x * ld.x + ld.y * ld.y)
    if t < Spf.fin 0 then (l.a - p).SqrMagnitude
    else if t > Spf.fin 1 then (l.b - p).SqrMagnitude
    else
      let near : Vec2d K := ⟨l.a.x + t * ld.x, l.a.y + t * ld.y⟩
      (near - p).SqrMagnitude

/-- The function `LineSegsDistanceSquared`. -/
def LineSegsDistanceSquared (l1 l2 : LineSeg K) : Spf K :=
  if LineSegsIntersect l1 l2 then Spf.fin 0
  else
    Spf.min
      (Spf.min (PointLineSegDistanceSquared l1.a l2) (PointLineSegDistanceSquared l1.b l2))
      (Spf.min (PointLineSegDistanceSquared l2.a l1) (PointLineSegDistanceSquared l2.b l1))

/-- What a call of the external solver leaves behind: the four slots of the local array
`double root[4]` (slots the solver did not write hold whatever they held) and the returned count. -/
structure Roots (K : Type) where
  root0 : Spf K
  root1 : Spf K
  root2 : Spf K
  root3 : Spf K
  n : Int

/-- The external collaborator `poly.h` (not part of the repository): `Poly::SolveP3` for
`x^3 + a x^2 + b x + c` and `Poly::SolveP4` for `x^4 + a x^3 + b x^2 + c x + d`. -/
structure PolySolver (K : Type) where
  SolveP3 : Spf K → Spf K → Spf K → Roots K
  SolveP4 : Spf K → Spf K → Spf K → Spf K → Roots K

/-- The lambda `InvalidateBadRoot` of `SolveQuartic`. -/
def SolveQuartic.InvalidateBadRoot (a b c d : Spf K) (only_inward : Bool) (t : Spf K) : Spf K :=
  if t ≤ Spf.fin 0 then Spf.nan
  else if only_inward then
    let grade := a * Spf.fin 4 * Spf.pow3 t + b * Spf.fin 3 * Spf.pow2 t + c * Spf.fin 2 * t + d
    if grade > Spf.fin 0 then Spf.nan else t
  else t

/-- The solver call of `SolveQuartic`: `SolveP3` when `a == 0`, `SolveP4` otherwise. -/
def SolveQuartic.callSolver (P : PolySolver K) (a b c d e : Spf K) : Roots K :=
  if Spf.ceq a (Spf.fin 0) then P.SolveP3 (c / b) (d / b) (e / b)
  else P.SolveP4 (b / a) (c / a) (d / a) (e / a)

/-- The part of `SolveQuartic` after the solver call: the choice among the reported roots. -/
def SolveQuartic.select (a b c d : Spf K) (only_inward : Bool) (r : Roots K) : Spf K :=
  if r.n = 0 then Spf.nan
  else
    let best := Spf.min (SolveQuartic.InvalidateBadRoot a b c d only_inward r.root0)
      (SolveQuartic.InvalidateBadRoot a b c d only_inward r.root1)
    if r.n = 4 then
      Spf.min best
        (Spf.min (SolveQuartic.InvalidateBadRoot a b c d only_inward r.root2)
          (SolveQuartic.InvalidateBadRoot a b c d only_inward r.root3))
    else best

/-- The function `SolveQuartic`. -/
def SolveQuartic (P : PolySolver K) (a b c d e : Spf K) (only_inward : Bool) : Spf K :=
  SolveQuartic.select a b c d only_inward (SolveQuartic.callSolver P a b c d e)

/-- The lambda `InvalidateBadRoot` of `SolveQuadratic`. -/
def SolveQuadratic.InvalidateBadRoot (a b : Spf K) (only_inward : Bool) (t : Spf K) : Spf K :=
  if t ≤ Spf.fin 0 then Spf.nan
  else if only_inward then
    let grade := a * Spf.fin 2 * t + b
    if grade > Spf.fin 0 then Spf.nan else t
  else t

/-- The first candidate `t1` of `SolveQuadratic`. -/
def SolveQuadratic.t1 [SqrtOp K] (a b c : Spf K) : Spf K :=
  (-b + Spf.sqrt (b * b - Spf.fin 4 * a * c)) / (Spf.fin 4 * a * a)

/-- The second candidate `t2` of `SolveQuadratic`. -/
def SolveQuadratic.t2 [SqrtOp K] (a b c : Spf K) : Spf K :=
  (-b - Spf.sqrt (b * b - Spf.fin 4 * a * c)) / (Spf.fin 4 * a * a)

/-- The function `SolveQuadratic`. -/
def SolveQuadratic [SqrtOp K] (a b c : Spf K) (only_inward : Bool) : Spf K :=
  Spf.min (SolveQuadratic.InvalidateBadRoot a b only_inward (SolveQuadratic.t1 a b c))
    (SolveQuadratic.InvalidateBadRoot a b only_inward (SolveQuadratic.t2 a b c))

end MathCpp

/-! ## Body.h and Body.cpp

The class `Body` is abstract with two concrete subclasses, `Circle` and `Line`; the runtime
type tag `GetType()` becomes the constructor of the sum type `Body`.  The optional payload
`extra` is an opaque shared handle that no function of the core reads.
-/

/-- The data members of the base class `Body`. -/
structure BodyData (K : Type) where
  ID : Int
  extra : Option Nat
  stopped : Bool
  position : Vec2d K
  velocity : Vec2d K
  friction : Spf K
  mass : Spf K
deriving DecidableEq

namespace BodyData

variable {K : Type} [LinearOrderedField K]

/-- The constructor `Body(id, e, pos, fric, mas)`: zero velocity, stopped. -/
def new (id : Int) (e : Option Nat) (pos : Vec2d K) (fric mas : Spf K) : BodyData K :=
  { ID := id, extra := e, stopped := true, position := pos, velocity := Vec2d.Zero,
    friction := fric, mass := mas }

/-- The member `Stop`. -/
def Stop (b : BodyData K) : BodyData K :=
  { b with stopped := true, velocity := Vec2d.Zero }

/-- The member `IsStopped`. -/
def IsStopped (b : BodyData K) : Bool := b.stopped

/-- The member `IsTangible`. -/
def IsTangible (b : BodyData K) : Bool := !(Spf.isnan b.mass)

/-- The member `SetPosition`. -/
def SetPosition (b : BodyData K) (pos : Vec2d K) : BodyData K :=
  { b with position := pos }

/-- The member `SetVelocity`. -/
def SetVelocity (b : BodyData K) (v : Vec2d K) : BodyData K :=
  { b with velocity := v }

/-- The member `Acceleration`. -/
def Acceleration [SqrtOp K] (b : BodyData K) : Vec2d K :=
  b.velocity.Normalized * (-b.friction)

/-- The member `PositionAfterDuration`. -/
def PositionAfterDuration [SqrtOp K] (b : BodyData K) (t : Spf K) : Vec2d K :=
  b.position + b.velocity * t + b.Acceleration * (t * t / Spf.fin 2)

/-- The member `VelocityAfterDuration`. -/
def VelocityAfterDuration [SqrtOp K] (b : BodyData K) (t : Spf K) : Vec2d K :=
  b.velocity + b.Acceleration * t

/-- The member `TimeUntilStop`. -/
def TimeUntilStop [SqrtOp K] (b : BodyData K) : Spf K :=
  b.velocity.Magnitude / b.friction

/-- The member `AddVelocity`. -/
def AddVelocity (b : BodyData K) (add : Vec2d K) : BodyData K :=
  { b with velocity := b.velocity + add, stopped := false }

end BodyData

/-- The class `Line`: the base members and the second endpoint `b` (the first is `position`). -/
structure Line (K : Type) extends BodyData K where
  b : Vec2d K
deriving DecidableEq

/-- The class `Circle`: the base members and the radius. -/
structure Circle (K : Type) extends BodyData K where
  radius : Spf K
deriving DecidableEq

/-- A body is a `Circle` or a `Line` (the two values of `GetType()`). -/
inductive Body (K : Type) where
  | circle (c : Circle K) : Body K
  | line (l : Line K) : Body K
deriving DecidableEq

namespace Line

variable {K : Type} [LinearOrderedField K]

/-- The constructor `Line(id, e, start, end)`: friction `0.0`, mass `Infinity`. -/
def new (id : Int) (e : Option Nat) (start stop : Vec2d K) : Line K :=
  { toBodyData := BodyData.new id e start (Spf.fin 0) Spf.pinf, b := stop }

/-- The member `Normal`. -/
def Normal [SqrtOp K] (l : Line K) : Vec2d K :=
  (Vec2d.mk (l.position.y - l.b.y) (l.b.x - l.position.x)).Normalized

/-- The member `LinePos`. -/
def LinePos (l : Line K) : LineSeg K :=
  ⟨l.position, l.b⟩

end Line

namespace Body

variable {K : Type} [LinearOrderedField K]

/-- The base-class part of a body. -/
def data : Body K → BodyData K
  | circle c => c.toBodyData
  | line l => l.toBodyData

/-- Replace the base-class part of a body (a non-virtual `Body` member acting through a `Body *`). -/
def setData : Body K → BodyData K → Body K
  | circle c, d => circle { c with toBodyData := d }
  | line l, d => line { l with toBodyData := d }

/-- The accessor `Mass` through a `Body` reference. -/
def Mass (b : Body K) : Spf K := b.data.mass

/-- The accessor `Velocity` through a `Body` reference. -/
def Velocity (b : Body K) : Vec2d K := b.data.velocity

/-- The accessor `Position` through a `Body` reference. -/
def Position (b : Body K) : Vec2d K := b.data.position

/-- The member `IsStopped` through a `Body` reference. -/
def IsStopped (b : Body K) : Bool := b.data.IsStopped

/-- The member `IsTangible` through a `Body` reference. -/
def IsTangible (b : Body K) : Bool := b.data.IsTangible

/-- The member `TimeUntilStop` through a `Body` reference. -/
def TimeUntilStop [SqrtOp K] (b : Body K) : Spf K := b.data.TimeUntilStop

/-- The member `Stop` through a `Body *`. -/
def Stop (b : Body K) : Body K := b.setData b.data.Stop

/-- The member `AddVelocity` through a `Body *`. -/
def AddVelocity (b : Body K) (add : Vec2d K) : Body K := b.setData (b.data.AddVelocity add)

end Body

namespace Circle

variable {K : Type} [LinearOrderedField K]

/-- The constructor `Circle(id, e, pos, r, fric, mas)` (defaults `fric = 0.0`, `mas = Infinity`). -/
def new (id : Int) (e : Option Nat) (pos : Vec2d K) (r fric mas : Spf K) : Circle K :=
  { toBodyData := BodyData.new id e pos fric mas, radius := r }

/-- The overload `Circle::TimeUntilCollide(const Circle &, Duration)`. -/
def TimeUntilCollideCircle [SqrtOp K] (P : PolySolver K) (self other : Circle K)
    (maxtime : Spf K) : Spf K :=
  let pos_maxt := self.PositionAfterDuration maxtime
  let other_pos_maxt := other.PositionAfterDuration maxtime
  let distSquared := LineSegsDistanceSquared ⟨self.position, pos_maxt⟩
    ⟨other.position, other_pos_maxt⟩
  let combined_radius_squared := Spf.pow2 (self.radius + other.radius)
  if distSquared > combined_radius_squared then Spf.nan
  else
    let relvel := other.velocity - self.velocity
    let relpos := other.position - self.position
    let relaccel := other.Acceleration - self.Acceleration
    let a := (Spf.pow2 relaccel.x + Spf.pow2 relaccel.y) / Spf.fin 4
    let b := relvel.x * relaccel.x + relvel.y * relaccel.y
    let c := Spf.pow2 relvel.x + Spf.pow2 relvel.y + (relpos.x * relaccel.x + relpos.y * relaccel.y)
    let d := (relpos.x * relvel.x + relpos.y * relvel.y) * Spf.fin 2
    let e := Spf.pow2 relpos.x + Spf.pow2 relpos.y - combined_radius_squared
    let t := SolveQuartic P a b c d e other.IsTangible
    if t > maxtime then Spf.nan else t

/-- The overload `Circle::TimeUntilCollide(const Point2d &, Duration)`: the stub of the source. -/
def TimeUntilCollidePoint (_self : Circle K) (_point : Vec2d K) (_maxtime : Spf K) : Spf K :=
  Spf.nan

/-- The overload `Circle::TimeUntilCollide(const Line &, Duration)`. -/
def TimeUntilCollideLine [SqrtOp K] (self : Circle K) (other : Line K) (maxtime : Spf K) : Spf K :=
  let pos_maxt := self.PositionAfterDuration maxtime
  let distSquared := LineSegsDistanceSquared ⟨self.position, pos_maxt⟩ other.LinePos
  let radius_squared := Spf.pow2 self.radius
  if distSquared > radius_squared then Spf.nan
  else
    let other_normal := other.Normal
    let other_line := other.LinePos
    let other_dir := other_line.b - other_line.a
    let normalDist := Vec2d.Dot (self.position - other_line.a) other_normal
    let sign : Spf K := if Spf.signbit normalDist then Spf.fin (-1) else Spf.fin 1
    let fallback := Spf.min (self.TimeUntilCollidePoint other_line.a maxtime)
      (self.TimeUntilCollidePoint other_line.b maxtime)
    if Spf.abs normalDist > self.radius then
      let normalVel := Vec2d.Dot self.velocity other_normal
      let normalAccel := Vec2d.Dot self.Acceleration other_normal
      let collisionDist := normalDist + self.radius * sign
      let t := SolveQuadratic (normalAccel / Spf.fin 2) normalVel collisionDist other.IsTangible
      let pos_collisiont := self.PositionAfterDuration t
      let d1 := Vec2d.Dot (pos_collisiont - other_line.a) other_dir
      let d2 := Vec2d.Dot (pos_collisiont - other_line.b) other_dir
      if Spf.signbit d1 != Spf.signbit d2 then t else fallback
    else fallback

/-- The override `Circle::TimeUntilCollide(const Body &, Duration)`: dispatch on the type tag. -/
def TimeUntilCollide [SqrtOp K] (P : PolySolver K) (self : Circle K) (other : Body K)
    (maxtime : Spf K) : Spf K :=
  match other with
  | Body.circle c => self.TimeUntilCollideCircle P c maxtime
  | Body.line l => self.TimeUntilCollideLine l maxtime

/-- The overload `Circle::CollisionDir(const Circle &)`. -/
def CollisionDirCircle [SqrtOp K] (self other : Circle K) : Vec2d K :=
  (other.position - self.position).Normalized

/-- The overload `Circle::CollisionDir(const Line &)`. -/
def CollisionDirLine [SqrtOp K] (_self : Circle K) (other : Line K) : Vec2d K :=
  other.Normal

/-- The overload `Circle::CollisionDir(const Body &)`: dispatch on the type tag. -/
def CollisionDir [SqrtOp K] (self : Circle K) (other : Body K) : Vec2d K :=
  match other with
  | Body.circle c => self.CollisionDirCircle c
  | Body.line l => self.CollisionDirLine l

/-- The override `Circle::ApplyCollision(Body *other)`: the new state of `this` and of `*other`. -/
def ApplyCollision [SqrtOp K] (self : Circle K) (other : Body K) : Circle K × Body K :=
  let collision_dir := self.CollisionDir other
  let avi := Vec2d.Dot self.velocity collision_dir
  if Spf.isnan other.Mass then (self, other)
  else if Spf.isinf other.Mass then
    ({ self with velocity := self.velocity - collision_dir * (avi * Spf.fin 2) }, other)
  else
    let bvi := Vec2d.Dot other.Velocity collision_dir
    let massdiff := self.mass - other.Mass
    let combined_mass := self.mass + other.Mass
    let avo := (avi * massdiff + Spf.fin 2 * other.Mass * bvi) / combined_mass
    let bvo := (-bvi * massdiff + Spf.fin 2 * self.mass * avi) / combined_mass
    ({ self with toBodyData := self.toBodyData.AddVelocity (collision_dir * (avo - avi)) },
      other.AddVelocity (collision_dir * (bvo - bvi)))

/-- The override `Circle::IsTouchingPointAt`. -/
def IsTouchingPointAt [SqrtOp K] (self : Circle K) (t : Spf K) (p : Vec2d K) : Bool :=
  let c := self.PositionAfterDuration t
  decide ((p - c).SqrMagnitude < Spf.pow2 self.radius)

/-- The override `Circle::CopyAfterDuration`. -/
def CopyAfterDuration [SqrtOp K] (self : Circle K) (d : Spf K) : Circle K :=
  { self with
    position := self.PositionAfterDuration d
    velocity := self.VelocityAfterDuration d }

end Circle

namespace Body

variable {K : Type} [LinearOrderedField K]

/-- The virtual `Body::CopyAfterDuration`: a `Line` is copied as it is. -/
def CopyAfterDuration [SqrtOp K] (b : Body K) (d : Spf K) : Body K :=
  match b with
  | circle c => circle (c.CopyAfterDuration d)
  | line l => line l

/-- The virtual `Body::TimeUntilCollide`: `Line::TimeUntilCollide` returns NaN. -/
def TimeUntilCollide [SqrtOp K] (P : PolySolver K) (self other : Body K) (maxtime : Spf K) :
    Spf K :=
  match self with
  | circle c => c.TimeUntilCollide P other maxtime
  | line _ => Spf.nan

/-- The virtual `Body::ApplyCollision`: `Line::ApplyCollision` does nothing. -/
def ApplyCollision [SqrtOp K] (self other : Body K) : Body K × Body K :=
  match self with
  | circle c => (circle (c.ApplyCollision other).1, (c.ApplyCollision other).2)
  | line l => (line l, other)

end Body

/-! ## System.h and System.cpp

A `std::map` is an association list kept in increasing key order, with the comparator of the
source (`<` on `int` for body identities, `<` on `double` for timestamps).  The loops of the
source become folds over these lists.
-/

section Maps

variable {κ V : Type}

/-- The lookup `std::map::find`: the first entry whose key is not less than `k`, if its key is
not greater than `k`. -/
def mapFind (lt : κ → κ → Bool) (k : κ) : List (κ × V) → Option V
  | [] => none
  | (k', v') :: rest =>
    if lt k k' then none
    else if lt k' k then mapFind lt k rest
    else some v'

/-- The assignment `m[k] = v`: the entry with key `k` gets the value `v`; a missing entry is
inserted at its place in the order. -/
def mapInsert (lt : κ → κ → Bool) (k : κ) (v : V) : List (κ × V) → List (κ × V)
  | [] => [(k, v)]
  | (k', v') :: rest =>
    if lt k k' then (k, v) :: (k', v') :: rest
    else if lt k' k then (k', v') :: mapInsert lt k v rest
    else (k', v) :: rest

/-- Assignment through the iterator returned by `find(k)`: the entry found gets the value `v`;
nothing is inserted. -/
def mapAssign (lt : κ → κ → Bool) (k : κ) (v : V) : List (κ × V) → List (κ × V)
  | [] => []
  | (k', v') :: rest =>
    if lt k k' then (k', v') :: rest
    else if lt k' k then (k', v') :: mapAssign lt k v rest
    else (k', v) :: rest

end Maps

/-- The comparator of `std::map<BodyID, ...>`. -/
def idLt (a b : Int) : Bool := decide (a < b)

/-- The class `Snapshot`: the map `bodies` from identity to body. -/
structure Snapshot (K : Type) where
  bodies : List (Int × Body K)

namespace Snapshot

variable {K : Type} [LinearOrderedField K]

/-- The member `GetBody`.  The source dereferences `end()` for an identity that is not in the map;
here the lookup has no result in that case. -/
def GetBody (ss : Snapshot K) (id : Int) : Option (Body K) :=
  mapFind idLt id ss.bodies

/-- A body reached through the pointer returned by `GetBody(id)` is overwritten in place. -/
def setBody (ss : Snapshot K) (id : Int) (b : Body K) : Snapshot K :=
  ⟨mapAssign idLt id b ss.bodies⟩

/-- The member `FillFromPrevious`: `bodies[b.first] = b.second->CopyAfterDuration(t)` for every
entry `b` of `prev.bodies`. -/
def FillFromPrevious [SqrtOp K] (self prev : Snapshot K) (t : Spf K) : Snapshot K :=
  ⟨prev.bodies.foldl (fun acc p => mapInsert idLt p.1 (p.2.CopyAfterDuration t) acc) self.bodies⟩

end Snapshot

/-- The type `Action` (`std::function<void(Snapshot *ss)>`).  The three lambdas that `Calculate`
builds are first-order values; a lambda handed to `AddInputEvent` is a function on the snapshot it
is called on.  `collideFixture id fid` stands for the lambda that captured the pointer to the
fixture stored under `fid`. -/
inductive Action (K : Type) where
  | stop (id : Int) : Action K
  | collide (id other_id : Int) : Action K
  | collideFixture (id fixture_id : Int) : Action K
  | input (f : Snapshot K → Snapshot K) : Action K

namespace Action

variable {K : Type} [LinearOrderedField K]

/-- Running an action on the snapshot `ss` it is handed; the second component is the `fixtures`
snapshot, which the fixture-collision lambda reaches through its captured pointer.  Where the
source would dereference a body that is not in the snapshot, nothing is changed. -/
def apply [SqrtOp K] (a : Action K) (st : Snapshot K × Snapshot K) : Snapshot K × Snapshot K :=
  match a with
  | stop id =>
    match st.1.GetBody id with
    | some b => (st.1.setBody id b.Stop, st.2)
    | none => st
  | collide id other_id =>
    match st.1.GetBody id, st.1.GetBody other_id with
    | some b, some o =>
      (((st.1.setBody id (b.ApplyCollision o).1).setBody other_id (b.ApplyCollision o).2), st.2)
    | _, _ => st
  | collideFixture id fixture_id =>
    match st.1.GetBody id, st.2.GetBody fixture_id with
    | some b, some o =>
      (st.1.setBody id (b.ApplyCollision o).1, st.2.setBody fixture_id (b.ApplyCollision o).2)
    | _, _ => st
  | input f => (f st.1, st.2)

end Action

/-- The type of `next_transition`: the duration after the last snapshot, and the actions. -/
abbrev Transition (K : Type) := Spf K × List (Action K)

/-- The class `System`. -/
structure System (K : Type) where
  snapshots : List (Spf K × Snapshot K)
  fixtures : Snapshot K
  input_queue : List (Spf K × List (Action K))
  next_transition : Transition K

section SystemCpp

variable {K : Type} [LinearOrderedField K]

/-- The member `ShouldAddTransition`, as a function of `next_transition`: the returned flag and
the updated `next_transition`. -/
def ShouldAddTransition (nt : Transition K) (t : Spf K) : Bool × Transition K :=
  if Spf.isnan t || decide (t > nt.1) then (false, nt)
  else (true, (t, if Spf.ceq nt.1 t then nt.2 else []))

/-- The pattern `if (ShouldAddTransition(t)) next_transition.second.emplace_back(act)`. -/
def addTransition (nt : Transition K) (t : Spf K) (act : Action K) : Transition K :=
  if (ShouldAddTransition nt t).1 then
    ((ShouldAddTransition nt t).2.1, (ShouldAddTransition nt t).2.2 ++ [act])
  else (ShouldAddTransition nt t).2

/-- First part of `Calculate`: the next input batch after `ts` (`input_queue.upper_bound(ts)`),
or NaN and no action. -/
def Calculate.inputs (ts : Spf K) (queue : List (Spf K × List (Action K))) : Transition K :=
  match queue.find? (fun e => Spf.ltb ts e.1) with
  | some e => (e.1 - ts, e.2)
  | none => (Spf.nan, [])

/-- Second part of `Calculate`: the loop "Check for friction stops". -/
def Calculate.frictionStops [SqrtOp K] (bodies : List (Int × Body K)) (nt : Transition K) :
    Transition K :=
  bodies.foldl (fun nt p =>
    if p.2.IsStopped then nt else addTransition nt p.2.TimeUntilStop (Action.stop p.1)) nt

/-- The body of the loop "Check for collisions" for one body `p`, with the entries before and
after it in the map. -/
def Calculate.collisionsOf [SqrtOp K] (P : PolySolver K) (fixtures : Snapshot K)
    (before after : List (Int × Body K)) (p : Int × Body K) (nt : Transition K) :
    Transition K :=
  if p.2.IsStopped then nt
  else
    let nt1 := before.foldl (fun nt o =>
      if !o.2.IsStopped then nt
      else addTransition nt (p.2.TimeUntilCollide P o.2 nt.1) (Action.collide p.1 o.1)) nt
    let nt2 := after.foldl (fun nt o =>
      addTransition nt (p.2.TimeUntilCollide P o.2 nt.1) (Action.collide p.1 o.1)) nt1
    fixtures.bodies.foldl (fun nt o =>
      addTransition nt (p.2.TimeUntilCollide P o.2 nt.1) (Action.collideFixture p.1 o.1)) nt2

/-- Third part of `Calculate`: the loop "Check for collisions" over the bodies `rest`, the
entries `before` having been visited. -/
def Calculate.collisions [SqrtOp K] (P : PolySolver K) (fixtures : Snapshot K) :
    List (Int × Body K) → List (Int × Body K) → Transition K → Transition K
  | _, [], nt => nt
  | before, p :: after, nt =>
    Calculate.collisions P fixtures (before ++ [p]) after
      (Calculate.collisionsOf P fixtures before after p nt)

/-- What `Calculate` stores in `next_transition`, from the last snapshot `(ts, ss)`. -/
def Calculate.nextTransition [SqrtOp K] (P : PolySolver K) (ts : Spf K) (ss : Snapshot K)
    (fixtures : Snapshot K) (queue : List (Spf K × List (Action K))) : Transition K :=
  Calculate.collisions P fixtures [] ss.bodies
    (Calculate.frictionStops ss.bodies (Calculate.inputs ts queue))

/-- The member `Calculate`.  On an empty timeline the source steps back from `cend()`; here the
system is returned as it is. -/
def Calculate [SqrtOp K] (P : PolySolver K) (sys : System K) : System K :=
  match sys.snapshots.getLast? with
  | none => sys
  | some e =>
    { sys with
      next_transition := Calculate.nextTransition P e.1 e.2 sys.fixtures sys.input_queue }

/-- The guard of `CalculateToTime`: `t > end->first + next_transition.first`. -/
def CalculateToTime.due (t : Spf K) (sys : System K) : Bool :=
  match sys.snapshots.getLast? with
  | none => false
  | some e => decide (t > e.1 + sys.next_transition.1)

/-- The body of `CalculateToTime` after the guard, up to and including the call of `Calculate`.

`snapshots[key]` yields the snapshot stored under `key`, or a new map entry.  The source
default-constructs the new entry, a null `unique_ptr`, and calls `FillFromPrevious` through it:
`fresh` is what that call acts on, `none` for the null pointer as written (the call has no
result) and `some ⟨[]⟩` for a newly allocated empty snapshot. -/
def CalculateToTime.advance [SqrtOp K] (P : PolySolver K) (fresh : Option (Snapshot K))
    (sys : System K) : Option (System K) :=
  match sys.snapshots.getLast? with
  | none => none
  | some e =>
    let key := e.1 + sys.next_transition.1
    match (mapFind Spf.ltb key sys.snapshots).orElse (fun _ => fresh) with
    | none => none
    | some ss0 =>
      let ss1 := ss0.FillFromPrevious e.2 sys.next_transition.1
      let st := sys.next_transition.2.foldl (fun st a => a.apply st) (ss1, sys.fixtures)
      some (Calculate P
        { sys with
          snapshots := mapInsert Spf.ltb key st.1 sys.snapshots
          fixtures := st.2 })

/-- The member `CalculateToTime`; `fuel` bounds the depth of the recursive self-call, and `none`
means that no state is returned within that depth. -/
def CalculateToTime [SqrtOp K] (P : PolySolver K) (fresh : Option (Snapshot K)) :
    Nat → Spf K → System K → Option (System K)
  | 0, _, _ => none
  | fuel + 1, t, sys =>
    if CalculateToTime.due t sys then
      match CalculateToTime.advance P fresh sys with
      | none => none
      | some sys' => CalculateToTime P fresh fuel t sys'
    else some sys

/-- The member `RewindToTime`: erase from `lower_bound(ts)` to the end, reset and recompute
`next_transition`. -/
def RewindToTime [SqrtOp K] (P : PolySolver K) (ts : Spf K) (sys : System K) : System K :=
  Calculate P
    { sys with
      snapshots := sys.snapshots.takeWhile (fun e => Spf.ltb e.1 ts)
      next_transition := (Spf.nan, []) }

/-- The member `AddInputEvent`: `input_queue[ts].push_back(action)`, then `RewindToTime(ts)`. -/
def AddInputEvent [SqrtOp K] (P : PolySolver K) (ts : Spf K) (action : Action K)
    (sys : System K) : System K :=
  RewindToTime P ts
    { sys with
      input_queue := mapInsert Spf.ltb ts
        (((mapFind Spf.ltb ts sys.input_queue).getD []) ++ [action]) sys.input_queue }

/-- The member `AddImpulseEvent`. -/
def AddImpulseEvent [SqrtOp K] (P : PolySolver K) (ts : Spf K) (id : Int) (line : Vec2d K)
    (sys : System K) : System K :=
  AddInputEvent P ts
    (Action.input (fun ss =>
      match ss.GetBody id with
      | some b => ss.setBody id (b.AddVelocity line)
      | none => ss)) sys

/-- The member `At`: the last snapshot whose key is not greater than `ts`
(`std::prev(snapshots.upper_bound(ts))`) and the duration since it; no result when there is no
such snapshot. -/
def At (ts : Spf K) (sys : System K) : Option (Spf K × Snapshot K) :=
  match (sys.snapshots.takeWhile (fun e => !(Spf.ltb ts e.1))).getLast? with
  | none => none
  | some e => some (ts - e.1, e.2)

/-- A candidate event of `Calculate`: its duration, as a function of the best duration found so
far (the horizon handed to `TimeUntilCollide`), and the action scheduled for it. -/
abbrev Candidate (K : Type) := (Spf K → Spf K) × Action K

/-- The candidates of the loop "Check for friction stops": one per body that is not stopped. -/
def Calculate.stopCandidates [SqrtOp K] (bodies : List (Int × Body K)) : List (Candidate K) :=
  (bodies.filter (fun p => !p.2.IsStopped)).map
    (fun p => (fun _ => p.2.TimeUntilStop, Action.stop p.1))

/-- The candidates of the loop "Check for collisions" for one body `p`: the stopped bodies before
it, all bodies after it, all fixtures; none when `p` is stopped. -/
def Calculate.collisionCandidatesOf [SqrtOp K] (P : PolySolver K) (fixtures : Snapshot K)
    (before after : List (Int × Body K)) (p : Int × Body K) : List (Candidate K) :=
  if p.2.IsStopped then []
  else
    (before.filter (fun o => o.2.IsStopped)).map
        (fun o => (fun m => p.2.TimeUntilCollide P o.2 m, Action.collide p.1 o.1))
      ++ after.map (fun o => (fun m => p.2.TimeUntilCollide P o.2 m, Action.collide p.1 o.1))
      ++ fixtures.bodies.map
        (fun o => (fun m => p.2.TimeUntilCollide P o.2 m, Action.collideFixture p.1 o.1))

/-- The candidates of the loop "Check for collisions", in the order of the scan. -/
def Calculate.collisionCandidates [SqrtOp K] (P : PolySolver K) (fixtures : Snapshot K) :
    List (Int × Body K) → List (Int × Body K) → List (Candidate K)
  | _, [] => []
  | before, p :: after =>
    Calculate.collisionCandidatesOf P fixtures before after p
      ++ Calculate.collisionCandidates P fixtures (before ++ [p]) after

/-- All candidates that `Calculate` examines after seeding with the next input batch. -/
def Calculate.candidates [SqrtOp K] (P : PolySolver K) (fixtures : Snapshot K)
    (bodies : List (Int × Body K)) : List (Candidate K) :=
  Calculate.stopCandidates bodies ++ Calculate.collisionCandidates P fixtures [] bodies

/-- Examining candidates one after the other, each with `ShouldAddTransition`. -/
def scanCandidates (cands : List (Candidate K)) (nt : Transition K) : Transition K :=
  cands.foldl (fun nt c => addTransition nt (c.1 nt.1) c.2) nt

/-- The duration each candidate has when it is examined, with its action. -/
def observedDurations : List (Candidate K) → Transition K → List (Spf K × Action K)
  | [], _ => []
  | c :: rest, nt =>
    (c.1 nt.1, c.2) :: observedDurations rest (addTransition nt (c.1 nt.1) c.2)

/-- A first-order view of an action: kind (0 stop, 1 collide, 2 collide with fixture, 3 input)
and the identities it names. -/
def Action.code : Action K → Nat × Int × Int
  | Action.stop id => (0, id, 0)
  | Action.collide id other_id => (1, id, other_id)
  | Action.collideFixture id fixture_id => (2, id, fixture_id)
  | Action.input _ => (3, 0, 0)

/-- The calls of `TimeUntilCollide` made by the loop "Check for collisions" over the bodies
`rest`, the entries `before` having been visited, in the order of the scan.  Every candidate of
the scan is one call `it->second->TimeUntilCollide(*other, ...)`; it is recorded by the code of
the action scheduled for it: `(1, id, other_id)` when `other` is a body of the snapshot and
`(2, id, fixture_id)` when it is a fixture, `id` being the body the call is invoked on. -/
def Calculate.collisionCalls [SqrtOp K] (P : PolySolver K) (fixtures : Snapshot K)
    (before rest : List (Int × Body K)) : List (Nat × Int × Int) :=
  (Calculate.collisionCandidates P fixtures before rest).map (fun c => c.2.code)

/-- Fixtures that no collision response changes: every fixture has mass NaN or infinite mass
(`System.h`: static bodies that never move or change properties). -/
def FixturesStatic (fixtures : Snapshot K) : Prop :=
  ∀ p ∈ fixtures.bodies, Spf.isnan p.2.Mass = true ∨ Spf.isinf p.2.Mass = true

/-- A system as the operations of `System` leave it: the timeline is not empty, its keys are
increasing and not NaN, `next_transition` is what `Calculate` computes from the last snapshot, and
the fixtures are static. -/
structure System.WellFormed [SqrtOp K] (P : PolySolver K) (s : System K) : Prop where
  sorted : s.snapshots.Pairwise (fun a b => Spf.ltb a.1 b.1 = true)
  last_ne_nan : ∃ l e, s.snapshots = l ++ [e] ∧ e.1 ≠ Spf.nan
  calculated : Calculate P s = s
  static : FixturesStatic s.fixtures

end SystemCpp

/-! ## Quantities the properties are stated with -/

section Quantities

variable {K : Type} [LinearOrderedField K]

/-- The vector sum `mass * velocity` of two bodies. -/
def momentum (a b : BodyData K) : Vec2d K :=
  a.velocity * a.mass + b.velocity * b.mass

/-- The total kinetic energy `(1/2) m |v|^2` of two bodies. -/
def kineticEnergy (a b : BodyData K) : Spf K :=
  Spf.fin (1 / 2) * a.mass * a.velocity.SqrMagnitude
    + Spf.fin (1 / 2) * b.mass * b.velocity.SqrMagnitude

/-- The squared distance from the point `(px, py)` to the point of the segment from `(ax, ay)` to
`(cx, cy)` with parameter `u`: `|a + u (c - a) - p|^2`. -/
def segPointDistSq (px py ax ay cx cy u : K) : K :=
  (ax + u * (cx - ax) - px) * (ax + u * (cx - ax) - px)
    + (ay + u * (cy - ay) - py) * (ay + u * (cy - ay) - py)

/-- A parameter clamped to the interval `[0, 1]`. -/
def clamp01 (u : K) : K := max 0 (min 1 u)

/-- The invariant of the data model: a stopped body has the zero vector as velocity. -/
def StoppedConsistent (b : BodyData K) : Prop :=
  b.stopped = true → b.velocity = Vec2d.Zero

/-- The derivative `2at + b` of `a t^2 + b t + c` at `t`. -/
def quadraticDerivative (a b t : K) : K := 2 * a * t + b

/-- The derivative `4at^3 + 3bt^2 + 2ct + d` of `a t^4 + b t^3 + c t^2 + d t + e` at `t`. -/
def quarticDerivative (a b c d t : K) : K := 4 * a * t ^ 3 + 3 * b * t ^ 2 + 2 * c * t + d

/-- The magnitude of `v` is computed exactly: `Magnitude()` is a finite `m >= 0` whose square is
`SqrMagnitude()`. -/
def ExactMagnitude [SqrtOp K] (v : Vec2d K) : Prop :=
  ∃ m : K, 0 ≤ m ∧ v.Magnitude = Spf.fin m ∧ v.SqrMagnitude = Spf.fin (m * m)

end Quantities

/-! ## Concrete inputs over the rationals -/

section Inputs

/-- A point or vector with rational coordinates. -/
def vec (x y : ℚ) : Vec2d ℚ := ⟨Spf.fin x, Spf.fin y⟩

/-- A circle as the constructor leaves it, then given a velocity with `AddVelocity`. -/
def movingCircle (id : Int) (pos vel : Vec2d ℚ) (r fric mas : Spf ℚ) : Circle ℚ :=
  { Circle.new id none pos r fric mas with
    toBodyData := (Circle.new id none pos r fric mas).toBodyData.AddVelocity vel }

/-- Collision test body: mass 1 at the origin with velocity `(2, 1)`. -/
def obliqueA : Circle ℚ := movingCircle 1 (vec 0 0) (vec 2 1) (Spf.fin 1) (Spf.fin 0) (Spf.fin 1)

/-- Collision test body: mass 3 at `(3, 4)` with velocity `(-1, 0)`. -/
def obliqueB : Circle ℚ := movingCircle 2 (vec 3 4) (vec (-1) 0) (Spf.fin 1) (Spf.fin 0) (Spf.fin 3)

/-- Head-on scenario, first circle: radius 1, mass 1, friction 0, at `(0,0)`, velocity `(1,0)`. -/
def headOnA : Circle ℚ := movingCircle 1 (vec 0 0) (vec 1 0) (Spf.fin 1) (Spf.fin 0) (Spf.fin 1)

/-- Head-on scenario, second circle: radius 1, mass 1, friction 0, at `(10,0)`, velocity `(-1,0)`. -/
def headOnB : Circle ℚ := movingCircle 2 (vec 10 0) (vec (-1) 0) (Spf.fin 1) (Spf.fin 0) (Spf.fin 1)

/-- Wall scenario: a `Line` fixture on the y-axis from `(0,-10)` to `(0,10)`. -/
def wall : Line ℚ := Line.new 3 none (vec 0 (-10)) (vec 0 10)

/-- Wall scenario: radius 1, mass 1, friction 0, at `(-5,0)`, velocity `(1,0)`. -/
def wallCircle : Circle ℚ :=
  movingCircle 1 (vec (-5) 0) (vec 1 0) (Spf.fin 1) (Spf.fin 0) (Spf.fin 1)

/-- Friction scenario: velocity `(3,4)` (magnitude 5), friction value 2, mass 1. -/
def frictionCircle : Circle ℚ :=
  movingCircle 1 (vec 0 0) (vec 3 4) (Spf.fin 1) (Spf.fin 2) (Spf.fin 1)

/-- A solver that reports no real root, whatever it is given. -/
def noRootSolver : PolySolver ℚ :=
  { SolveP3 := fun _ _ _ => ⟨Spf.nan, Spf.nan, Spf.nan, Spf.nan, 0⟩
    SolveP4 := fun _ _ _ _ => ⟨Spf.nan, Spf.nan, Spf.nan, Spf.nan, 0⟩ }

/-- Timeline scenario: at time 0 the circle `frictionCircle` (it stops after `5/2`), the wall as
the only fixture, no input; `Calculate` has been called. -/
def frictionSystem : System ℚ :=
  Calculate noRootSolver
    { snapshots := [(Spf.fin 0, ⟨[(1, Body.circle frictionCircle)]⟩)]
      fixtures := ⟨[(3, Body.line wall)]⟩
      input_queue := []
      next_transition := (Spf.nan, []) }

/-- Timeline scenario: the state after `CalculateToTime(10)`, new map entries being allocated. -/
def frictionSystemAt10 : System ℚ :=
  (CalculateToTime noRootSolver (some ⟨[]⟩) 5 (Spf.fin 10) frictionSystem).getD frictionSystem

/-- Horizon scenario: radius 1, friction value 1, at `(-7,0)`, velocity `(4,0)`; it touches the
wall on the y-axis at time 2. -/
def horizonCircle : Circle ℚ :=
  movingCircle 1 (vec (-7) 0) (vec 4 0) (Spf.fin 1) (Spf.fin 1) (Spf.fin 1)

/-- Segment from `(0,0)` to `(1,0)`. -/
def segFlat : LineSeg ℚ := ⟨vec 0 0, vec 1 0⟩

/-- Segment from `(5,-1)` to `(5,1)`: it has no point in common with `segFlat`, the nearest points
being `(1,0)` and `(5,0)`. -/
def segFar : LineSeg ℚ := ⟨vec 5 (-1), vec 5 1⟩

/-- Segment from `(0,0)` to `(2,2)`. -/
def segDiag : LineSeg ℚ := ⟨vec 0 0, vec 2 2⟩

/-- Segment from `(3,-1)` to `(-1,3)`: it crosses `segDiag` at the single point `(1,1)`. -/
def segAnti : LineSeg ℚ := ⟨vec 3 (-1), vec (-1) 3⟩

/-- A timeline with three empty snapshots at times 0, 2 and 5. -/
def threeSnapshots : System ℚ :=
  { snapshots := [(Spf.fin 0, ⟨[]⟩), (Spf.fin 2, ⟨[]⟩), (Spf.fin 5, ⟨[]⟩)]
    fixtures := ⟨[]⟩
    input_queue := []
    next_transition := (Spf.nan, []) }

/-- A circle that is not stopped and has zero velocity: the constructor followed by
`AddVelocity(Vec2d::Zero)`; friction value 1. -/
def idleCircle : Circle ℚ :=
  movingCircle 1 (vec 0 0) (vec 0 0) (Spf.fin 1) (Spf.fin 1) (Spf.fin 1)

/-- A timeline whose only snapshot, at time 0, holds `idleCircle`; `Calculate` has been called. -/
def idleSystem : System ℚ :=
  Calculate noRootSolver
    { snapshots := [(Spf.fin 0, ⟨[(1, Body.circle idleCircle)]⟩)]
      fixtures := ⟨[]⟩
      input_queue := []
      next_transition := (Spf.nan, []) }

/-- Equal-mass hit, the moving circle: mass 1, friction value 1, at `(0,0)`, velocity `(1,0)`. -/
def hitMoving : Circle ℚ :=
  movingCircle 1 (vec 0 0) (vec 1 0) (Spf.fin 1) (Spf.fin 1) (Spf.fin 1)

/-- Equal-mass hit, the resting circle: mass 1, friction value 1, at `(2,0)`, as constructed. -/
def hitResting : Circle ℚ :=
  Circle.new 2 none (vec 2 0) (Spf.fin 1) (Spf.fin 1) (Spf.fin 1)

/-- What a snapshot shows of one body: identity, position, velocity and stopped flag. -/
structure BodyView where
  id : Int
  position : Vec2d ℚ
  velocity : Vec2d ℚ
  stopped : Bool
deriving DecidableEq

/-- What a timeline shows of itself: per snapshot its key and the view of each body. -/
def timelineView (s : System ℚ) : List (Spf ℚ × List BodyView) :=
  s.snapshots.map (fun e =>
    (e.1, e.2.bodies.map (fun p => ⟨p.1, p.2.Position, p.2.Velocity, p.2.IsStopped⟩)))

/-- Tied-events scenario, second body: like `frictionCircle` (it stops after `5/2`), at
`(100,0)` with velocity `(-3,-4)`. -/
def frictionTwin : Circle ℚ :=
  movingCircle 2 (vec 100 0) (vec (-3) (-4)) (Spf.fin 1) (Spf.fin 2) (Spf.fin 1)

/-- Tied-events scenario: the snapshot with `frictionCircle` and `frictionTwin`. -/
def tiedSnapshot : Snapshot ℚ :=
  ⟨[(1, Body.circle frictionCircle), (2, Body.circle frictionTwin)]⟩

/-- Tied-events scenario: an input queue with one batch, of one action, at time `5/2`. -/
def tiedQueue : List (Spf ℚ × List (Action ℚ)) :=
  [(Spf.fin (5 / 2), [Action.input (fun ss => ss)])]

/-- A solver that reports the two real roots of `t^4 - 2t^3 + 2t^2 - 2t + 1 = (t-1)^2 (t^2+1)`,
the double root 1, and leaves the complex pair `0 ± 1i` in the last two slots. -/
def grazingSolver : PolySolver ℚ :=
  { SolveP3 := fun _ _ _ => ⟨Spf.fin 1, Spf.fin 0, Spf.fin 1, Spf.nan, 1⟩
    SolveP4 := fun _ _ _ _ => ⟨Spf.fin 1, Spf.fin 1, Spf.fin 0, Spf.fin 1, 2⟩ }

/-- Earliest-event scenario, second body: at `(100,0)` with velocity `(0,-1)` and friction
value 2; it stops after `1/2`. -/
def briefCircle : Circle ℚ :=
  movingCircle 2 (vec 100 0) (vec 0 (-1)) (Spf.fin 1) (Spf.fin 2) (Spf.fin 1)

/-- Earliest-event scenario: at time 0 the circles `frictionCircle` (it stops after `5/2`) and
`briefCircle` (it stops after `1/2`), the wall as the only fixture, one input batch at time 7. -/
def earliestSystem : System ℚ :=
  { snapshots := [(Spf.fin 0, ⟨[(1, Body.circle frictionCircle), (2, Body.circle briefCircle)]⟩)]
    fixtures := ⟨[(3, Body.line wall)]⟩
    input_queue := [(Spf.fin 7, [Action.input (fun ss => ss)])]
    next_transition := (Spf.nan, []) }

/-- Pair-scan scenario: the bodies 1 and 4 are stopped, the bodies 2 and 5 are not. -/
def scanSnapshot : Snapshot ℚ :=
  ⟨[(1, Body.circle (Circle.new 1 none (vec 0 0) (Spf.fin 1) (Spf.fin 1) (Spf.fin 1))),
    (2, Body.circle (movingCircle 2 (vec 10 0) (vec 1 0) (Spf.fin 1) (Spf.fin 1) (Spf.fin 1))),
    (4, Body.circle (Circle.new 4 none (vec 20 0) (Spf.fin 1) (Spf.fin 1) (Spf.fin 1))),
    (5, Body.circle (movingCircle 5 (vec 30 0) (vec 0 1) (Spf.fin 1) (Spf.fin 1) (Spf.fin 1)))]⟩

end Inputs

/-! ## Lemmas: arithmetic on finite values -/

set_option linter.unusedSectionVars false

section Lemmas

variable {K : Type} [LinearOrderedField K]

namespace Spf

@[simp] theorem fin_add_fin (x y : K) : (fin x + fin y : Spf K) = fin (x + y) := rfl

@[simp] theorem fin_mul_fin (x y : K) : (fin x * fin y : Spf K) = fin (x * y) := rfl

@[simp] theorem neg_fin (x : K) : (-(fin x) : Spf K) = fin (-x) := rfl

@[simp] theorem fin_sub_fin (x y : K) : (fin x - fin y : Spf K) = fin (x - y) := by
  show add (fin x) (neg (fin y)) = fin (x - y)
  simp [add, neg, sub_eq_add_neg]

theorem fin_div_fin (x : K) {y : K} (h : y ≠ 0) : (fin x / fin y : Spf K) = fin (x / y) := by
  show div (fin x) (fin y) = fin (x / y)
  simp [div, h]

@[simp] theorem fin_lt_fin (x y : K) : (fin x < fin y) ↔ x < y := by
  show ltb (fin x) (fin y) = true ↔ x < y
  simp [ltb]

@[simp] theorem fin_le_fin (x y : K) : (fin x ≤ fin y) ↔ x ≤ y := by
  show leb (fin x) (fin y) = true ↔ x ≤ y
  simp [leb, ltb]

@[simp] theorem ceq_fin_fin (x y : K) : ceq (fin x) (fin y) = decide (x = y) := rfl

@[simp] theorem isnan_fin (x : K) : isnan (fin x) = false := rfl

@[simp] theorem isinf_fin (x : K) : isinf (fin x) = false := rfl

@[simp] theorem pow2_fin (x : K) : pow2 (fin x) = fin (x * x) := rfl

@[simp] theorem not_lt_nan (x : Spf K) : ¬ (x < nan) := by
  show ¬ (ltb x nan = true)
  cases x <;> simp [ltb]

@[simp] theorem not_nan_lt (x : Spf K) : ¬ (nan < x) := by
  show ¬ (ltb nan x = true)
  cases x <;> simp [ltb]

@[simp] theorem not_le_nan (x : Spf K) : ¬ (x ≤ nan) := by
  show ¬ (leb x nan = true)
  cases x <;> simp [leb]

@[simp] theorem not_nan_le (x : Spf K) : ¬ (nan ≤ x) := by
  show ¬ (leb nan x = true)
  cases x <;> simp [leb]

@[simp] theorem fin_lt_pinf (x : K) : fin x < pinf := by
  show ltb (fin x) pinf = true
  rfl

@[simp] theorem ninf_lt_fin (x : K) : ninf < fin x := by
  show ltb ninf (fin x) = true
  rfl

@[simp] theorem not_pinf_lt (x : Spf K) : ¬ (pinf < x) := by
  show ¬ (ltb pinf x = true)
  cases x <;> simp [ltb]

@[simp] theorem not_lt_ninf (x : Spf K) : ¬ (x < ninf) := by
  show ¬ (ltb x ninf = true)
  cases x <;> simp [ltb]

@[simp] theorem not_pinf_le_fin (x : K) : ¬ (pinf ≤ fin x) := by
  show ¬ (leb pinf (fin x) = true)
  simp [leb, ltb]

@[simp] theorem ninf_le_fin (x : K) : ninf ≤ fin x := by
  show leb ninf (fin x) = true
  simp [leb, ltb]

@[simp] theorem min_nan_left (x : Spf K) : min nan x = nan := by
  simp [min]

@[simp] theorem min_nan_right (x : Spf K) : min x nan = x := by
  simp [min]

theorem IsFinite.exists_eq {a : Spf K} (h : a.IsFinite) : ∃ x, a = fin x := by
  cases a <;> simp [IsFinite] at h
  exact ⟨_, rfl⟩

theorem sqrt_fin [SqrtOp K] {x : K} (h : 0 ≤ x) : sqrt (fin x) = fin (SqrtOp.sqrt x) := by
  simp [sqrt, not_lt.mpr h]

end Spf

theorem sqrMag_pos_aux {dx dy : K} (h : ¬ (dx = 0 ∧ dy = 0)) : 0 < dx * dx + dy * dy := by
  rcases not_and_or.mp h with h | h
  · have := mul_self_pos.mpr h; nlinarith [mul_self_nonneg dy]
  · have := mul_self_pos.mpr h; nlinarith [mul_self_nonneg dx]

namespace Vec2d
@[simp] theorem mk_sub_mk (a b c d : Spf K) : (Vec2d.mk a b - Vec2d.mk c d) = Vec2d.mk (a - c) (b - d) := rfl
@[simp] theorem mk_add_mk (a b c d : Spf K) : (Vec2d.mk a b + Vec2d.mk c d) = Vec2d.mk (a + c) (b + d) := rfl
@[simp] theorem mk_scale (a b n : Spf K) : (Vec2d.mk a b * n) = Vec2d.mk (a * n) (b * n) := rfl
@[simp] theorem neg_mk (a b : Spf K) : (-(Vec2d.mk a b)) = Vec2d.mk (-a) (-b) := rfl
theorem IsFinite.exists_mk {v : Vec2d K} (h : v.IsFinite) : ∃ x y, v = ⟨Spf.fin x, Spf.fin y⟩ := by
  obtain ⟨vx, vy⟩ := v
  obtain ⟨x, hx⟩ := Spf.IsFinite.exists_eq h.1
  obtain ⟨y, hy⟩ := Spf.IsFinite.exists_eq h.2
  simp only at hx hy
  exact ⟨x, y, by rw [hx, hy]⟩

/-- Normalising a finite vector whose magnitude is computed exactly gives a finite vector that is
zero (for the zero vector) or a unit vector parallel to it. -/
theorem normalized_fin [SqrtOp K] (dx dy : K)
    (hsq : (Vec2d.mk (Spf.fin dx) (Spf.fin dy)).Magnitude *
        (Vec2d.mk (Spf.fin dx) (Spf.fin dy)).Magnitude
      = (Vec2d.mk (Spf.fin dx) (Spf.fin dy)).SqrMagnitude) :
    ∃ nx ny : K, (Vec2d.mk (Spf.fin dx) (Spf.fin dy)).Normalized = ⟨Spf.fin nx, Spf.fin ny⟩ ∧
      ((dx = 0 ∧ dy = 0 ∧ nx = 0 ∧ ny = 0) ∨ (nx * nx + ny * ny = 1 ∧ nx * dy = ny * dx)) := by
  by_cases h0 : (dx = 0 ∧ dy = 0)
  · exact ⟨0, 0, by simp [Normalized, h0, Zero], Or.inl ⟨h0.1, h0.2, rfl, rfl⟩⟩
  · have hs := sqrMag_pos_aux h0
    simp only [Magnitude, SqrMagnitude, Spf.fin_mul_fin, Spf.fin_add_fin, Spf.sqrt_fin hs.le,
      Spf.fin.injEq] at hsq
    have hr : SqrtOp.sqrt (dx * dx + dy * dy) ≠ 0 := by
      intro h; rw [h] at hsq; simp at hsq; linarith
    refine ⟨dx * (1 / SqrtOp.sqrt (dx * dx + dy * dy)),
      dy * (1 / SqrtOp.sqrt (dx * dx + dy * dy)), ?_, Or.inr ⟨?_, ?_⟩⟩
    · have h0' : (decide (dx = 0) && decide (dy = 0)) = false := by
        simpa using h0
      simp only [Normalized, Spf.ceq_fin_fin, h0', Magnitude, SqrMagnitude, Spf.fin_mul_fin,
        Spf.fin_add_fin, Spf.sqrt_fin hs.le, Spf.fin_div_fin _ hr, mk_scale]
      simp
    · generalize SqrtOp.sqrt (dx * dx + dy * dy) = r at hsq hr
      field_simp
      linarith
    · ring

end Vec2d

/-- Momentum balance of the one-dimensional elastic formulas of `ApplyCollision`. -/
theorem elastic_momentum (ma mb avi bvi : K) (h : ma + mb ≠ 0) :
    ma * ((avi * (ma - mb) + 2 * mb * bvi) / (ma + mb) - avi)
      + mb * ((-bvi * (ma - mb) + 2 * ma * avi) / (ma + mb) - bvi) = 0 := by
  field_simp
  ring

/-- Energy balance of the one-dimensional elastic formulas of `ApplyCollision`. -/
theorem elastic_energy (ma mb avi bvi : K) (h : ma + mb ≠ 0) :
    ma * (((avi * (ma - mb) + 2 * mb * bvi) / (ma + mb)) ^ 2 - avi ^ 2)
      + mb * (((-bvi * (ma - mb) + 2 * ma * avi) / (ma + mb)) ^ 2 - bvi ^ 2) = 0 := by
  field_simp
  ring

/-- The finite-mass branch of `ApplyCollision` on finite data, written out. -/
theorem applyCollision_fin [SqrtOp K] (self : Circle K) (other : Body K)
    (vax vay vbx vby ma mb nx ny : K)
    (hva : self.velocity = ⟨Spf.fin vax, Spf.fin vay⟩) (hvb : other.Velocity = ⟨Spf.fin vbx, Spf.fin vby⟩)
    (hma : self.mass = Spf.fin ma) (hmb : other.Mass = Spf.fin mb) (hM : ma + mb ≠ 0)
    (hn : self.CollisionDir other = ⟨Spf.fin nx, Spf.fin ny⟩) :
    (self.ApplyCollision other).1.velocity =
        ⟨Spf.fin (vax + nx * (((vax * nx + vay * ny) * (ma - mb) + 2 * mb * (vbx * nx + vby * ny))
            / (ma + mb) - (vax * nx + vay * ny))),
         Spf.fin (vay + ny * (((vax * nx + vay * ny) * (ma - mb) + 2 * mb * (vbx * nx + vby * ny))
            / (ma + mb) - (vax * nx + vay * ny)))⟩ ∧
      (self.ApplyCollision other).2.Velocity =
        ⟨Spf.fin (vbx + nx * ((-(vbx * nx + vby * ny) * (ma - mb) + 2 * ma * (vax * nx + vay * ny))
            / (ma + mb) - (vbx * nx + vby * ny))),
         Spf.fin (vby + ny * ((-(vbx * nx + vby * ny) * (ma - mb) + 2 * ma * (vax * nx + vay * ny))
            / (ma + mb) - (vbx * nx + vby * ny)))⟩ ∧
      (self.ApplyCollision other).1.mass = Spf.fin ma ∧
      (self.ApplyCollision other).2.Mass = Spf.fin mb := by
  have hvel : ∀ (o : Body K) (v : Vec2d K), (o.AddVelocity v).Velocity = o.Velocity + v := by
    intro o v; cases o <;> rfl
  have hmass : ∀ (o : Body K) (v : Vec2d K), (o.AddVelocity v).Mass = o.Mass := by
    intro o v; cases o <;> rfl
  simp only [Circle.ApplyCollision, hn, hva, hvb, hma, hmb, Spf.isnan_fin, Spf.isinf_fin,
    Bool.false_eq_true, if_false, hvel, hmass, BodyData.AddVelocity, Vec2d.Dot, Spf.fin_mul_fin,
    Spf.fin_add_fin, Spf.fin_sub_fin, Spf.neg_fin, Spf.fin_div_fin _ hM, Vec2d.mk_scale, Vec2d.mk_add_mk]
  simp
theorem movingCircle_velocity (id : Int) (pos : Vec2d ℚ) (x y : ℚ) (r fric mas : Spf ℚ) :
    (movingCircle id pos (vec x y) r fric mas).velocity = ⟨Spf.fin x, Spf.fin y⟩ := by
  simp [movingCircle, Circle.new, BodyData.new, BodyData.AddVelocity, vec, Vec2d.Zero]

theorem ratSqrt_25 : (SqrtOp.sqrt (25 : ℚ)) = 5 := by
  show Rat.sqrt 25 = 5
  norm_num [Rat.sqrt]

theorem oblique_distance_exact :
    (obliqueB.position - obliqueA.position).Magnitude *
        (obliqueB.position - obliqueA.position).Magnitude =
      (obliqueB.position - obliqueA.position).SqrMagnitude := by
  simp [obliqueA, obliqueB, movingCircle, Circle.new, BodyData.new, BodyData.AddVelocity, vec,
    Vec2d.Magnitude, Vec2d.SqrMagnitude, Spf.sqrt]
  norm_num [ratSqrt_25]

theorem oblique_finite :
    obliqueA.position.IsFinite ∧ obliqueB.position.IsFinite ∧
      obliqueA.velocity.IsFinite ∧ obliqueB.velocity.IsFinite := by
  simp [obliqueA, obliqueB, movingCircle, Circle.new, BodyData.new, BodyData.AddVelocity, vec,
    Vec2d.IsFinite, Spf.IsFinite, Vec2d.Zero]

/-- The infinite-mass branch of `ApplyCollision`. -/
theorem applyCollision_inf [SqrtOp K] (self : Circle K) (other : Body K)
    (hinf : Spf.isinf other.Mass = true) :
    self.ApplyCollision other =
      (({ self with velocity := self.velocity -
            self.CollisionDir other *
              (Vec2d.Dot self.velocity (self.CollisionDir other) * Spf.fin 2) } : Circle K),
        other) := by
  have hnan : Spf.isnan other.Mass = false := by
    cases h : other.Mass <;> simp [h, Spf.isinf, Spf.isnan] at hinf ⊢
  simp only [Circle.ApplyCollision, hnan, hinf, if_true, Bool.false_eq_true, if_false]

/-- The infinite-mass branch of `ApplyCollision` on a finite velocity and direction. -/
theorem applyCollision_inf_fin [SqrtOp K] (self : Circle K) (other : Body K)
    (hinf : Spf.isinf other.Mass = true) (vx vy nx ny : K)
    (hv : self.velocity = ⟨Spf.fin vx, Spf.fin vy⟩)
    (hn : self.CollisionDir other = ⟨Spf.fin nx, Spf.fin ny⟩) :
    (self.ApplyCollision other).1.velocity =
      ⟨Spf.fin (vx - 2 * (vx * nx + vy * ny) * nx),
       Spf.fin (vy - 2 * (vx * nx + vy * ny) * ny)⟩ := by
  rw [applyCollision_inf self other hinf]
  simp only [hv, hn, Vec2d.Dot, Spf.fin_mul_fin, Spf.fin_add_fin, Vec2d.mk_scale,
    Vec2d.mk_sub_mk, Spf.fin_sub_fin, Vec2d.mk.injEq, Spf.fin.injEq]
  constructor <;> ring

/-- The normal of a segment of the y-axis, computed exactly, is `(1,0)` or `(-1,0)`. -/
theorem normal_yaxis [SqrtOp K] (id : Int) (e : Option Nat) (y1 y2 : K) (hne : y1 ≠ y2)
    (hsq : SqrtOp.sqrt ((y1 - y2) * (y1 - y2)) * SqrtOp.sqrt ((y1 - y2) * (y1 - y2))
        = (y1 - y2) * (y1 - y2)) :
    ∃ nx : K, (Line.new id e ⟨Spf.fin 0, Spf.fin y1⟩ ⟨Spf.fin 0, Spf.fin y2⟩).Normal
      = ⟨Spf.fin nx, Spf.fin 0⟩ ∧ nx * nx = 1 := by
  have hsq' : (Vec2d.mk (Spf.fin (y1 - y2)) (Spf.fin (0 - 0)) : Vec2d K).Magnitude *
      (Vec2d.mk (Spf.fin (y1 - y2)) (Spf.fin (0 - 0)) : Vec2d K).Magnitude =
      (Vec2d.mk (Spf.fin (y1 - y2)) (Spf.fin (0 - 0)) : Vec2d K).SqrMagnitude := by
    have h0 : (0 : K) ≤ (y1 - y2) * (y1 - y2) := mul_self_nonneg _
    simp only [Vec2d.Magnitude, Vec2d.SqrMagnitude, Spf.fin_mul_fin, Spf.fin_add_fin, sub_zero,
      mul_zero, add_zero, Spf.sqrt_fin h0, hsq]
  obtain ⟨nx, ny, hn, hcases⟩ := Vec2d.normalized_fin _ _ hsq'
  have hd : y1 - y2 ≠ 0 := sub_ne_zero.mpr hne
  rcases hcases with ⟨h, -⟩ | ⟨hunit, hpar⟩
  · exact absurd h hd
  · have hny : ny = 0 := by
      have : ny * (y1 - y2) = 0 := by rw [← hpar]; ring
      rcases mul_eq_zero.mp this with h | h
      · exact h
      · exact absurd h hd
    subst hny
    refine ⟨nx, ?_, by linarith⟩
    simp only [Line.Normal, Line.new, BodyData.new, Spf.fin_sub_fin, hn]

theorem Spf.min_cases (a b : Spf K) : Spf.min a b = a ∨ Spf.min a b = b := by
  unfold Spf.min
  split
  · exact Or.inr rfl
  · exact Or.inl rfl

theorem Spf.nan_or_pos_of_not_le (t : Spf K) (h : ¬ t ≤ Spf.fin 0) :
    t = Spf.nan ∨ Spf.fin 0 < t := by
  cases t with
  | nan => exact Or.inl rfl
  | ninf => exact absurd (show Spf.leb Spf.ninf (Spf.fin (0:K)) = true by simp [Spf.leb, Spf.ltb]) h
  | fin x =>
    right
    rw [Spf.fin_le_fin] at h
    rw [Spf.fin_lt_fin]
    exact not_le.mp h
  | pinf => exact Or.inr (show Spf.ltb (Spf.fin (0:K)) Spf.pinf = true by simp [Spf.ltb])

theorem quadraticInvalidate_nan_or_pos (a b : Spf K) (oi : Bool) (t : Spf K) :
    SolveQuadratic.InvalidateBadRoot a b oi t = Spf.nan ∨
      Spf.fin 0 < SolveQuadratic.InvalidateBadRoot a b oi t := by
  unfold SolveQuadratic.InvalidateBadRoot
  by_cases h : t ≤ Spf.fin 0
  · simp [h]
  · simp only [h, if_false]
    have ht := Spf.nan_or_pos_of_not_le t h
    split
    · split
      · exact Or.inl rfl
      · exact ht
    · exact ht

theorem quarticInvalidate_nan_or_pos (a b c d : Spf K) (oi : Bool) (t : Spf K) :
    SolveQuartic.InvalidateBadRoot a b c d oi t = Spf.nan ∨
      Spf.fin 0 < SolveQuartic.InvalidateBadRoot a b c d oi t := by
  unfold SolveQuartic.InvalidateBadRoot
  by_cases h : t ≤ Spf.fin 0
  · simp [h]
  · simp only [h, if_false]
    have ht := Spf.nan_or_pos_of_not_le t h
    split
    · split
      · exact Or.inl rfl
      · exact ht
    · exact ht

theorem ratSqrt_1 : (SqrtOp.sqrt (1 : ℚ)) = 1 := by
  show Rat.sqrt 1 = 1
  norm_num [Rat.sqrt]

theorem headOn_not_rejected :
    ¬ (LineSegsDistanceSquared ⟨headOnA.position, headOnA.PositionAfterDuration (Spf.fin 10)⟩
        ⟨headOnB.position, headOnB.PositionAfterDuration (Spf.fin 10)⟩
      > Spf.pow2 (headOnA.radius + headOnB.radius)) := by decide!

theorem headOn_coefficients :
    (Spf.pow2 (headOnB.Acceleration - headOnA.Acceleration).x
        + Spf.pow2 (headOnB.Acceleration - headOnA.Acceleration).y) / Spf.fin 4 = Spf.fin 0 ∧
    (headOnB.velocity - headOnA.velocity).x * (headOnB.Acceleration - headOnA.Acceleration).x
        + (headOnB.velocity - headOnA.velocity).y * (headOnB.Acceleration - headOnA.Acceleration).y
      = Spf.fin 0 ∧
    Spf.pow2 (headOnB.velocity - headOnA.velocity).x + Spf.pow2 (headOnB.velocity - headOnA.velocity).y
        + ((headOnB.position - headOnA.position).x * (headOnB.Acceleration - headOnA.Acceleration).x
          + (headOnB.position - headOnA.position).y * (headOnB.Acceleration - headOnA.Acceleration).y)
      = Spf.fin 4 ∧
    ((headOnB.position - headOnA.position).x * (headOnB.velocity - headOnA.velocity).x
        + (headOnB.position - headOnA.position).y * (headOnB.velocity - headOnA.velocity).y)
        * Spf.fin 2 = Spf.fin (-40) ∧
    Spf.pow2 (headOnB.position - headOnA.position).x + Spf.pow2 (headOnB.position - headOnA.position).y
        - Spf.pow2 (headOnA.radius + headOnB.radius) = Spf.fin 96 ∧
    headOnB.IsTangible = true := by decide!

namespace Spf

theorem ltb_trans {a b c : Spf K} (h1 : ltb a b = true) (h2 : ltb b c = true) :
    ltb a c = true := by
  cases a <;> cases b <;> cases c <;> simp_all [ltb]
  exact lt_trans h1 h2

theorem ltb_asymm {a b : Spf K} (h : ltb a b = true) : ltb b a = false := by
  cases a <;> cases b <;> simp_all [ltb]
  exact le_of_lt h

theorem ne_nan_of_ltb_left {a b : Spf K} (h : ltb a b = true) : a ≠ nan := by
  cases a <;> simp_all [ltb]

theorem ne_nan_of_ltb_right {a b : Spf K} (h : ltb a b = true) : b ≠ nan := by
  cases a <;> cases b <;> simp_all [ltb]

theorem eq_of_ltb_false {a b : Spf K} (ha : a ≠ nan) (hb : b ≠ nan) (h1 : ltb a b = false)
    (h2 : ltb b a = false) : a = b := by
  cases a <;> cases b <;> simp_all [ltb]
  exact le_antisymm h2 h1

/-- From `a < b` and `b ≤ c` (as `¬ c < b` with `c` not NaN) follows `a < c`. -/
theorem ltb_of_ltb_of_ltb_false {a b c : Spf K} (hc : c ≠ nan) (h1 : ltb a b = true)
    (h2 : ltb c b = false) : ltb a c = true := by
  cases a <;> cases b <;> cases c <;> simp_all [ltb]
  exact lt_of_lt_of_le h1 h2

/-- From `t ≤ a` and `a < b` follows `t ≤ b`. -/
theorem ltb_false_of_ltb_false_of_ltb {a b t : Spf K} (h1 : ltb a t = false)
    (h2 : ltb a b = true) : ltb b t = false := by
  cases a <;> cases b <;> cases t <;> simp_all [ltb]
  exact le_trans h1 (le_of_lt h2)

end Spf

section MapLemmas
variable {κ V : Type}

theorem mapInsert_append_of_forall_lt (lt : κ → κ → Bool) (k : κ) (v : V) (l : List (κ × V))
    (hasymm : ∀ a b, lt a b = true → lt b a = false)
    (h : ∀ e ∈ l, lt e.1 k = true) : mapInsert lt k v l = l ++ [(k, v)] := by
  induction l with
  | nil => rfl
  | cons x rest ih =>
    obtain ⟨k', v'⟩ := x
    have hx : lt k' k = true := h (k', v') (List.mem_cons_self _ _)
    have hx' : lt k k' = false := hasymm _ _ hx
    simp only [mapInsert, hx, hx', Bool.false_eq_true, if_false, if_true, List.cons_append,
      List.cons.injEq, true_and]
    exact ih (fun e he => h e (List.mem_cons_of_mem _ he))

theorem mapInsert_replace_last (lt : κ → κ → Bool) (k kl : κ) (v vl : V) (l : List (κ × V))
    (hasymm : ∀ a b, lt a b = true → lt b a = false)
    (h : ∀ e ∈ l, lt e.1 k = true) (h1 : lt k kl = false) (h2 : lt kl k = false) :
    mapInsert lt k v (l ++ [(kl, vl)]) = l ++ [(kl, v)] := by
  induction l with
  | nil => simp [mapInsert, h1, h2]
  | cons x rest ih =>
    obtain ⟨k', v'⟩ := x
    have hx : lt k' k = true := h (k', v') (List.mem_cons_self _ _)
    have hx' : lt k k' = false := hasymm _ _ hx
    simp only [mapInsert, hx, hx', Bool.false_eq_true, if_false, if_true, List.cons_append,
      List.cons.injEq, true_and]
    exact ih (fun e he => h e (List.mem_cons_of_mem _ he))

theorem mapInsert_ne_nil (lt : κ → κ → Bool) (k : κ) (v : V) (l : List (κ × V)) :
    mapInsert lt k v l ≠ [] := by
  cases l with
  | nil => simp [mapInsert]
  | cons x rest =>
    obtain ⟨k', v'⟩ := x
    simp only [mapInsert]
    split
    · simp
    · split <;> simp

theorem mapInsert_cons (lt : κ → κ → Bool) (k k' : κ) (v v' : V) (rest : List (κ × V)) :
    mapInsert lt k v ((k', v') :: rest) =
      if lt k k' then (k, v) :: (k', v') :: rest
      else if lt k' k then (k', v') :: mapInsert lt k v rest
      else (k', v) :: rest := rfl

theorem getLast?_cons_of_ne_nil {α : Type} (x : α) (m : List α) (h : m ≠ []) :
    (x :: m).getLast? = m.getLast? := by
  cases m with
  | nil => exact absurd rfl h
  | cons y ys => exact List.getLast?_cons_cons

theorem mapInsert_getLast_of_lt (lt : κ → κ → Bool) (k : κ) (v : V) (l : List (κ × V))
    (e : κ × V) (hl : l.getLast? = some e) (hk : lt k e.1 = true) :
    (mapInsert lt k v l).getLast? = some e := by
  induction l with
  | nil => simp at hl
  | cons x rest ih =>
    obtain ⟨k', v'⟩ := x
    rw [mapInsert_cons]
    by_cases hrest : rest = []
    · subst hrest
      simp only [List.getLast?_singleton, Option.some.injEq] at hl
      subst hl
      simp only at hk
      simp [hk]
    · have hl' : rest.getLast? = some e := by
        rw [getLast?_cons_of_ne_nil _ _ hrest] at hl; exact hl
      split
      · rw [getLast?_cons_of_ne_nil _ _ (by simp), getLast?_cons_of_ne_nil _ _ hrest]
        exact hl'
      · split
        · rw [getLast?_cons_of_ne_nil _ _ (mapInsert_ne_nil lt k v rest)]
          exact ih hl'
        · rw [getLast?_cons_of_ne_nil _ _ hrest]
          exact hl'

theorem takeWhile_append_cons_of_false (p : κ × V → Bool) (l₁ l₂ : List (κ × V)) (a : κ × V)
    (ha : p a = false) : (l₁ ++ a :: l₂).takeWhile p = l₁.takeWhile p := by
  induction l₁ with
  | nil => simp [List.takeWhile, ha]
  | cons x rest ih =>
    simp only [List.cons_append, List.takeWhile_cons, ih]

theorem takeWhile_eq_self_of_forall (p : κ × V → Bool) (l : List (κ × V))
    (h : ∀ e ∈ l, p e = true) : l.takeWhile p = l := by
  induction l with
  | nil => rfl
  | cons x rest ih =>
    simp only [List.takeWhile_cons, h x (List.mem_cons_self _ _), if_true,
      ih (fun e he => h e (List.mem_cons_of_mem _ he))]

end MapLemmas

section MapLemmas2
variable {κ V : Type}
theorem mapAssign_of_find (lt : κ → κ → Bool) (k : κ) (v : V) (l : List (κ × V))
    (h : mapFind lt k l = some v) : mapAssign lt k v l = l := by
  induction l with
  | nil => rfl
  | cons x rest ih =>
    obtain ⟨k', v'⟩ := x
    simp only [mapFind] at h
    simp only [mapAssign]
    split at h
    · simp at h
    · rename_i h1
      rw [if_neg h1]
      split at h
      · rename_i h2
        rw [if_pos h2, ih h]
      · rename_i h2
        simp only [Option.some.injEq] at h
        rw [if_neg h2, h]

theorem mapFind_mem (lt : κ → κ → Bool) (k : κ) (v : V) (l : List (κ × V))
    (h : mapFind lt k l = some v) : ∃ k', (k', v) ∈ l := by
  induction l with
  | nil => simp [mapFind] at h
  | cons x rest ih =>
    obtain ⟨k', v'⟩ := x
    simp only [mapFind] at h
    split at h
    · simp at h
    · split at h
      · obtain ⟨k'', hk⟩ := ih h
        exact ⟨k'', List.mem_cons_of_mem _ hk⟩
      · simp only [Option.some.injEq] at h
        exact ⟨k', by rw [h]; exact List.mem_cons_self _ _⟩
end MapLemmas2

theorem Body.applyCollision_snd_of_static [SqrtOp K] (b o : Body K)
    (h : Spf.isnan o.Mass = true ∨ Spf.isinf o.Mass = true) : (b.ApplyCollision o).2 = o := by
  cases b with
  | line l => rfl
  | circle c =>
    simp only [Body.ApplyCollision, Circle.ApplyCollision]
    rcases h with h | h
    · simp [h]
    · by_cases hn : Spf.isnan o.Mass = true
      · simp [hn]
      · simp [hn, h]

theorem Action.apply_snd_of_static [SqrtOp K] (a : Action K) (st : Snapshot K × Snapshot K)
    (h : FixturesStatic st.2) : (a.apply st).2 = st.2 := by
  cases a with
  | stop id =>
    simp only [Action.apply]
    split <;> rfl
  | collide id oid =>
    simp only [Action.apply]
    split <;> rfl
  | collideFixture id fid =>
    simp only [Action.apply]
    split
    · rename_i b o hb ho
      obtain ⟨k', hk⟩ := mapFind_mem _ _ _ _ ho
      have hs := h (k', o) hk
      simp only [Body.applyCollision_snd_of_static b o hs, Snapshot.setBody]
      have := mapAssign_of_find _ _ _ _ ho
      rw [this]
    · rfl
  | input f => rfl

theorem foldl_apply_snd_of_static [SqrtOp K] (acts : List (Action K))
    (st : Snapshot K × Snapshot K) (h : FixturesStatic st.2) :
    (acts.foldl (fun st a => a.apply st) st).2 = st.2 := by
  induction acts generalizing st with
  | nil => rfl
  | cons a rest ih =>
    simp only [List.foldl_cons]
    have h1 := Action.apply_snd_of_static a st h
    rw [ih (a.apply st) (by rw [h1]; exact h), h1]

theorem Calculate_of_getLast [SqrtOp K] (P : PolySolver K) (s : System K) (e : Spf K × Snapshot K)
    (h : s.snapshots.getLast? = some e) :
    Calculate P s =
      { s with next_transition :=
          Calculate.nextTransition P e.1 e.2 s.fixtures s.input_queue } := by
  simp only [Calculate, h]

theorem Calculate_snapshots [SqrtOp K] (P : PolySolver K) (s : System K) :
    (Calculate P s).snapshots = s.snapshots := by
  unfold Calculate
  split <;> rfl

theorem Calculate_fixtures [SqrtOp K] (P : PolySolver K) (s : System K) :
    (Calculate P s).fixtures = s.fixtures := by
  unfold Calculate
  split <;> rfl

theorem Calculate_input_queue [SqrtOp K] (P : PolySolver K) (s : System K) :
    (Calculate P s).input_queue = s.input_queue := by
  unfold Calculate
  split <;> rfl

theorem Calculate_idem [SqrtOp K] (P : PolySolver K) (s : System K) :
    Calculate P (Calculate P s) = Calculate P s := by
  cases h : s.snapshots.getLast? with
  | none => simp only [Calculate, h]
  | some e =>
    rw [Calculate_of_getLast P s e h]
    exact Calculate_of_getLast P _ e h

/-- The shape of the state after one round of `CalculateToTime` when the fixtures are static. -/
theorem advance_shape [SqrtOp K] (P : PolySolver K) (fresh : Option (Snapshot K))
    (s s' : System K) (e : Spf K × Snapshot K) (hl : s.snapshots.getLast? = some e)
    (hfix : FixturesStatic s.fixtures) (h : CalculateToTime.advance P fresh s = some s') :
    ∃ ssNew, s' = Calculate P
      { s with snapshots := mapInsert Spf.ltb (e.1 + s.next_transition.1) ssNew s.snapshots } := by
  simp only [CalculateToTime.advance, hl] at h
  split at h
  · simp at h
  · rename_i ss0 _
    simp only [Option.some.injEq] at h
    rw [foldl_apply_snd_of_static _ _ hfix] at h
    exact ⟨_, h.symm⟩

/-- A transition that lies before the last snapshot is materialised again and again:
`CalculateToTime` returns no state, whatever the recursion depth. -/
theorem calculateToTime_diverges [SqrtOp K] (P : PolySolver K) (fresh : Option (Snapshot K))
    (t : Spf K) (fuel : Nat) (s : System K) (e : Spf K × Snapshot K)
    (hl : s.snapshots.getLast? = some e) (hcalc : Calculate P s = s)
    (hfix : FixturesStatic s.fixtures) (hdue : CalculateToTime.due t s = true)
    (hback : Spf.ltb (e.1 + s.next_transition.1) e.1 = true) :
    CalculateToTime P fresh fuel t s = none := by
  induction fuel generalizing s with
  | zero => rfl
  | succ n ih =>
    simp only [CalculateToTime, hdue, if_true]
    cases hadv : CalculateToTime.advance P fresh s with
    | none => rfl
    | some s' =>
      simp only
      obtain ⟨ssNew, hs'⟩ := advance_shape P fresh s s' e hl hfix hadv
      have hl' : (mapInsert Spf.ltb (e.1 + s.next_transition.1) ssNew s.snapshots).getLast?
          = some e := mapInsert_getLast_of_lt _ _ _ _ e hl hback
      have hnt : Calculate.nextTransition P e.1 e.2 s.fixtures s.input_queue
          = s.next_transition := by
        have := congrArg System.next_transition hcalc
        rw [Calculate_of_getLast P s e hl] at this
        exact this
      have hs'' : s' =
          { s with
            snapshots := mapInsert Spf.ltb (e.1 + s.next_transition.1) ssNew s.snapshots } := by
        rw [hs', Calculate_of_getLast P _ e hl']
        simp only [hnt]
      apply ih s'
      · rw [hs'']; exact hl'
      · rw [hs', Calculate_idem]
      · rw [hs'']; exact hfix
      · rw [hs'']
        simp only [CalculateToTime.due, hl'] 
        simpa only [CalculateToTime.due, hl] using hdue
      · rw [hs'']; exact hback
theorem getLast?_append_singleton {α : Type} (l : List α) (e : α) :
    (l ++ [e]).getLast? = some e := by
  simp

theorem due_ne_nan (t : Spf K) (s : System K) (e : Spf K × Snapshot K)
    (hl : s.snapshots.getLast? = some e) (hdue : CalculateToTime.due t s = true) :
    e.1 + s.next_transition.1 ≠ Spf.nan := by
  simp only [CalculateToTime.due, hl, decide_eq_true_eq] at hdue
  exact Spf.ne_nan_of_ltb_left hdue

/-- One round of `CalculateToTime` whose transition does not lie before the last snapshot: the new
snapshot is appended after the last one, or replaces its content when the duration is zero. -/
theorem advance_forward [SqrtOp K] (P : PolySolver K) (fresh : Option (Snapshot K))
    (t : Spf K) (s s' : System K) (l : List (Spf K × Snapshot K)) (e : Spf K × Snapshot K)
    (hwf : s.WellFormed P) (hs : s.snapshots = l ++ [e])
    (hdue : CalculateToTime.due t s = true)
    (hnb : Spf.ltb (e.1 + s.next_transition.1) e.1 = false)
    (hadv : CalculateToTime.advance P fresh s = some s') :
    s'.WellFormed P ∧ s'.fixtures = s.fixtures ∧ s'.input_queue = s.input_queue ∧
      ((Spf.ltb e.1 (e.1 + s.next_transition.1) = true ∧
          ∃ ssNew, s'.snapshots = l ++ [e] ++ [(e.1 + s.next_transition.1, ssNew)]) ∨
        (∃ ssNew, s'.snapshots = l ++ [(e.1, ssNew)])) := by
  have hl : s.snapshots.getLast? = some e := by rw [hs]; exact getLast?_append_singleton l e
  obtain ⟨ssNew, hs'⟩ := advance_shape P fresh s s' e hl hwf.static hadv
  have hkey := due_ne_nan t s e hl hdue
  have he : e.1 ≠ Spf.nan := by
    obtain ⟨l2, e2, h2, hne⟩ := hwf.last_ne_nan
    have : (l2 ++ [e2]).getLast? = some e := by rw [← h2]; exact hl
    rw [getLast?_append_singleton] at this
    simp only [Option.some.injEq] at this
    rw [← this]; exact hne
  have hsorted := hwf.sorted
  rw [hs] at hsorted
  have hlt : ∀ x ∈ l, Spf.ltb x.1 e.1 = true := by
    intro x hx
    rw [List.pairwise_append] at hsorted
    exact hsorted.2.2 x hx e (List.mem_singleton_self e)
  have hfixq : s'.fixtures = s.fixtures ∧ s'.input_queue = s.input_queue := by
    rw [hs']; exact ⟨Calculate_fixtures _ _, Calculate_input_queue _ _⟩
  have hstatic : FixturesStatic s'.fixtures := by rw [hfixq.1]; exact hwf.static
  have hcalc : Calculate P s' = s' := by rw [hs', Calculate_idem]
  have hsnap : s'.snapshots =
      mapInsert Spf.ltb (e.1 + s.next_transition.1) ssNew (l ++ [e]) := by
    rw [hs', Calculate_snapshots, hs]
  by_cases hfw : Spf.ltb e.1 (e.1 + s.next_transition.1) = true
  · have hall : ∀ x ∈ l ++ [e], Spf.ltb x.1 (e.1 + s.next_transition.1) = true := by
      intro x hx
      rcases List.mem_append.mp hx with hx | hx
      · exact Spf.ltb_trans (hlt x hx) hfw
      · rw [List.mem_singleton.mp hx]; exact hfw
    have hins := mapInsert_append_of_forall_lt Spf.ltb (e.1 + s.next_transition.1) ssNew
      (l ++ [e]) (fun a b => Spf.ltb_asymm) hall
    rw [hins] at hsnap
    refine ⟨⟨?_, ⟨l ++ [e], _, hsnap, hkey⟩, hcalc, hstatic⟩, hfixq.1, hfixq.2,
      Or.inl ⟨hfw, ssNew, hsnap⟩⟩
    rw [hsnap, List.pairwise_append]
    refine ⟨hsorted, List.pairwise_singleton _ _, ?_⟩
    intro x hx y hy
    rw [List.mem_singleton.mp hy]
    exact hall x hx
  · have hfw' : Spf.ltb e.1 (e.1 + s.next_transition.1) = false := by
      simpa using hfw
    have heq : e.1 + s.next_transition.1 = e.1 := Spf.eq_of_ltb_false hkey he hnb hfw'
    have hall : ∀ x ∈ l, Spf.ltb x.1 (e.1 + s.next_transition.1) = true := by
      intro x hx; rw [heq]; exact hlt x hx
    have hins := mapInsert_replace_last Spf.ltb (e.1 + s.next_transition.1) e.1 ssNew e.2 l
      (fun a b => Spf.ltb_asymm) hall hnb hfw'
    rw [hins] at hsnap
    refine ⟨⟨?_, ⟨l, _, hsnap, he⟩, hcalc, hstatic⟩, hfixq.1, hfixq.2, Or.inr ⟨ssNew, hsnap⟩⟩
    rw [hsnap, List.pairwise_append]
    rw [List.pairwise_append] at hsorted
    refine ⟨hsorted.1, List.pairwise_singleton _ _, ?_⟩
    intro x hx y hy
    rw [List.mem_singleton.mp hy]
    exact hlt x hx
/-- Once the last snapshot is at or after `ts`, the rest of `CalculateToTime` leaves the part of
the timeline before `ts`, the fixtures and the input queue as they are. -/
theorem calculateToTime_keeps_prefix [SqrtOp K] (P : PolySolver K) (fresh : Option (Snapshot K))
    (ts t : Spf K) (fuel : Nat) (s1 s : System K) (l : List (Spf K × Snapshot K))
    (e : Spf K × Snapshot K) (hwf : s1.WellFormed P) (hs : s1.snapshots = l ++ [e])
    (hge : Spf.ltb e.1 ts = false) (hrun : CalculateToTime P fresh fuel t s1 = some s) :
    s.snapshots.takeWhile (fun x => Spf.ltb x.1 ts) = l.takeWhile (fun x => Spf.ltb x.1 ts) ∧
      s.fixtures = s1.fixtures ∧ s.input_queue = s1.input_queue := by
  induction fuel generalizing s1 l e with
  | zero => simp [CalculateToTime] at hrun
  | succ n ih =>
    have hl : s1.snapshots.getLast? = some e := by rw [hs]; exact getLast?_append_singleton l e
    simp only [CalculateToTime] at hrun
    by_cases hdue : CalculateToTime.due t s1 = true
    · simp only [hdue, if_true] at hrun
      cases hadv : CalculateToTime.advance P fresh s1 with
      | none => simp [hadv] at hrun
      | some s2 =>
        simp only [hadv] at hrun
        by_cases hback : Spf.ltb (e.1 + s1.next_transition.1) e.1 = true
        · have hdiv := calculateToTime_diverges P fresh t (n + 1) s1 e hl hwf.calculated
            hwf.static hdue hback
          simp only [CalculateToTime, hdue, if_true, hadv] at hdiv
          rw [hdiv] at hrun
          simp at hrun
        · have hnb : Spf.ltb (e.1 + s1.next_transition.1) e.1 = false := by simpa using hback
          obtain ⟨hwf2, hf2, hq2, hshape⟩ :=
            advance_forward P fresh t s1 s2 l e hwf hs hdue hnb hadv
          rcases hshape with ⟨hfw, ssNew, hsnap⟩ | ⟨ssNew, hsnap⟩
          · have hge2 : Spf.ltb (e.1 + s1.next_transition.1) ts = false :=
              Spf.ltb_false_of_ltb_false_of_ltb hge hfw
            obtain ⟨h1, h2, h3⟩ := ih s2 (l ++ [e]) _ hwf2 hsnap hge2 hrun
            refine ⟨?_, by rw [h2, hf2], by rw [h3, hq2]⟩
            rw [h1]
            exact takeWhile_append_cons_of_false _ l [] e hge
          · obtain ⟨h1, h2, h3⟩ := ih s2 l _ hwf2 hsnap hge hrun
            exact ⟨h1, by rw [h2, hf2], by rw [h3, hq2]⟩
    · simp only [hdue, Bool.false_eq_true, if_false, Option.some.injEq] at hrun
      subst hrun
      refine ⟨?_, rfl, rfl⟩
      rw [hs]
      exact takeWhile_append_cons_of_false _ l [] e hge

/-- Rewinding a well-formed system to a time after its last snapshot changes nothing. -/
theorem rewind_after_last [SqrtOp K] (P : PolySolver K) (ts : Spf K) (s : System K)
    (l : List (Spf K × Snapshot K)) (e : Spf K × Snapshot K)
    (hwf : s.WellFormed P) (hs : s.snapshots = l ++ [e]) (hlt : Spf.ltb e.1 ts = true) :
    RewindToTime P ts s = s := by
  have hsorted := hwf.sorted
  rw [hs, List.pairwise_append] at hsorted
  have hall : ∀ x ∈ s.snapshots, (fun x : Spf K × Snapshot K => Spf.ltb x.1 ts) x = true := by
    intro x hx
    rw [hs] at hx
    rcases List.mem_append.mp hx with hx | hx
    · exact Spf.ltb_trans (hsorted.2.2 x hx e (List.mem_singleton_self e)) hlt
    · rw [List.mem_singleton.mp hx]; exact hlt
  have hl : s.snapshots.getLast? = some e := by rw [hs]; exact getLast?_append_singleton l e
  have hc := hwf.calculated
  rw [Calculate_of_getLast P s e hl] at hc
  rw [RewindToTime, takeWhile_eq_self_of_forall _ _ hall]
  exact (Calculate_of_getLast P { s with next_transition := (Spf.nan, []) } e hl).trans hc

/-- Rewind and replay, from any well-formed state whose last snapshot is before the rewind time. -/
theorem rewind_replay_aux [SqrtOp K] (P : PolySolver K) (fresh : Option (Snapshot K))
    (ts t : Spf K) (fuel : Nat) (s0 s : System K) (l : List (Spf K × Snapshot K))
    (e : Spf K × Snapshot K) (hwf : s0.WellFormed P) (hs : s0.snapshots = l ++ [e])
    (hlt : Spf.ltb e.1 ts = true) (hrun : CalculateToTime P fresh fuel t s0 = some s) :
    ∃ fuel', CalculateToTime P fresh fuel' t (RewindToTime P ts s) = some s := by
  induction fuel generalizing s0 l e with
  | zero => simp [CalculateToTime] at hrun
  | succ n ih =>
    have hl : s0.snapshots.getLast? = some e := by rw [hs]; exact getLast?_append_singleton l e
    have hrun0 := hrun
    simp only [CalculateToTime] at hrun
    by_cases hdue : CalculateToTime.due t s0 = true
    · simp only [hdue, if_true] at hrun
      cases hadv : CalculateToTime.advance P fresh s0 with
      | none => simp [hadv] at hrun
      | some s1 =>
        simp only [hadv] at hrun
        by_cases hback : Spf.ltb (e.1 + s0.next_transition.1) e.1 = true
        · have hdiv := calculateToTime_diverges P fresh t (n + 1) s0 e hl hwf.calculated
            hwf.static hdue hback
          rw [hdiv] at hrun0
          simp at hrun0
        · have hnb : Spf.ltb (e.1 + s0.next_transition.1) e.1 = false := by simpa using hback
          obtain ⟨hwf1, hf1, hq1, hshape⟩ :=
            advance_forward P fresh t s0 s1 l e hwf hs hdue hnb hadv
          rcases hshape with ⟨hfw, ssNew, hsnap⟩ | ⟨ssNew, hsnap⟩
          · by_cases hnew : Spf.ltb (e.1 + s0.next_transition.1) ts = true
            · exact ih s1 (l ++ [e]) _ hwf1 hsnap hnew hrun
            · have hnew' : Spf.ltb (e.1 + s0.next_transition.1) ts = false := by simpa using hnew
              obtain ⟨h1, h2, h3⟩ := calculateToTime_keeps_prefix P fresh ts t n s1 s
                (l ++ [e]) _ hwf1 hsnap hnew' hrun
              have hsorted := hwf.sorted
              rw [hs, List.pairwise_append] at hsorted
              have hall : ∀ x ∈ l ++ [e],
                  (fun x : Spf K × Snapshot K => Spf.ltb x.1 ts) x = true := by
                intro x hx
                rcases List.mem_append.mp hx with hx | hx
                · exact Spf.ltb_trans (hsorted.2.2 x hx e (List.mem_singleton_self e)) hlt
                · rw [List.mem_singleton.mp hx]; exact hlt
              rw [takeWhile_eq_self_of_forall _ _ hall] at h1
              have hc := hwf.calculated
              rw [Calculate_of_getLast P s0 e hl] at hc
              have hrew : RewindToTime P ts s = s0 := by
                rw [RewindToTime, h1]
                refine (Calculate_of_getLast P _ e (getLast?_append_singleton l e)).trans ?_
                simp only [h2, h3, hf1, hq1]
                rw [← hs]
                exact hc
              exact ⟨n + 1, by rw [hrew]; exact hrun0⟩
          · exact ih s1 l _ hwf1 hsnap hlt hrun
    · simp only [hdue, Bool.false_eq_true, if_false, Option.some.injEq] at hrun
      subst hrun
      refine ⟨1, ?_⟩
      rw [rewind_after_last P ts s0 l e hwf hs hlt]
      simp only [CalculateToTime, hdue, Bool.false_eq_true, if_false]
theorem option_eq_some_getD {α : Type} (o : Option α) (d : α) (h : o.isSome = true) :
    o = some (o.getD d) := by
  cases o with
  | none => simp at h
  | some x => rfl

theorem clamp01_mem (u : K) : 0 ≤ clamp01 u ∧ clamp01 u ≤ 1 :=
  ⟨le_max_left _ _, max_le zero_le_one (min_le_left _ _)⟩

/-- In a sorted list whose first key is not after `t`, the last entry of the longest prefix with
keys not after `t` has the greatest key not after `t`. -/
theorem takeWhile_not_after_last {V : Type} (t : Spf K) (l : List (Spf K × V))
    (e0 : Spf K × V)
    (hsorted : (e0 :: l).Pairwise (fun a b => Spf.ltb a.1 b.1 = true))
    (h0 : Spf.ltb t e0.1 = false) :
    ∃ x, ((e0 :: l).takeWhile (fun e => !(Spf.ltb t e.1))).getLast? = some x ∧
      x ∈ e0 :: l ∧ Spf.ltb t x.1 = false ∧
      ∀ e ∈ e0 :: l, Spf.ltb t e.1 = false → Spf.ltb x.1 e.1 = false := by
  induction l generalizing e0 with
  | nil =>
    refine ⟨e0, by simp [List.takeWhile, h0], List.mem_singleton_self _, h0, ?_⟩
    intro e he _
    rw [List.mem_singleton.mp he]
    cases h : Spf.ltb e0.1 e0.1
    · rfl
    · rw [Spf.ltb_asymm h] at h; exact absurd h (by simp)
  | cons e1 rest ih =>
    have h01 : Spf.ltb e0.1 e1.1 = true :=
      (List.pairwise_cons.mp hsorted).1 e1 (List.mem_cons_self _ _)
    have hs1 : (e1 :: rest).Pairwise (fun a b => Spf.ltb a.1 b.1 = true) :=
      (List.pairwise_cons.mp hsorted).2
    by_cases h1 : Spf.ltb t e1.1 = false
    · obtain ⟨x, hx1, hx2, hx3, hx4⟩ := ih e1 hs1 h1
      refine ⟨x, ?_, List.mem_cons_of_mem _ hx2, hx3, ?_⟩
      · have hne : (e1 :: rest).takeWhile (fun e => !(Spf.ltb t e.1)) ≠ [] := by
          intro h; rw [h] at hx1; simp at hx1
        rw [List.takeWhile_cons]
        simp only [h0, Bool.not_false, if_true]
        rw [getLast?_cons_of_ne_nil _ _ hne]
        exact hx1
      · intro e he hte
        rcases List.mem_cons.mp he with he | he
        · rw [he]
          have hx1' := hx4 e1 (List.mem_cons_self _ _) h1
          -- e0 < e1 and not (x < e1), so not (x < e0)
          cases h : Spf.ltb x.1 e0.1
          · rfl
          · rw [Spf.ltb_trans h h01] at hx1'; exact absurd hx1' (by simp)
        · exact hx4 e he hte
    · have h1' : Spf.ltb t e1.1 = true := by simpa using h1
      refine ⟨e0, ?_, List.mem_cons_self _ _, h0, ?_⟩
      · rw [List.takeWhile_cons]
        simp only [h0, Bool.not_false, if_true]
        rw [List.takeWhile_cons]
        simp [h1']
      · intro e he hte
        rcases List.mem_cons.mp he with he | he
        · rw [he]
          cases h : Spf.ltb e0.1 e0.1
          · rfl
          · rw [Spf.ltb_asymm h] at h; exact absurd h (by simp)
        · have h1e : Spf.ltb t e.1 = true := by
            rcases List.mem_cons.mp he with he | he
            · rw [he]; exact h1'
            · exact Spf.ltb_trans h1' ((List.pairwise_cons.mp hs1).1 e he)
          rw [h1e] at hte; exact absurd hte (by simp)

/-- On a sorted list the longest prefix of keys before `t` holds every entry with key before `t`. -/
theorem takeWhile_before_eq_filter {V : Type} (t : Spf K) (l : List (Spf K × V))
    (hsorted : l.Pairwise (fun a b => Spf.ltb a.1 b.1 = true)) :
    l.takeWhile (fun e => Spf.ltb e.1 t) = l.filter (fun e => Spf.ltb e.1 t) := by
  induction l with
  | nil => rfl
  | cons x rest ih =>
    have hs := List.pairwise_cons.mp hsorted
    rw [List.takeWhile_cons, List.filter_cons]
    by_cases hx : Spf.ltb x.1 t = true
    · simp only [hx, if_true, ih hs.2]
    · have hx' : Spf.ltb x.1 t = false := by simpa using hx
      simp only [hx', Bool.false_eq_true, if_false]
      symm
      rw [List.filter_eq_nil_iff]
      intro e he
      have := Spf.ltb_false_of_ltb_false_of_ltb hx' (hs.1 e he)
      simp [this]

theorem Spf.nan_or_le_of_ltb_false {x t : Spf K} (ht : t ≠ Spf.nan)
    (h : Spf.ltb x t = false) : x = Spf.nan ∨ t ≤ x := by
  have : x = Spf.nan ∨ Spf.leb t x = true := by
    cases x <;> cases t <;> simp_all [Spf.ltb, Spf.leb]
  exact this

/-- When `CalculateToTime` returns a state, its guard is false in that state. -/
theorem calculateToTime_not_due [SqrtOp K] (P : PolySolver K) (fresh : Option (Snapshot K))
    (fuel : Nat) (t : Spf K) (s s' : System K)
    (hrun : CalculateToTime P fresh fuel t s = some s') : CalculateToTime.due t s' = false := by
  induction fuel generalizing s with
  | zero => simp [CalculateToTime] at hrun
  | succ n ih =>
    simp only [CalculateToTime] at hrun
    by_cases hdue : CalculateToTime.due t s = true
    · simp only [hdue, if_true] at hrun
      cases hadv : CalculateToTime.advance P fresh s with
      | none => simp [hadv] at hrun
      | some s1 =>
        simp only [hadv] at hrun
        exact ih s1 hrun
    · simp only [hdue, Bool.false_eq_true, if_false, Option.some.injEq] at hrun
      subst hrun
      simpa using hdue

theorem addTransition_eq (nt : Transition K) (t : Spf K) (act : Action K) :
    addTransition nt t act =
      if Spf.isnan t || decide (t > nt.1) then nt
      else (t, (if Spf.ceq nt.1 t then nt.2 else []) ++ [act]) := by
  unfold addTransition ShouldAddTransition
  split <;> rfl

theorem scanCandidates_append (c1 c2 : List (Candidate K)) (nt : Transition K) :
    scanCandidates (c1 ++ c2) nt = scanCandidates c2 (scanCandidates c1 nt) := by
  simp [scanCandidates, List.foldl_append]

theorem scanCandidates_cons (c : Candidate K) (rest : List (Candidate K)) (nt : Transition K) :
    scanCandidates (c :: rest) nt = scanCandidates rest (addTransition nt (c.1 nt.1) c.2) := rfl

theorem foldl_filter_map_scan {α : Type} (q : α → Bool) (g : α → Candidate K) (l : List α)
    (nt : Transition K) :
    l.foldl (fun nt x => if q x then addTransition nt ((g x).1 nt.1) (g x).2 else nt) nt
      = scanCandidates ((l.filter q).map g) nt := by
  induction l generalizing nt with
  | nil => rfl
  | cons x rest ih =>
    simp only [List.foldl_cons, List.filter_cons]
    by_cases hq : q x = true
    · simp only [hq, if_true, List.map_cons, scanCandidates_cons]
      exact ih _
    · simp only [hq, Bool.false_eq_true, if_false]
      exact ih _

theorem foldl_map_scan {α : Type} (g : α → Candidate K) (l : List α) (nt : Transition K) :
    l.foldl (fun nt x => addTransition nt ((g x).1 nt.1) (g x).2) nt
      = scanCandidates (l.map g) nt := by
  induction l generalizing nt with
  | nil => rfl
  | cons x rest ih =>
    simp only [List.foldl_cons, List.map_cons, scanCandidates_cons]
    exact ih _

theorem frictionStops_eq_scan [SqrtOp K] (bodies : List (Int × Body K)) (nt : Transition K) :
    Calculate.frictionStops bodies nt = scanCandidates (Calculate.stopCandidates bodies) nt := by
  unfold Calculate.frictionStops Calculate.stopCandidates
  rw [← foldl_filter_map_scan (fun p : Int × Body K => !p.2.IsStopped)
    (fun p => (fun _ => p.2.TimeUntilStop, Action.stop p.1))]
  congr 1
  funext nt p
  cases p.2.IsStopped <;> rfl

theorem collisionsOf_eq_scan [SqrtOp K] (P : PolySolver K) (fixtures : Snapshot K)
    (before after : List (Int × Body K)) (p : Int × Body K) (nt : Transition K) :
    Calculate.collisionsOf P fixtures before after p nt
      = scanCandidates (Calculate.collisionCandidatesOf P fixtures before after p) nt := by
  unfold Calculate.collisionsOf Calculate.collisionCandidatesOf
  by_cases hp : p.2.IsStopped = true
  · simp [hp, scanCandidates]
  · simp only [hp, Bool.false_eq_true, if_false, scanCandidates_append]
    rw [← foldl_map_scan (fun o : Int × Body K =>
        ((fun m => p.2.TimeUntilCollide P o.2 m, Action.collideFixture p.1 o.1) : Candidate K)),
      ← foldl_map_scan (fun o : Int × Body K =>
        ((fun m => p.2.TimeUntilCollide P o.2 m, Action.collide p.1 o.1) : Candidate K)),
      ← foldl_filter_map_scan (fun o : Int × Body K => o.2.IsStopped) (fun o : Int × Body K =>
        ((fun m => p.2.TimeUntilCollide P o.2 m, Action.collide p.1 o.1) : Candidate K))]
    congr 2
    congr 1
    funext nt o
    cases o.2.IsStopped <;> rfl

theorem collisions_eq_scan [SqrtOp K] (P : PolySolver K) (fixtures : Snapshot K)
    (before rest : List (Int × Body K)) (nt : Transition K) :
    Calculate.collisions P fixtures before rest nt
      = scanCandidates (Calculate.collisionCandidates P fixtures before rest) nt := by
  induction rest generalizing before nt with
  | nil => rfl
  | cons p after ih =>
    simp only [Calculate.collisions, Calculate.collisionCandidates, scanCandidates_append,
      collisionsOf_eq_scan]
    exact ih _ _

theorem nextTransition_eq_scan [SqrtOp K] (P : PolySolver K) (ts : Spf K)
    (ss fixtures : Snapshot K) (queue : List (Spf K × List (Action K))) :
    Calculate.nextTransition P ts ss fixtures queue
      = scanCandidates (Calculate.candidates P fixtures ss.bodies)
          (Calculate.inputs ts queue) := by
  simp only [Calculate.nextTransition, Calculate.candidates, scanCandidates_append,
    frictionStops_eq_scan, collisions_eq_scan]
namespace Spf
theorem eq_of_ceq {a b : Spf K} (h : ceq a b = true) : a = b := by
  cases a <;> cases b <;> simp_all [ceq]

theorem ceq_false_of_ltb {a b : Spf K} (h : ltb a b = true) : ceq a b = false ∧ ceq b a = false := by
  cases a <;> cases b <;> simp_all [ceq, ltb]
  exact ⟨ne_of_lt h, ne_of_gt h⟩

theorem ceq_nan_left (b : Spf K) : ceq nan b = false := by
  cases b <;> rfl

theorem leb_trans {a b c : Spf K} (h1 : leb a b = true) (h2 : leb b c = true) :
    leb a c = true := by
  cases a <;> cases b <;> cases c <;> simp_all [leb, ltb]
  exact le_trans h1 h2

theorem leb_refl_of_ne_nan {a : Spf K} (h : a ≠ nan) : leb a a = true := by
  cases a <;> simp_all [leb, ltb]

/-- An accepted duration is not NaN and not greater than the best one, so it is at most the best
one when that is not NaN. -/
theorem leb_of_accepted {t b : Spf K} (h : (isnan t || decide (t > b)) = false) (hb : b ≠ nan) :
    leb t b = true := by
  have h2 : ltb b t = false := by
    have : ¬ (t > b) := by
      intro hgt
      simp [hgt] at h
    cases hh : ltb b t
    · rfl
    · exact absurd hh this
  cases t <;> cases b <;> simp_all [leb, ltb, isnan]

/-- An accepted duration that differs from the best one is smaller when that is not NaN. -/
theorem ltb_of_accepted_ne {t b : Spf K} (h : (isnan t || decide (t > b)) = false)
    (hb : b ≠ nan) (hne : ceq b t = false) : ltb t b = true := by
  have h2 : ltb b t = false := by
    have : ¬ (t > b) := by
      intro hgt
      simp [hgt] at h
    cases hh : ltb b t
    · rfl
    · exact absurd hh this
  cases t with
  | nan => simp [isnan] at h
  | ninf => cases b <;> simp_all [ceq, ltb]
  | pinf => cases b <;> simp_all [ceq, ltb]
  | fin x =>
    cases b with
    | nan => exact absurd rfl hb
    | ninf => simp [ltb] at h2
    | pinf => rfl
    | fin y =>
      simp only [ltb, decide_eq_false_iff_not, not_lt] at h2
      simp only [ceq, decide_eq_false_iff_not] at hne
      simp only [ltb, decide_eq_true_eq]
      exact lt_of_le_of_ne h2 (fun h => hne h.symm)

theorem ne_nan_of_accepted {t b : Spf K} (h : (isnan t || decide (t > b)) = false) :
    t ≠ nan := by
  cases t <;> simp_all [isnan]

theorem ltb_of_leb_of_ltb {a b c : Spf K} (h1 : leb a b = true) (h2 : ltb b c = true) :
    ltb a c = true := by
  cases a <;> cases b <;> cases c <;> simp_all [leb, ltb]
  exact lt_of_le_of_lt h1 h2
end Spf

/-- The best duration only decreases during the scan. -/
theorem scanCandidates_le (cands : List (Candidate K)) (nt : Transition K)
    (h : nt.1 ≠ Spf.nan) : Spf.leb (scanCandidates cands nt).1 nt.1 = true := by
  induction cands generalizing nt with
  | nil => exact Spf.leb_refl_of_ne_nan h
  | cons c rest ih =>
    rw [scanCandidates_cons, addTransition_eq]
    by_cases hacc : (Spf.isnan (c.1 nt.1) || decide (c.1 nt.1 > nt.1)) = true
    · simp only [hacc, if_true]
      exact ih nt h
    · have hacc' : (Spf.isnan (c.1 nt.1) || decide (c.1 nt.1 > nt.1)) = false := by
        simpa using hacc
      simp only [hacc', Bool.false_eq_true, if_false]
      exact Spf.leb_trans (ih _ (Spf.ne_nan_of_accepted hacc')) (Spf.leb_of_accepted hacc' h)

/-- After the scan the action list holds the seed's actions, if the seed's duration is the final
one, followed by the action of every candidate whose duration equals the final one. -/
theorem scanCandidates_actions (cands : List (Candidate K)) (nt : Transition K)
    (hseed : nt.1 = Spf.nan → nt.2 = []) :
    (scanCandidates cands nt).2 =
      (if Spf.ceq nt.1 (scanCandidates cands nt).1 then nt.2 else [])
        ++ ((observedDurations cands nt).filter
            (fun x => Spf.ceq x.1 (scanCandidates cands nt).1)).map (fun x => x.2) := by
  induction cands generalizing nt with
  | nil =>
    simp only [scanCandidates, List.foldl_nil, observedDurations, List.filter_nil, List.map_nil,
      List.append_nil]
    by_cases hn : nt.1 = Spf.nan
    · rw [hseed hn]; simp
    · have : Spf.ceq nt.1 nt.1 = true := by
        cases h : nt.1 <;> simp_all [Spf.ceq]
      simp [this]
  | cons c rest ih =>
    rw [scanCandidates_cons]
    simp only [observedDurations, List.filter_cons]
    generalize hF : (scanCandidates rest (addTransition nt (c.1 nt.1) c.2)).1 = F
    have hle := scanCandidates_le rest (addTransition nt (c.1 nt.1) c.2)
    have ih' := ih (addTransition nt (c.1 nt.1) c.2)
    rw [hF] at hle ih'
    rw [addTransition_eq] at hle ih' ⊢
    by_cases hacc : (Spf.isnan (c.1 nt.1) || decide (c.1 nt.1 > nt.1)) = true
    · -- rejected: NaN, or later than the best duration
      simp only [hacc, if_true] at hle ih' ⊢
      rw [ih' hseed]
      have hτ : Spf.ceq (c.1 nt.1) F = false := by
        rcases Bool.or_eq_true _ _ |>.mp hacc with hnan | hgt
        · cases h : c.1 nt.1 <;> simp_all [Spf.isnan, Spf.ceq]
        · have hgt' : Spf.ltb nt.1 (c.1 nt.1) = true := of_decide_eq_true hgt
          have hb : nt.1 ≠ Spf.nan := Spf.ne_nan_of_ltb_left hgt'
          exact (Spf.ceq_false_of_ltb (Spf.ltb_of_leb_of_ltb (hle hb) hgt')).2
      simp only [hτ, Bool.false_eq_true, if_false]
    · have hacc' : (Spf.isnan (c.1 nt.1) || decide (c.1 nt.1 > nt.1)) = false := by
        simpa using hacc
      simp only [hacc', Bool.false_eq_true, if_false] at hle ih' ⊢
      have hτne := Spf.ne_nan_of_accepted hacc'
      rw [ih' (fun h => absurd h hτne)]
      by_cases htie : Spf.ceq nt.1 (c.1 nt.1) = true
      · -- tie: kept and appended
        have heq := Spf.eq_of_ceq htie
        simp only [htie, if_true]
        rw [← heq]
        by_cases hf : Spf.ceq nt.1 F = true
        · simp [hf]
        · simp [hf]
      · -- strictly earlier (or first event): the list starts again
        have htie' : Spf.ceq nt.1 (c.1 nt.1) = false := by simpa using htie
        simp only [htie', Bool.false_eq_true, if_false, List.nil_append]
        have hseedF : Spf.ceq nt.1 F = false := by
          by_cases hb : nt.1 = Spf.nan
          · rw [hb]; exact Spf.ceq_nan_left F
          · have hlt := Spf.ltb_of_accepted_ne hacc' hb htie'
            exact (Spf.ceq_false_of_ltb (Spf.ltb_of_leb_of_ltb (hle hτne) hlt)).2
        simp only [hseedF, Bool.false_eq_true, if_false, List.nil_append]
        by_cases hf : Spf.ceq (c.1 nt.1) F = true
        · simp [hf]
        · simp [hf]
theorem Spf.sub_ne_nan_of_ltb {a b : Spf K} (h : Spf.ltb a b = true) : b - a ≠ Spf.nan := by
  have : Spf.add b (Spf.neg a) ≠ Spf.nan := by
    cases a <;> cases b <;> simp_all [Spf.ltb, Spf.add, Spf.neg]
  exact this

theorem inputs_seed [SqrtOp K] (ts : Spf K) (queue : List (Spf K × List (Action K))) :
    (Calculate.inputs ts queue).1 = Spf.nan → (Calculate.inputs ts queue).2 = [] := by
  unfold Calculate.inputs
  cases h : queue.find? (fun e => Spf.ltb ts e.1) with
  | none => intro _; rfl
  | some e =>
    intro hn
    have hlt : Spf.ltb ts e.1 = true := by
      have := List.find?_some h
      simpa using this
    exact absurd hn (Spf.sub_ne_nan_of_ltb hlt)

@[simp] theorem Spf.mul_nan (x : Spf K) : x * Spf.nan = Spf.nan := by
  show Spf.mul x Spf.nan = Spf.nan
  cases x <;> rfl

@[simp] theorem Spf.nan_mul (x : Spf K) : Spf.nan * x = Spf.nan := by
  show Spf.mul Spf.nan x = Spf.nan
  cases x <;> rfl

@[simp] theorem Spf.add_nan (x : Spf K) : x + Spf.nan = Spf.nan := by
  show Spf.add x Spf.nan = Spf.nan
  cases x <;> rfl

@[simp] theorem Spf.nan_add (x : Spf K) : Spf.nan + x = Spf.nan := by
  show Spf.add Spf.nan x = Spf.nan
  cases x <;> rfl

theorem quadraticInvalidate_grade (a b t : Spf K) :
    ¬ (a * Spf.fin 2 * SolveQuadratic.InvalidateBadRoot a b true t + b > Spf.fin 0) := by
  unfold SolveQuadratic.InvalidateBadRoot
  by_cases h : t ≤ Spf.fin 0
  · simp [h]
  · by_cases hg : a * Spf.fin 2 * t + b > Spf.fin 0
    · simp [h, hg]
    · simp [h, hg]

theorem quarticInvalidate_grade (a b c d t : Spf K) :
    ¬ (a * Spf.fin 4 * Spf.pow3 (SolveQuartic.InvalidateBadRoot a b c d true t)
        + b * Spf.fin 3 * Spf.pow2 (SolveQuartic.InvalidateBadRoot a b c d true t)
        + c * Spf.fin 2 * SolveQuartic.InvalidateBadRoot a b c d true t + d > Spf.fin 0) := by
  have hI : SolveQuartic.InvalidateBadRoot a b c d true t = Spf.nan ∨
      (SolveQuartic.InvalidateBadRoot a b c d true t = t ∧
        ¬ (a * Spf.fin 4 * Spf.pow3 t + b * Spf.fin 3 * Spf.pow2 t + c * Spf.fin 2 * t + d
          > Spf.fin 0)) := by
    unfold SolveQuartic.InvalidateBadRoot
    by_cases h : t ≤ Spf.fin 0
    · simp [h]
    · by_cases hg : a * Spf.fin 4 * Spf.pow3 t + b * Spf.fin 3 * Spf.pow2 t + c * Spf.fin 2 * t
          + d > Spf.fin 0
      · left; simp only [h, hg, if_true, if_false]
      · right; simp only [h, hg, if_true, if_false, not_false_eq_true, and_self]
  rcases hI with h | ⟨h, hg⟩
  · rw [h]; simp [Spf.pow3, Spf.pow2]
  · rw [h]; exact hg

theorem Spf.leb_of_ltb {a b : Spf K} (h : Spf.ltb a b = true) : Spf.leb a b = true := by
  cases a <;> cases b <;> simp_all [Spf.leb, Spf.ltb]
  exact le_of_lt h

/-- Subtracting the same earlier time keeps the order of two later times. -/
theorem Spf.sub_leb_sub {ts a b : Spf K} (h1 : Spf.ltb ts a = true) (h2 : Spf.leb a b = true) :
    Spf.leb (a - ts) (b - ts) = true := by
  have : Spf.leb (Spf.add a (Spf.neg ts)) (Spf.add b (Spf.neg ts)) = true := by
    cases ts <;> cases a <;> cases b <;> simp_all [Spf.leb, Spf.ltb, Spf.add, Spf.neg]
  exact this

theorem observedDurations_append (c1 c2 : List (Candidate K)) (nt : Transition K) :
    observedDurations (c1 ++ c2) nt
      = observedDurations c1 nt ++ observedDurations c2 (scanCandidates c1 nt) := by
  induction c1 generalizing nt with
  | nil => rfl
  | cons c rest ih =>
    show (c.1 nt.1, c.2) :: observedDurations (rest ++ c2) _ = _
    rw [ih]
    rfl

/-- Every candidate is examined: it has an entry among the observed durations. -/
theorem observed_of_mem (cands : List (Candidate K)) (nt : Transition K) (c : Candidate K)
    (hc : c ∈ cands) : ∃ m, (c.1 m, c.2) ∈ observedDurations cands nt := by
  induction cands generalizing nt with
  | nil => simp at hc
  | cons c0 rest ih =>
    rcases List.mem_cons.mp hc with h | h
    · subst h
      exact ⟨nt.1, by simp [observedDurations]⟩
    · obtain ⟨m, hm⟩ := ih (addTransition nt (c0.1 nt.1) c0.2) h
      exact ⟨m, by simp [observedDurations, hm]⟩

/-- The scan ends with the least duration seen: the final duration is the seed's or an observed
one, and it is at most the seed's and at most every observed one (NaN durations apart). -/
theorem scanCandidates_least (cands : List (Candidate K)) (nt : Transition K) :
    ((scanCandidates cands nt).1 = nt.1 ∨
        ∃ o ∈ observedDurations cands nt, o.1 = (scanCandidates cands nt).1) ∧
      (nt.1 ≠ Spf.nan → (scanCandidates cands nt).1 ≤ nt.1) ∧
      (∀ o ∈ observedDurations cands nt, o.1 ≠ Spf.nan → (scanCandidates cands nt).1 ≤ o.1) := by
  induction cands generalizing nt with
  | nil =>
    refine ⟨Or.inl rfl, fun h => Spf.leb_refl_of_ne_nan h, ?_⟩
    intro o ho
    simp [observedDurations] at ho
  | cons c rest ih =>
    have hfst : (addTransition nt (c.1 nt.1) c.2).1 =
        if (Spf.isnan (c.1 nt.1) || decide (c.1 nt.1 > nt.1)) = true then nt.1
        else c.1 nt.1 := by
      rw [addTransition_eq]
      split <;> rfl
    obtain ⟨ih1, ih2, ih3⟩ := ih (addTransition nt (c.1 nt.1) c.2)
    rw [scanCandidates_cons]
    simp only [observedDurations, List.mem_cons]
    generalize addTransition nt (c.1 nt.1) c.2 = nt' at hfst ih1 ih2 ih3 ⊢
    generalize (scanCandidates rest nt').1 = F at ih1 ih2 ih3 ⊢
    by_cases hacc : (Spf.isnan (c.1 nt.1) || decide (c.1 nt.1 > nt.1)) = true
    · simp only [hacc, if_true] at hfst
      rw [hfst] at ih1 ih2
      refine ⟨?_, ih2, ?_⟩
      · rcases ih1 with h | ⟨o, ho, h⟩
        · exact Or.inl h
        · exact Or.inr ⟨o, Or.inr ho, h⟩
      · intro o ho hne
        rcases ho with ho | ho
        · subst ho
          rcases Bool.or_eq_true _ _ |>.mp hacc with hnan | hgt
          · exact absurd (by cases h : c.1 nt.1 <;> simp_all [Spf.isnan]) hne
          · have hgt' : Spf.ltb nt.1 (c.1 nt.1) = true := of_decide_eq_true hgt
            exact Spf.leb_of_ltb
              (Spf.ltb_of_leb_of_ltb (ih2 (Spf.ne_nan_of_ltb_left hgt')) hgt')
        · exact ih3 o ho hne
    · have hacc' : (Spf.isnan (c.1 nt.1) || decide (c.1 nt.1 > nt.1)) = false := by
        simpa using hacc
      simp only [hacc, if_false] at hfst
      rw [hfst] at ih1 ih2
      have hτ := Spf.ne_nan_of_accepted hacc'
      refine ⟨?_, ?_, ?_⟩
      · rcases ih1 with h | ⟨o, ho, h⟩
        · exact Or.inr ⟨_, Or.inl rfl, h.symm⟩
        · exact Or.inr ⟨o, Or.inr ho, h⟩
      · intro hb
        exact Spf.leb_trans (ih2 hτ) (Spf.leb_of_accepted hacc' hb)
      · intro o ho hne
        rcases ho with ho | ho
        · subst ho
          exact ih2 hτ
        · exact ih3 o ho hne

/-- In a sorted input queue the batch that `Calculate` takes is the earliest one after `ts`. -/
theorem inputs_earliest (ts : Spf K) (queue : List (Spf K × List (Action K)))
    (hq : queue.Pairwise (fun a b => Spf.ltb a.1 b.1 = true)) :
    ((∀ k ∈ queue, Spf.ltb ts k.1 = false) ∧ Calculate.inputs ts queue = (Spf.nan, [])) ∨
      ∃ k0 ∈ queue, Spf.ltb ts k0.1 = true ∧
        (∀ k ∈ queue, Spf.ltb ts k.1 = true → Spf.leb k0.1 k.1 = true) ∧
        Calculate.inputs ts queue = (k0.1 - ts, k0.2) := by
  induction queue with
  | nil => exact Or.inl ⟨by simp, rfl⟩
  | cons x rest ih =>
    rw [List.pairwise_cons] at hq
    by_cases hx : Spf.ltb ts x.1 = true
    · right
      refine ⟨x, List.mem_cons_self _ _, hx, ?_, ?_⟩
      · intro k hk _
        rcases List.mem_cons.mp hk with h | h
        · subst h
          exact Spf.leb_refl_of_ne_nan (Spf.ne_nan_of_ltb_right hx)
        · exact Spf.leb_of_ltb (hq.1 k h)
      · simp [Calculate.inputs, List.find?, hx]
    · have hx' : Spf.ltb ts x.1 = false := by simpa using hx
      have hstep : Calculate.inputs ts (x :: rest) = Calculate.inputs ts rest := by
        simp [Calculate.inputs, List.find?, hx']
      rcases ih hq.2 with ⟨h1, h2⟩ | ⟨k0, hk0, h1, h2, h3⟩
      · left
        refine ⟨?_, by rw [hstep, h2]⟩
        intro k hk
        rcases List.mem_cons.mp hk with h | h
        · subst h; exact hx'
        · exact h1 k h
      · right
        refine ⟨k0, List.mem_cons_of_mem _ hk0, h1, ?_, by rw [hstep, h3]⟩
        intro k hk hlt
        rcases List.mem_cons.mp hk with h | h
        · subst h; rw [hx'] at hlt; exact absurd hlt (by simp)
        · exact h2 k h hlt

theorem collisionCalls_cons [SqrtOp K] (P : PolySolver K) (fixtures : Snapshot K)
    (before after : List (Int × Body K)) (p : Int × Body K) :
    Calculate.collisionCalls P fixtures before (p :: after) =
      (if p.2.IsStopped then []
        else (before.filter (fun o => o.2.IsStopped)).map (fun o => ((1 : Nat), p.1, o.1))
          ++ after.map (fun o => ((1 : Nat), p.1, o.1))
          ++ fixtures.bodies.map (fun o => ((2 : Nat), p.1, o.1)))
        ++ Calculate.collisionCalls P fixtures (before ++ [p]) after := by
  unfold Calculate.collisionCalls
  rw [Calculate.collisionCandidates, List.map_append]
  congr 1
  unfold Calculate.collisionCandidatesOf
  split
  · rfl
  · simp only [List.map_append, List.map_map]
    rfl

/-- Calls against a fixture: one for each body that is not stopped and each fixture. -/
theorem collisionCalls_mem_fixture [SqrtOp K] (P : PolySolver K) (fixtures : Snapshot K)
    (before rest : List (Int × Body K)) (a b : Int) :
    ((2 : Nat), a, b) ∈ Calculate.collisionCalls P fixtures before rest ↔
      ∃ p ∈ rest, ∃ f ∈ fixtures.bodies, p.1 = a ∧ f.1 = b ∧ p.2.IsStopped = false := by
  induction rest generalizing before with
  | nil => simp [Calculate.collisionCalls, Calculate.collisionCandidates]
  | cons p after ih =>
    rw [collisionCalls_cons, List.mem_append, ih]
    by_cases hp : p.2.IsStopped = true
    · simp only [hp, if_true, List.not_mem_nil, false_or, List.mem_cons]
      constructor
      · rintro ⟨q, hq, f, hf, h1, h2, h3⟩
        exact ⟨q, Or.inr hq, f, hf, h1, h2, h3⟩
      · rintro ⟨q, hq | hq, f, hf, h1, h2, h3⟩
        · subst hq; rw [hp] at h3; exact absurd h3 (by simp)
        · exact ⟨q, hq, f, hf, h1, h2, h3⟩
    · have hp' : p.2.IsStopped = false := by simpa using hp
      simp only [hp', Bool.false_eq_true, if_false, List.mem_append, List.mem_map, Prod.mk.injEq,
        List.mem_cons]
      constructor
      · rintro (((⟨o, _, h, _⟩ | ⟨o, _, h, _⟩) | ⟨f, hf, _, h1, h2⟩) | ⟨q, hq, f, hf, h1, h2, h3⟩)
        · exact absurd h (by decide)
        · exact absurd h (by decide)
        · exact ⟨p, Or.inl rfl, f, hf, h1, h2, hp'⟩
        · exact ⟨q, Or.inr hq, f, hf, h1, h2, h3⟩
      · rintro ⟨q, hq | hq, f, hf, h1, h2, h3⟩
        · subst hq; exact Or.inl (Or.inr ⟨f, hf, trivial, h1, h2⟩)
        · exact Or.inr ⟨q, hq, f, hf, h1, h2, h3⟩

/-- Every call is invoked on a body of `rest` that is not stopped, and is a call against a
snapshot body or against a fixture. -/
theorem collisionCalls_self [SqrtOp K] (P : PolySolver K) (fixtures : Snapshot K)
    (before rest : List (Int × Body K)) (c : Nat × Int × Int)
    (hc : c ∈ Calculate.collisionCalls P fixtures before rest) :
    (c.1 = 1 ∨ c.1 = 2) ∧ ∃ p ∈ rest, p.1 = c.2.1 ∧ p.2.IsStopped = false := by
  induction rest generalizing before with
  | nil => simp [Calculate.collisionCalls, Calculate.collisionCandidates] at hc
  | cons p after ih =>
    rw [collisionCalls_cons, List.mem_append] at hc
    rcases hc with hc | hc
    · by_cases hp : p.2.IsStopped = true
      · simp [hp] at hc
      · have hp' : p.2.IsStopped = false := by simpa using hp
        simp only [hp', Bool.false_eq_true, if_false, List.mem_append, List.mem_map] at hc
        rcases hc with (⟨o, _, h⟩ | ⟨o, _, h⟩) | ⟨f, _, h⟩ <;> subst h
        · exact ⟨Or.inl rfl, p, List.mem_cons_self _ _, rfl, hp'⟩
        · exact ⟨Or.inl rfl, p, List.mem_cons_self _ _, rfl, hp'⟩
        · exact ⟨Or.inr rfl, p, List.mem_cons_self _ _, rfl, hp'⟩
    · obtain ⟨h1, q, hq, h2, h3⟩ := ih _ hc
      exact ⟨h1, q, List.mem_cons_of_mem _ hq, h2, h3⟩

/-- Calls against a snapshot body, for a map in increasing key order: `a` is called on with `b`
exactly when `a` is a body of `rest` that is not stopped and `b` is a stopped body before it or
any body after it. -/
theorem collisionCalls_mem_body [SqrtOp K] (P : PolySolver K) (fixtures : Snapshot K)
    (before rest : List (Int × Body K)) (a b : Int)
    (hs : (before ++ rest).Pairwise (fun x y => x.1 < y.1)) :
    ((1 : Nat), a, b) ∈ Calculate.collisionCalls P fixtures before rest ↔
      ∃ p ∈ rest, ∃ o ∈ before ++ rest, p.1 = a ∧ o.1 = b ∧ p.2.IsStopped = false ∧
        ((o.1 < p.1 ∧ o.2.IsStopped = true) ∨ p.1 < o.1) := by
  induction rest generalizing before with
  | nil => simp [Calculate.collisionCalls, Calculate.collisionCandidates]
  | cons p after ih =>
    have hs' : ((before ++ [p]) ++ after).Pairwise (fun x y => x.1 < y.1) := by
      simpa using hs
    obtain ⟨-, hpa, hbp⟩ := List.pairwise_append.mp hs
    have hbp' : ∀ o ∈ before, o.1 < p.1 := fun o ho => hbp o ho p (List.mem_cons_self _ _)
    have hpa' : ∀ o ∈ after, p.1 < o.1 := (List.pairwise_cons.mp hpa).1
    rw [collisionCalls_cons, List.mem_append, ih _ hs']
    constructor
    · rintro (hc | ⟨q, hq, o, ho, h⟩)
      · by_cases hp : p.2.IsStopped = true
        · simp [hp] at hc
        · have hp' : p.2.IsStopped = false := by simpa using hp
          simp only [hp', Bool.false_eq_true, if_false, List.mem_append, List.mem_map,
            List.mem_filter, Prod.mk.injEq] at hc
          rcases hc with (⟨o, ⟨ho, hst⟩, -, h1, h2⟩ | ⟨o, ho, -, h1, h2⟩) | ⟨f, _, h, _⟩
          · exact ⟨p, List.mem_cons_self _ _, o, List.mem_append_left _ ho, h1, h2, hp',
              Or.inl ⟨hbp' o ho, hst⟩⟩
          · exact ⟨p, List.mem_cons_self _ _, o,
              List.mem_append_right _ (List.mem_cons_of_mem _ ho), h1, h2, hp',
              Or.inr (hpa' o ho)⟩
          · exact absurd h (by decide)
      · refine ⟨q, List.mem_cons_of_mem _ hq, o, ?_, h⟩
        simpa using ho
    · rintro ⟨q, hq, o, ho, h1, h2, h3, h4⟩
      rcases List.mem_cons.mp hq with hq | hq
      · subst hq
        left
        simp only [h3, Bool.false_eq_true, if_false, List.mem_append, List.mem_map,
          List.mem_filter, Prod.mk.injEq]
        rcases List.mem_append.mp ho with ho | ho
        · rcases h4 with ⟨-, hst⟩ | hlt
          · exact Or.inl (Or.inl ⟨o, ⟨ho, hst⟩, trivial, h1, h2⟩)
          · exact absurd hlt (lt_asymm (hbp' o ho))
        · rcases List.mem_cons.mp ho with ho | ho
          · subst ho
            rcases h4 with ⟨hlt, -⟩ | hlt <;> exact absurd hlt (lt_irrefl _)
          · exact Or.inl (Or.inr ⟨o, ho, trivial, h1, h2⟩)
      · right
        refine ⟨q, hq, o, ?_, h1, h2, h3, h4⟩
        simpa using ho

/-- For maps in increasing key order no call is made twice. -/
theorem collisionCalls_nodup [SqrtOp K] (P : PolySolver K) (fixtures : Snapshot K)
    (before rest : List (Int × Body K))
    (hs : (before ++ rest).Pairwise (fun x y => x.1 < y.1))
    (hf : fixtures.bodies.Pairwise (fun x y => x.1 < y.1)) :
    (Calculate.collisionCalls P fixtures before rest).Nodup := by
  induction rest generalizing before with
  | nil => simp [Calculate.collisionCalls, Calculate.collisionCandidates]
  | cons p after ih =>
    have hs' : ((before ++ [p]) ++ after).Pairwise (fun x y => x.1 < y.1) := by
      simpa using hs
    obtain ⟨-, hpa, -⟩ := List.pairwise_append.mp hs
    have hpa' : ∀ o ∈ after, p.1 < o.1 := (List.pairwise_cons.mp hpa).1
    rw [collisionCalls_cons, List.nodup_append]
    refine ⟨?_, ih _ hs', ?_⟩
    · by_cases hp : p.2.IsStopped = true
      · simp [hp]
      · have hp' : p.2.IsStopped = false := by simpa using hp
        simp only [hp', Bool.false_eq_true, if_false]
        rw [← List.map_append, List.nodup_append]
        have hsub : (before.filter (fun o => o.2.IsStopped) ++ after).Pairwise
            (fun x y => x.1 < y.1) :=
          hs.sublist (List.Sublist.append (List.filter_sublist before)
            (List.sublist_cons_self p after))
        refine ⟨?_, ?_, ?_⟩
        · rw [List.Nodup, List.pairwise_map]
          exact hsub.imp (fun h he => absurd (by simpa using he) (ne_of_lt h))
        · rw [List.Nodup, List.pairwise_map]
          exact hf.imp (fun h he => absurd (by simpa using he) (ne_of_lt h))
        · intro c h1 h2
          obtain ⟨o, -, ho⟩ := List.mem_map.mp h1
          obtain ⟨f, -, hf'⟩ := List.mem_map.mp h2
          rw [← ho] at hf'
          simp at hf'
    · intro c h1 h2
      obtain ⟨-, q, hq, hq1, -⟩ := collisionCalls_self P fixtures _ _ c h2
      have hc : c.2.1 = p.1 := by
        by_cases hp : p.2.IsStopped = true
        · simp [hp] at h1
        · have hp' : p.2.IsStopped = false := by simpa using hp
          simp only [hp', Bool.false_eq_true, if_false, List.mem_append, List.mem_map] at h1
          rcases h1 with (⟨o, _, h⟩ | ⟨o, _, h⟩) | ⟨f, _, h⟩ <;> subst h <;> rfl
      have := hpa' q hq
      rw [hq1, hc] at this
      exact lt_irrefl _ this

/-- In a map in increasing key order a key names one entry. -/
theorem eq_of_key_eq {V : Type} (l : List (Int × V)) (hs : l.Pairwise (fun x y => x.1 < y.1))
    (p q : Int × V) (hp : p ∈ l) (hq : q ∈ l) (h : p.1 = q.1) : p = q := by
  induction l with
  | nil => simp at hp
  | cons x rest ih =>
    obtain ⟨hx, hrest⟩ := List.pairwise_cons.mp hs
    rcases List.mem_cons.mp hp with hp1 | hp1
    · rcases List.mem_cons.mp hq with hq1 | hq1
      · rw [hp1, hq1]
      · have := hx q hq1
        rw [← hp1, h] at this
        exact absurd this (lt_irrefl _)
    · rcases List.mem_cons.mp hq with hq1 | hq1
      · have := hx p hp1
        rw [← hq1, h] at this
        exact absurd this (lt_irrefl _)
      · exact ih hrest hp1 hq1


/-- In a list without duplicates a member is counted once. -/
theorem count_one_of_nodup_mem {α : Type} [BEq α] [LawfulBEq α] {a : α} {l : List α}
    (d : l.Nodup) (h : a ∈ l) : l.count a = 1 := by
  induction l with
  | nil => simp at h
  | cons x rest ih =>
    obtain ⟨hx, hrest⟩ := List.nodup_cons.mp d
    rw [List.count_cons]
    rcases List.mem_cons.mp h with h1 | h1
    · subst h1
      simp [List.count_eq_zero_of_not_mem hx]
    · have hne : (x == a) = false := by
        apply beq_false_of_ne
        intro he
        subst he
        exact hx h1
      simp [ih hrest h1, hne]

theorem observedDurations_codes (cands : List (Candidate K)) (nt : Transition K) :
    (observedDurations cands nt).map (fun o => o.2.code) = cands.map (fun c => c.2.code) := by
  induction cands generalizing nt with
  | nil => rfl
  | cons c rest ih => simp [observedDurations, ih]

theorem Spf.add_fin_add_fin (p : Spf K) (x y : K) :
    p + Spf.fin x + Spf.fin y = p + Spf.fin (x + y) := by
  show Spf.add (Spf.add p (Spf.fin x)) (Spf.fin y) = Spf.add p (Spf.fin (x + y))
  cases p <;> simp [Spf.add, add_assoc]

theorem Spf.add_fin_zero (p : Spf K) : p + Spf.fin 0 = p := by
  show Spf.add p (Spf.fin 0) = p
  cases p <;> simp [Spf.add]

/-- A vector whose squared magnitude is finite has finite coordinates. -/
theorem exactMagnitude_fin [SqrtOp K] (v : Vec2d K) (h : ExactMagnitude v) :
    ∃ vx vy m : K, v = ⟨Spf.fin vx, Spf.fin vy⟩ ∧ 0 ≤ m ∧ v.Magnitude = Spf.fin m ∧
      vx * vx + vy * vy = m * m := by
  obtain ⟨m, hm0, hmag, hsq⟩ := h
  obtain ⟨x, y⟩ := v
  have hsq' : Spf.add (Spf.mul x x) (Spf.mul y y) = Spf.fin (m * m) := hsq
  cases x <;> cases y <;> simp [Spf.add, Spf.mul, Spf.signedInf] at hsq'
  exact ⟨_, _, m, rfl, hm0, hmag, hsq'⟩

/-- `Normalized` of a finite vector that is not zero, its magnitude being `m`. -/
theorem normalized_of_magnitude [SqrtOp K] (vx vy m : K)
    (hmag : (Vec2d.mk (Spf.fin vx) (Spf.fin vy)).Magnitude = Spf.fin m) (hm : m ≠ 0)
    (hnz : ¬ (vx = 0 ∧ vy = 0)) :
    (Vec2d.mk (Spf.fin vx) (Spf.fin vy)).Normalized
      = ⟨Spf.fin (vx * (1 / m)), Spf.fin (vy * (1 / m))⟩ := by
  have h0 : (decide (vx = 0) && decide (vy = 0)) = false := by
    simpa using hnz
  simp only [Vec2d.Normalized, Spf.ceq_fin_fin, h0, hmag, Spf.fin_div_fin _ hm, Vec2d.mk_scale,
    Spf.fin_mul_fin]
  simp

/-- `CopyAfterDuration` of a circle with finite velocity that is not zero, finite friction and
magnitude `m` of the velocity, for a finite duration. -/
theorem copyAfterDuration_fin [SqrtOp K] (c : Circle K) (vx vy f m a : K)
    (hv : c.velocity = ⟨Spf.fin vx, Spf.fin vy⟩) (hfr : c.friction = Spf.fin f)
    (hmag : c.velocity.Magnitude = Spf.fin m) (hm : m ≠ 0) (hnz : ¬ (vx = 0 ∧ vy = 0)) :
    (c.CopyAfterDuration (Spf.fin a)).velocity
        = ⟨Spf.fin (vx + vx * (1 / m) * (-f) * a), Spf.fin (vy + vy * (1 / m) * (-f) * a)⟩ ∧
      (c.CopyAfterDuration (Spf.fin a)).position
        = ⟨c.position.x + Spf.fin (vx * a + vx * (1 / m) * (-f) * (a * a / 2)),
            c.position.y + Spf.fin (vy * a + vy * (1 / m) * (-f) * (a * a / 2))⟩ := by
  rw [hv] at hmag
  have hn := normalized_of_magnitude vx vy m hmag hm hnz
  have h2 : (2 : K) ≠ 0 := two_ne_zero
  constructor
  · simp only [Circle.CopyAfterDuration, BodyData.VelocityAfterDuration, BodyData.Acceleration,
      hv, hfr, hn, Spf.neg_fin, Vec2d.mk_scale, Vec2d.mk_add_mk, Spf.fin_mul_fin, Spf.fin_add_fin]
  · simp only [Circle.CopyAfterDuration, BodyData.PositionAfterDuration, BodyData.Acceleration,
      hv, hfr, hn]
    generalize c.position = pos
    obtain ⟨px, py⟩ := pos
    simp only [Spf.neg_fin, Vec2d.mk_scale, Vec2d.mk_add_mk, Spf.fin_mul_fin,
      Spf.fin_div_fin _ h2, Spf.add_fin_add_fin]

/-- Durations that are not negative and whose sum is less than some time are finite. -/
theorem Spf.fin_of_nonneg_add_lt {d1 d2 t : Spf K} (h1 : Spf.fin 0 ≤ d1) (h2 : Spf.fin 0 ≤ d2)
    (h : d1 + d2 < t) : ∃ a b : K, 0 ≤ a ∧ 0 ≤ b ∧ d1 = Spf.fin a ∧ d2 = Spf.fin b := by
  have h1' : Spf.leb (Spf.fin 0) d1 = true := h1
  have h2' : Spf.leb (Spf.fin 0) d2 = true := h2
  have h' : Spf.ltb (Spf.add d1 d2) t = true := h
  cases d1 <;> cases d2 <;> cases t <;> simp_all [Spf.leb, Spf.ltb, Spf.add]

/-- Two circles with the same data members are equal. -/
theorem Circle.eq_of_fields (x y : Circle K) (h1 : x.ID = y.ID) (h2 : x.extra = y.extra)
    (h3 : x.stopped = y.stopped) (h4 : x.position = y.position) (h5 : x.velocity = y.velocity)
    (h6 : x.friction = y.friction) (h7 : x.mass = y.mass) (h8 : x.radius = y.radius) :
    x = y := by
  obtain ⟨⟨_, _, _, _, _, _, _⟩, _⟩ := x
  obtain ⟨⟨_, _, _, _, _, _, _⟩, _⟩ := y
  simp only at h1 h2 h3 h4 h5 h6 h7 h8
  subst h1 h2 h3 h4 h5 h6 h7 h8
  rfl

end Lemmas

/-! ## Collision response -/

section Response

variable {K : Type} [LinearOrderedField K]

/-- C1: momentum conservation.  For two circles with finite masses whose sum is not zero,
finite positions and velocities, and an exactly computed distance between the centres, the vector
sum `mass * velocity` is the same after `a.ApplyCollision(b)` as before. -/
theorem momentum_conserved [SqrtOp K] (a b : Circle K)
    (hma : a.mass.IsFinite) (hmb : b.mass.IsFinite) (hM : a.mass + b.mass ≠ Spf.fin 0)
    (hpa : a.position.IsFinite) (hpb : b.position.IsFinite)
    (hva : a.velocity.IsFinite) (hvb : b.velocity.IsFinite)
    (hsq : (b.position - a.position).Magnitude * (b.position - a.position).Magnitude
      = (b.position - a.position).SqrMagnitude) :
    momentum (a.ApplyCollision (Body.circle b)).1.toBodyData
        (a.ApplyCollision (Body.circle b)).2.data
      = momentum a.toBodyData b.toBodyData := by
  obtain ⟨ma, hma⟩ := Spf.IsFinite.exists_eq hma
  obtain ⟨mb, hmb⟩ := Spf.IsFinite.exists_eq hmb
  obtain ⟨pax, pay, hpa⟩ := Vec2d.IsFinite.exists_mk hpa
  obtain ⟨pbx, pby, hpb⟩ := Vec2d.IsFinite.exists_mk hpb
  obtain ⟨vax, vay, hva⟩ := Vec2d.IsFinite.exists_mk hva
  obtain ⟨vbx, vby, hvb⟩ := Vec2d.IsFinite.exists_mk hvb
  have hM' : ma + mb ≠ 0 := by
    intro h; apply hM; rw [hma, hmb]; simp [h]
  rw [hpa, hpb] at hsq
  simp only [Vec2d.mk_sub_mk, Spf.fin_sub_fin] at hsq
  obtain ⟨nx, ny, hn, -⟩ := Vec2d.normalized_fin _ _ hsq
  have hdir : a.CollisionDir (Body.circle b) = ⟨Spf.fin nx, Spf.fin ny⟩ := by
    simp only [Circle.CollisionDir, Circle.CollisionDirCircle, hpa, hpb, Vec2d.mk_sub_mk,
      Spf.fin_sub_fin, hn]
  obtain ⟨h1, h2, h3, h4⟩ := applyCollision_fin a (Body.circle b) vax vay vbx vby ma mb nx ny
    hva hvb hma hmb hM' hdir
  simp only [Body.Velocity, Body.Mass] at h2 h4
  have em := elastic_momentum ma mb (vax * nx + vay * ny) (vbx * nx + vby * ny) hM'
  simp only [momentum, h1, h2, h3, h4, hva, hvb, hma, hmb, Vec2d.mk_scale, Vec2d.mk_add_mk,
    Spf.fin_mul_fin, Spf.fin_add_fin, Vec2d.mk.injEq, Spf.fin.injEq]
  constructor
  · linear_combination nx * em
  · linear_combination ny * em


theorem momentum_conserved_witness :
    momentum (obliqueA.ApplyCollision (Body.circle obliqueB)).1.toBodyData
        (obliqueA.ApplyCollision (Body.circle obliqueB)).2.data
      = momentum obliqueA.toBodyData obliqueB.toBodyData :=
  momentum_conserved obliqueA obliqueB
    (by simp [obliqueA, movingCircle, Circle.new, BodyData.new, BodyData.AddVelocity,
      Spf.IsFinite])
    (by simp [obliqueB, movingCircle, Circle.new, BodyData.new, BodyData.AddVelocity,
      Spf.IsFinite])
    (by simp [obliqueA, obliqueB, movingCircle, Circle.new, BodyData.new, BodyData.AddVelocity]
        norm_num)
    oblique_finite.1 oblique_finite.2.1 oblique_finite.2.2.1 oblique_finite.2.2.2
    oblique_distance_exact

/-- C2: kinetic-energy conservation.  For two circles with finite positive masses, finite
positions and velocities, and an exactly normalised collision direction, the total kinetic energy
`(1/2) ma |va|^2 + (1/2) mb |vb|^2` is the same after `a.ApplyCollision(b)` as before. -/
theorem kinetic_energy_conserved [SqrtOp K] (a b : Circle K) (ma mb : K)
    (hma : a.mass = Spf.fin ma) (hmb : b.mass = Spf.fin mb) (hapos : 0 < ma) (hbpos : 0 < mb)
    (hpa : a.position.IsFinite) (hpb : b.position.IsFinite)
    (hva : a.velocity.IsFinite) (hvb : b.velocity.IsFinite)
    (hsq : (b.position - a.position).Magnitude * (b.position - a.position).Magnitude
      = (b.position - a.position).SqrMagnitude) :
    kineticEnergy (a.ApplyCollision (Body.circle b)).1.toBodyData
        (a.ApplyCollision (Body.circle b)).2.data
      = kineticEnergy a.toBodyData b.toBodyData := by
  obtain ⟨pax, pay, hpa⟩ := Vec2d.IsFinite.exists_mk hpa
  obtain ⟨pbx, pby, hpb⟩ := Vec2d.IsFinite.exists_mk hpb
  obtain ⟨vax, vay, hva⟩ := Vec2d.IsFinite.exists_mk hva
  obtain ⟨vbx, vby, hvb⟩ := Vec2d.IsFinite.exists_mk hvb
  have hM' : ma + mb ≠ 0 := by positivity
  rw [hpa, hpb] at hsq
  simp only [Vec2d.mk_sub_mk, Spf.fin_sub_fin] at hsq
  obtain ⟨nx, ny, hn, hunit⟩ := Vec2d.normalized_fin _ _ hsq
  have hdir : a.CollisionDir (Body.circle b) = ⟨Spf.fin nx, Spf.fin ny⟩ := by
    simp only [Circle.CollisionDir, Circle.CollisionDirCircle, hpa, hpb, Vec2d.mk_sub_mk,
      Spf.fin_sub_fin, hn]
  obtain ⟨h1, h2, h3, h4⟩ := applyCollision_fin a (Body.circle b) vax vay vbx vby ma mb nx ny
    hva hvb hma hmb hM' hdir
  simp only [Body.Velocity, Body.Mass] at h2 h4
  have ee := elastic_energy ma mb (vax * nx + vay * ny) (vbx * nx + vby * ny) hM'
  simp only [kineticEnergy, h1, h2, h3, h4, hva, hvb, hma, hmb, Vec2d.SqrMagnitude,
    Spf.fin_mul_fin, Spf.fin_add_fin, Spf.fin.injEq]
  rcases hunit with ⟨-, -, rfl, rfl⟩ | ⟨hunit, -⟩
  · simp
  · generalize ((vax * nx + vay * ny) * (ma - mb) + 2 * mb * (vbx * nx + vby * ny)) / (ma + mb) = avo at ee ⊢
    generalize (-(vbx * nx + vby * ny) * (ma - mb) + 2 * ma * (vax * nx + vay * ny)) / (ma + mb) = bvo at ee ⊢
    linear_combination (1/2) * ee + (1/2) * (ma * (avo - (vax * nx + vay * ny))^2 + mb * (bvo - (vbx * nx + vby * ny))^2) * hunit

theorem kinetic_energy_conserved_witness :
    kineticEnergy (obliqueA.ApplyCollision (Body.circle obliqueB)).1.toBodyData
        (obliqueA.ApplyCollision (Body.circle obliqueB)).2.data
      = kineticEnergy obliqueA.toBodyData obliqueB.toBodyData :=
  kinetic_energy_conserved obliqueA obliqueB 1 3 rfl rfl (by norm_num) (by norm_num)
    oblique_finite.1 oblique_finite.2.1 oblique_finite.2.2.1 oblique_finite.2.2.2
    oblique_distance_exact

/-- C6: immovable-body response.  When the other body has infinite mass, `ApplyCollision` leaves
the other body as it is and replaces the circle's velocity `v` by `v - n * (2 (v.n))`, `n` being
the collision direction; for a unit `n` the normal component is negated and the tangential
component and the speed are unchanged.  A circle with velocity `(1,0)` hitting a line on the
y-axis leaves with velocity `(-1,0)`. -/
theorem immovable_response [SqrtOp K] :
    (∀ (self : Circle K) (other : Body K), Spf.isinf other.Mass = true →
      (self.ApplyCollision other).2 = other ∧
      (self.ApplyCollision other).1 =
        { self with velocity := self.velocity -
            self.CollisionDir other *
              (Vec2d.Dot self.velocity (self.CollisionDir other) * Spf.fin 2) } ∧
      ∀ vx vy nx ny : K, self.velocity = ⟨Spf.fin vx, Spf.fin vy⟩ →
        self.CollisionDir other = ⟨Spf.fin nx, Spf.fin ny⟩ → nx * nx + ny * ny = 1 →
          (self.ApplyCollision other).1.velocity =
              ⟨Spf.fin (vx - 2 * (vx * nx + vy * ny) * nx),
               Spf.fin (vy - 2 * (vx * nx + vy * ny) * ny)⟩ ∧
            Vec2d.Dot (self.ApplyCollision other).1.velocity ⟨Spf.fin nx, Spf.fin ny⟩ =
              -Vec2d.Dot self.velocity ⟨Spf.fin nx, Spf.fin ny⟩ ∧
            Vec2d.Dot (self.ApplyCollision other).1.velocity ⟨Spf.fin (-ny), Spf.fin nx⟩ =
              Vec2d.Dot self.velocity ⟨Spf.fin (-ny), Spf.fin nx⟩ ∧
            (self.ApplyCollision other).1.velocity.SqrMagnitude = self.velocity.SqrMagnitude) ∧
    (∀ (self : Circle K) (id : Int) (e : Option Nat) (y1 y2 : K),
      self.velocity = ⟨Spf.fin 1, Spf.fin 0⟩ → y1 ≠ y2 →
      SqrtOp.sqrt ((y1 - y2) * (y1 - y2)) * SqrtOp.sqrt ((y1 - y2) * (y1 - y2))
        = (y1 - y2) * (y1 - y2) →
      (self.ApplyCollision (Body.line (Line.new id e ⟨Spf.fin 0, Spf.fin y1⟩
        ⟨Spf.fin 0, Spf.fin y2⟩))).1.velocity = ⟨Spf.fin (-1), Spf.fin 0⟩) := by
  refine ⟨fun self other hinf => ⟨by rw [applyCollision_inf self other hinf],
    by rw [applyCollision_inf self other hinf], fun vx vy nx ny hv hn hunit => ?_⟩, ?_⟩
  · have hv' := applyCollision_inf_fin self other hinf vx vy nx ny hv hn
    refine ⟨hv', ?_, ?_, ?_⟩
    · rw [hv', hv]
      simp only [Vec2d.Dot, Spf.fin_mul_fin, Spf.fin_add_fin, Spf.neg_fin, Spf.fin.injEq]
      linear_combination (-2 * (vx * nx + vy * ny)) * hunit
    · rw [hv', hv]
      simp only [Vec2d.Dot, Spf.fin_mul_fin, Spf.fin_add_fin, Spf.neg_fin, Spf.fin.injEq]
      ring
    · rw [hv', hv]
      simp only [Vec2d.SqrMagnitude, Spf.fin_mul_fin, Spf.fin_add_fin, Spf.fin.injEq]
      linear_combination (4 * (vx * nx + vy * ny) ^ 2) * hunit
  · intro self id e y1 y2 hv hne hsq
    obtain ⟨nx, hn, hunit⟩ := normal_yaxis id e y1 y2 hne hsq
    have hinf : Spf.isinf (Body.line (Line.new id e ⟨Spf.fin 0, Spf.fin y1⟩
        ⟨Spf.fin 0, Spf.fin y2⟩) : Body K).Mass = true := rfl
    rw [applyCollision_inf_fin self _ hinf 1 0 nx 0 hv
      (by simp only [Circle.CollisionDir, Circle.CollisionDirLine, hn])]
    simp only [Vec2d.mk.injEq, Spf.fin.injEq]
    constructor
    · linear_combination (-2 : K) * hunit
    · ring

theorem immovable_response_witness :
    ((wallCircle.ApplyCollision (Body.line wall)).2 = Body.line wall) ∧
      (wallCircle.ApplyCollision (Body.line wall)).1.velocity = ⟨Spf.fin (-1), Spf.fin 0⟩ :=
  ⟨((@immovable_response ℚ _ _).1 wallCircle (Body.line wall) rfl).1,
    (@immovable_response ℚ _ _).2 wallCircle 3 none (-10) 10
      (movingCircle_velocity _ _ _ _ _ _ _) (by norm_num)
      (by show Rat.sqrt _ * Rat.sqrt _ = _
          rw [Rat.sqrt_eq]; norm_num)⟩

/-- C19, counterexample: `SetVelocity` stores the velocity and leaves `stopped` as it is.  A newly
constructed body is stopped with zero velocity; after `SetVelocity((1,0))` it is still stopped
and its velocity is not the zero vector. -/
theorem setVelocity_breaks_stopped_invariant :
    StoppedConsistent (BodyData.new 1 none (vec 0 0) (Spf.fin 1) (Spf.fin 1)) ∧
      ((BodyData.new 1 none (vec 0 0) (Spf.fin 1) (Spf.fin 1)).SetVelocity (vec 1 0)).stopped
        = true ∧
      ((BodyData.new 1 none (vec 0 0) (Spf.fin 1) (Spf.fin 1)).SetVelocity (vec 1 0)).velocity
        ≠ Vec2d.Zero ∧
      ¬ StoppedConsistent
        ((BodyData.new 1 none (vec 0 0) (Spf.fin 1) (Spf.fin 1)).SetVelocity (vec 1 0)) := by
  refine ⟨fun _ => rfl, rfl, by decide!, ?_⟩
  intro h
  have := h rfl
  revert this
  decide!

/-- C19, amended: `stopped` implies zero velocity holds for every newly constructed body, is
established by `Stop` and `AddVelocity`, and is preserved by `SetPosition`, by
`CopyAfterDuration` (finite friction and duration), by `ApplyCollision` on both participants
(finite collision direction), and by `SetVelocity(v)` when the body is not stopped or `v` is the
zero vector. -/
theorem stopped_invariant_preserved [SqrtOp K] :
    (∀ (id : Int) (e : Option Nat) (pos : Vec2d K) (fric mas : Spf K),
      StoppedConsistent (BodyData.new id e pos fric mas)) ∧
    (∀ b : BodyData K, StoppedConsistent b.Stop) ∧
    (∀ (b : BodyData K) (v : Vec2d K), StoppedConsistent (b.AddVelocity v)) ∧
    (∀ (b : BodyData K) (p : Vec2d K),
      StoppedConsistent b → StoppedConsistent (b.SetPosition p)) ∧
    (∀ (b : BodyData K) (v : Vec2d K), StoppedConsistent b →
      (b.stopped = false ∨ v = Vec2d.Zero) → StoppedConsistent (b.SetVelocity v)) ∧
    (∀ (b : Body K) (d f : K), b.data.friction = Spf.fin f → StoppedConsistent b.data →
      StoppedConsistent (b.CopyAfterDuration (Spf.fin d)).data) ∧
    (∀ (c : Circle K) (other : Body K), StoppedConsistent c.toBodyData →
      StoppedConsistent other.data → (c.CollisionDir other).IsFinite →
      StoppedConsistent (c.ApplyCollision other).1.toBodyData ∧
        StoppedConsistent (c.ApplyCollision other).2.data) ∧
    (∀ (l : Line K) (other : Body K), StoppedConsistent l.toBodyData →
      StoppedConsistent other.data →
      StoppedConsistent ((Body.line l).ApplyCollision other).1.data ∧
        StoppedConsistent ((Body.line l).ApplyCollision other).2.data) := by
  refine ⟨?_, ?_, ?_, ?_, ?_, ?_, ?_, ?_⟩
  · intro id e pos fric mas _
    rfl
  · intro b _
    rfl
  · intro b v h
    simp [BodyData.AddVelocity] at h
  · intro b p h hs
    exact h hs
  · intro b v h hcase hs
    rcases hcase with hc | hc
    · simp only [BodyData.SetVelocity] at hs
      rw [hc] at hs
      exact absurd hs (by simp)
    · exact hc
  · intro b d f hf h
    cases b with
    | line l => exact h
    | circle c =>
      intro hs
      have hv : c.velocity = Vec2d.Zero := h hs
      simp only [Body.data] at hf
      simp only [Body.CopyAfterDuration, Body.data, Circle.CopyAfterDuration,
        BodyData.VelocityAfterDuration, BodyData.Acceleration, hv, hf]
      simp [Vec2d.Normalized, Vec2d.Zero]
  · intro c other hc ho hdir
    have hadd : ∀ (o : Body K) (v : Vec2d K), StoppedConsistent (o.AddVelocity v).data := by
      intro o v h
      cases o <;> simp [Body.AddVelocity, Body.setData, Body.data, BodyData.AddVelocity] at h
    obtain ⟨nx, ny, hn⟩ := Vec2d.IsFinite.exists_mk hdir
    simp only [Circle.ApplyCollision]
    split
    · exact ⟨hc, ho⟩
    · split
      · refine ⟨?_, ho⟩
        intro hs
        have hv : c.velocity = Vec2d.Zero := hc hs
        simp only [hv, hn]
        simp [Vec2d.Dot, Vec2d.Zero]
      · refine ⟨?_, hadd _ _⟩
        intro h
        simp [BodyData.AddVelocity] at h
  · intro l other hl ho
    exact ⟨hl, ho⟩

theorem stopped_invariant_preserved_witness :
    StoppedConsistent ((Body.circle hitResting).CopyAfterDuration (Spf.fin 3)).data ∧
      StoppedConsistent (hitResting.toBodyData.SetPosition (vec 1 1)) ∧
      StoppedConsistent (hitMoving.toBodyData.SetVelocity (vec 5 5)) :=
  ⟨(@stopped_invariant_preserved ℚ _ _).2.2.2.2.2.1 (Body.circle hitResting) 3 1 rfl
      (fun _ => rfl),
    (@stopped_invariant_preserved ℚ _ _).2.2.2.1 hitResting.toBodyData (vec 1 1) (fun _ => rfl),
    (@stopped_invariant_preserved ℚ _ _).2.2.2.2.1 hitMoving.toBodyData (vec 5 5)
      (fun h => absurd h (by decide)) (Or.inl rfl)⟩

end Response

/-! ## Root selection and stopping time -/

section Roots

variable {K : Type} [LinearOrderedField K]

/-- C7: friction stop time.  The code divides the speed by the friction value: the circle with
velocity `(3,4)` (magnitude 5) and friction value 2 has `TimeUntilStop() = 5/2`, not `5 * 2`. -/
theorem timeUntilStop_divides_by_friction :
    frictionCircle.velocity.Magnitude = Spf.fin 5 ∧ frictionCircle.friction = Spf.fin 2 ∧
      frictionCircle.TimeUntilStop = Spf.fin (5 / 2) ∧
      frictionCircle.TimeUntilStop ≠ Spf.fin 5 * Spf.fin 2 := by
  have hm : frictionCircle.velocity.Magnitude = Spf.fin 5 := by
    rw [frictionCircle, movingCircle_velocity]
    simp [Vec2d.Magnitude, Vec2d.SqrMagnitude, Spf.sqrt]
    norm_num [ratSqrt_25]
  have hf : frictionCircle.friction = Spf.fin 2 := rfl
  have ht : frictionCircle.TimeUntilStop = Spf.fin (5 / 2) := by
    rw [BodyData.TimeUntilStop, hm, hf, Spf.fin_div_fin _ (by norm_num)]
  refine ⟨hm, hf, ht, ?_⟩
  rw [ht]
  simp
  norm_num

/-- C8: no backward-time root.  For all coefficients, both values of `only_inward` and every
answer of the external solver, `SolveQuadratic` and `SolveQuartic` return NaN or a value
strictly greater than 0. -/
theorem no_backward_time_root [SqrtOp K] :
    (∀ (a b c : Spf K) (only_inward : Bool),
      SolveQuadratic a b c only_inward = Spf.nan ∨
        Spf.fin 0 < SolveQuadratic a b c only_inward) ∧
    (∀ (P : PolySolver K) (a b c d e : Spf K) (only_inward : Bool),
      SolveQuartic P a b c d e only_inward = Spf.nan ∨
        Spf.fin 0 < SolveQuartic P a b c d e only_inward) := by
  constructor
  · intro a b c oi
    unfold SolveQuadratic
    rcases Spf.min_cases (SolveQuadratic.InvalidateBadRoot a b oi (SolveQuadratic.t1 a b c))
      (SolveQuadratic.InvalidateBadRoot a b oi (SolveQuadratic.t2 a b c)) with h | h <;>
      rw [h] <;> exact quadraticInvalidate_nan_or_pos _ _ _ _
  · intro P a b c d e oi
    unfold SolveQuartic SolveQuartic.select
    generalize SolveQuartic.callSolver P a b c d e = r
    have I := quarticInvalidate_nan_or_pos a b c d oi
    split
    · exact Or.inl rfl
    · have hbest : ∀ x y : Spf K, (x = Spf.nan ∨ Spf.fin 0 < x) → (y = Spf.nan ∨ Spf.fin 0 < y) →
          (Spf.min x y = Spf.nan ∨ Spf.fin 0 < Spf.min x y) := by
        intro x y hx hy
        rcases Spf.min_cases x y with h | h <;> rw [h] <;> assumption
      simp only
      split
      · exact hbest _ _ (hbest _ _ (I _) (I _)) (hbest _ _ (I _) (I _))
      · exact hbest _ _ (I _) (I _)

/-- C9: smallest surviving root.  `std::min(NaN, x)` is NaN, so a discarded first candidate hides
a surviving second one: `SolveQuadratic(1/2, -3, 4, true)` has candidates 4 (discarded, moving
apart) and 2 (surviving) and returns NaN; the selection of `SolveQuartic` on the reported roots
`-1, 1, 2, 3` of `t^4 - 5t^3 + 5t^2 + 5t - 6` returns NaN although the root 1 survives. -/
theorem min_drops_surviving_root :
    (SolveQuadratic.t1 (Spf.fin (1 / 2 : ℚ)) (Spf.fin (-3)) (Spf.fin 4) = Spf.fin 4 ∧
      SolveQuadratic.t2 (Spf.fin (1 / 2 : ℚ)) (Spf.fin (-3)) (Spf.fin 4) = Spf.fin 2 ∧
      SolveQuadratic.InvalidateBadRoot (Spf.fin (1 / 2 : ℚ)) (Spf.fin (-3)) true (Spf.fin 4)
        = Spf.nan ∧
      SolveQuadratic.InvalidateBadRoot (Spf.fin (1 / 2 : ℚ)) (Spf.fin (-3)) true (Spf.fin 2)
        = Spf.fin 2 ∧
      SolveQuadratic (Spf.fin (1 / 2 : ℚ)) (Spf.fin (-3)) (Spf.fin 4) true = Spf.nan) ∧
    (SolveQuartic.InvalidateBadRoot (Spf.fin (1 : ℚ)) (Spf.fin (-5)) (Spf.fin 5) (Spf.fin 5) false
        (Spf.fin 1) = Spf.fin 1 ∧
      SolveQuartic.select (Spf.fin (1 : ℚ)) (Spf.fin (-5)) (Spf.fin 5) (Spf.fin 5) false
        ⟨Spf.fin (-1), Spf.fin 1, Spf.fin 2, Spf.fin 3, 4⟩ = Spf.nan) := by
  have h1 : SolveQuadratic.t1 (Spf.fin (1 / 2 : ℚ)) (Spf.fin (-3)) (Spf.fin 4) = Spf.fin 4 := by
    simp [SolveQuadratic.t1, Spf.sqrt]
    norm_num [ratSqrt_1, Spf.fin_div_fin]
  have h2 : SolveQuadratic.t2 (Spf.fin (1 / 2 : ℚ)) (Spf.fin (-3)) (Spf.fin 4) = Spf.fin 2 := by
    simp [SolveQuadratic.t2, Spf.sqrt]
    norm_num [ratSqrt_1, Spf.fin_div_fin]
  have h3 : SolveQuadratic.InvalidateBadRoot (Spf.fin (1 / 2 : ℚ)) (Spf.fin (-3)) true (Spf.fin 4)
        = Spf.nan := by
    simp [SolveQuadratic.InvalidateBadRoot]
    norm_num
  have h4 : SolveQuadratic.InvalidateBadRoot (Spf.fin (1 / 2 : ℚ)) (Spf.fin (-3)) true (Spf.fin 2)
        = Spf.fin 2 := by
    simp [SolveQuadratic.InvalidateBadRoot]
    norm_num
  refine ⟨⟨h1, h2, h3, h4, ?_⟩, ?_, ?_⟩
  · rw [SolveQuadratic, h1, h2, h3, h4]
    rfl
  · simp [SolveQuartic.InvalidateBadRoot]
  · simp [SolveQuartic.select, SolveQuartic.InvalidateBadRoot, Spf.min]

/-- C10: `SolveQuadratic` solves its polynomial.  The code divides by `4*a*a` where the
quadratic formula has `2*a`: `SolveQuadratic(1, -3, 2, false)` returns `1/2`, at which
`t^2 - 3t + 2` is `3/4`. -/
theorem solveQuadratic_wrong_denominator :
    SolveQuadratic (Spf.fin (1 : ℚ)) (Spf.fin (-3)) (Spf.fin 2) false = Spf.fin (1 / 2) ∧
      Spf.fin (1 : ℚ) * Spf.fin (1 / 2) * Spf.fin (1 / 2) + Spf.fin (-3) * Spf.fin (1 / 2)
        + Spf.fin 2 = Spf.fin (3 / 4) := by
  constructor
  · have h1 : SolveQuadratic.t1 (Spf.fin (1 : ℚ)) (Spf.fin (-3)) (Spf.fin 2) = Spf.fin 1 := by
      simp [SolveQuadratic.t1, Spf.sqrt]
      norm_num [ratSqrt_1, Spf.fin_div_fin]
    have h2 : SolveQuadratic.t2 (Spf.fin (1 : ℚ)) (Spf.fin (-3)) (Spf.fin 2) = Spf.fin (1 / 2) := by
      simp [SolveQuadratic.t2, Spf.sqrt]
      norm_num [ratSqrt_1, Spf.fin_div_fin]
    rw [SolveQuadratic, h1, h2]
    simp [SolveQuadratic.InvalidateBadRoot, Spf.min]
    norm_num
  · simp
    norm_num
/-- C21, counterexample: a root at which the derivative is exactly 0 is returned.
`SolveQuadratic(1/2, -2, 2, true)` returns 2, the double root of `t^2/2 - 2t + 2`, where the
derivative `t - 2` is 0; `SolveQuartic(1, -2, 2, -2, 1, true)`, the solver reporting the double
root 1 of `(t-1)^2 (t^2+1)`, returns 1, where the derivative is 0. -/
theorem grazing_root_survives :
    (SolveQuadratic (Spf.fin (1 / 2 : ℚ)) (Spf.fin (-2)) (Spf.fin 2) true = Spf.fin 2 ∧
      (1 / 2 : ℚ) * 2 ^ 2 + (-2) * 2 + 2 = 0 ∧
      quadraticDerivative (1 / 2 : ℚ) (-2) 2 = 0) ∧
    (SolveQuartic grazingSolver (Spf.fin 1) (Spf.fin (-2)) (Spf.fin 2) (Spf.fin (-2)) (Spf.fin 1)
        true = Spf.fin 1 ∧
      (1 : ℚ) * 1 ^ 4 + (-2) * 1 ^ 3 + 2 * 1 ^ 2 + (-2) * 1 + 1 = 0 ∧
      quarticDerivative (1 : ℚ) (-2) 2 (-2) 1 = 0) := by
  refine ⟨⟨by decide!, by norm_num, by norm_num [quadraticDerivative]⟩,
    ⟨by decide!, by norm_num, by norm_num [quarticDerivative]⟩⟩

/-- C21, amended: only-inward filter.  For all coefficients and every answer of the external
solver, with `only_inward` true `SolveQuadratic` and `SolveQuartic` never return a value at which
the derivative, as the code computes it, is greater than 0; for finite coefficients and a finite
returned value `t` the derivative `2at + b`, respectively `4at^3 + 3bt^2 + 2ct + d`, is at most 0.
A positive candidate at which the derivative is exactly 0 is kept by the filter. -/
theorem only_inward_discards_positive_derivative [SqrtOp K] :
    (∀ a b c : Spf K,
      ¬ (a * Spf.fin 2 * SolveQuadratic a b c true + b > Spf.fin 0)) ∧
    (∀ (P : PolySolver K) (a b c d e : Spf K),
      ¬ (a * Spf.fin 4 * Spf.pow3 (SolveQuartic P a b c d e true)
          + b * Spf.fin 3 * Spf.pow2 (SolveQuartic P a b c d e true)
          + c * Spf.fin 2 * SolveQuartic P a b c d e true + d > Spf.fin 0)) ∧
    (∀ (a b t : K) (c : Spf K),
      SolveQuadratic (Spf.fin a) (Spf.fin b) c true = Spf.fin t →
        quadraticDerivative a b t ≤ 0) ∧
    (∀ (P : PolySolver K) (a b c d t : K) (e : Spf K),
      SolveQuartic P (Spf.fin a) (Spf.fin b) (Spf.fin c) (Spf.fin d) e true = Spf.fin t →
        quarticDerivative a b c d t ≤ 0) ∧
    (∀ a b t : K, 0 < t → quadraticDerivative a b t = 0 →
      SolveQuadratic.InvalidateBadRoot (Spf.fin a) (Spf.fin b) true (Spf.fin t) = Spf.fin t) ∧
    (∀ a b c d t : K, 0 < t → quarticDerivative a b c d t = 0 →
      SolveQuartic.InvalidateBadRoot (Spf.fin a) (Spf.fin b) (Spf.fin c) (Spf.fin d) true
        (Spf.fin t) = Spf.fin t) := by
  have hquad : ∀ a b c : Spf K,
      ¬ (a * Spf.fin 2 * SolveQuadratic a b c true + b > Spf.fin 0) := by
    intro a b c
    unfold SolveQuadratic
    rcases Spf.min_cases (SolveQuadratic.InvalidateBadRoot a b true (SolveQuadratic.t1 a b c))
      (SolveQuadratic.InvalidateBadRoot a b true (SolveQuadratic.t2 a b c)) with h | h <;>
      rw [h] <;> exact quadraticInvalidate_grade _ _ _
  have hquart : ∀ (P : PolySolver K) (a b c d e : Spf K),
      ¬ (a * Spf.fin 4 * Spf.pow3 (SolveQuartic P a b c d e true)
          + b * Spf.fin 3 * Spf.pow2 (SolveQuartic P a b c d e true)
          + c * Spf.fin 2 * SolveQuartic P a b c d e true + d > Spf.fin 0) := by
    intro P a b c d e
    unfold SolveQuartic SolveQuartic.select
    generalize SolveQuartic.callSolver P a b c d e = r
    have I := quarticInvalidate_grade a b c d
    have hbest : ∀ x y : Spf K,
        ¬ (a * Spf.fin 4 * Spf.pow3 x + b * Spf.fin 3 * Spf.pow2 x + c * Spf.fin 2 * x + d
          > Spf.fin 0) →
        ¬ (a * Spf.fin 4 * Spf.pow3 y + b * Spf.fin 3 * Spf.pow2 y + c * Spf.fin 2 * y + d
          > Spf.fin 0) →
        ¬ (a * Spf.fin 4 * Spf.pow3 (Spf.min x y) + b * Spf.fin 3 * Spf.pow2 (Spf.min x y)
          + c * Spf.fin 2 * Spf.min x y + d > Spf.fin 0) := by
      intro x y hx hy
      rcases Spf.min_cases x y with h | h <;> rw [h] <;> assumption
    split
    · simp [Spf.pow3, Spf.pow2]
    · simp only
      split
      · exact hbest _ _ (hbest _ _ (I _) (I _)) (hbest _ _ (I _) (I _))
      · exact hbest _ _ (I _) (I _)
  refine ⟨hquad, hquart, ?_, ?_, ?_, ?_⟩
  · intro a b t c h
    have := hquad (Spf.fin a) (Spf.fin b) c
    rw [h] at this
    simp only [Spf.fin_mul_fin, Spf.fin_add_fin, gt_iff_lt, Spf.fin_lt_fin, not_lt] at this
    unfold quadraticDerivative
    linarith
  · intro P a b c d t e h
    have := hquart P (Spf.fin a) (Spf.fin b) (Spf.fin c) (Spf.fin d) e
    rw [h] at this
    simp only [Spf.pow3, Spf.pow2, Spf.fin_mul_fin, Spf.fin_add_fin, gt_iff_lt, Spf.fin_lt_fin,
      not_lt] at this
    unfold quarticDerivative
    nlinarith [this]
  · intro a b t ht h0
    have hg : a * 2 * t + b = 0 := by unfold quadraticDerivative at h0; linarith
    simp [SolveQuadratic.InvalidateBadRoot, ht, hg]
  · intro a b c d t ht h0
    have hg : a * 4 * (t * t * t) + b * 3 * (t * t) + c * 2 * t + d = 0 := by
      unfold quarticDerivative at h0; linear_combination h0
    simp [SolveQuartic.InvalidateBadRoot, ht, hg, Spf.pow3, Spf.pow2]

theorem only_inward_discards_positive_derivative_witness :
    SolveQuadratic (Spf.fin (1 : ℚ)) (Spf.fin (-3)) (Spf.fin 2) true = Spf.fin (1 / 2) ∧
      quadraticDerivative (1 : ℚ) (-3) (1 / 2) ≤ 0 ∧
      quadraticDerivative (1 : ℚ) (-3) (1 / 2) = -2 :=
  ⟨by decide!,
    (@only_inward_discards_positive_derivative ℚ _ _).2.2.1 1 (-3) (1 / 2) (Spf.fin 2)
      (by decide!),
    by norm_num [quadraticDerivative]⟩

end Roots

/-! ## Collision detection scenarios -/

section Detection

/-- C4: head-on circles.  With zero friction the relative acceleration is zero, so the quartic
has `a = 0` and `b = 0`; `SolveQuartic` then divides by `b` and hands `SolveP3` the coefficients
`+Infinity, -Infinity, +Infinity`.  The value returned for the scenario (horizon 10) is whatever
the selection makes of the solver's answer to that call, and NaN when the solver reports no
root; the collision time 4 is a root of `4 t^2 - 40 t + 96`, which the solver is never given. -/
theorem headOn_solver_gets_infinite_coefficients :
    (∀ P : PolySolver ℚ,
      headOnA.TimeUntilCollide P (Body.circle headOnB) (Spf.fin 10) =
        (if SolveQuartic.select (Spf.fin 0) (Spf.fin 0) (Spf.fin 4) (Spf.fin (-40)) true
              (P.SolveP3 Spf.pinf Spf.ninf Spf.pinf) > Spf.fin 10 then Spf.nan
          else SolveQuartic.select (Spf.fin 0) (Spf.fin 0) (Spf.fin 4) (Spf.fin (-40)) true
              (P.SolveP3 Spf.pinf Spf.ninf Spf.pinf))) ∧
    headOnA.TimeUntilCollide noRootSolver (Body.circle headOnB) (Spf.fin 10) = Spf.nan := by
  have gen : ∀ P : PolySolver ℚ,
      headOnA.TimeUntilCollide P (Body.circle headOnB) (Spf.fin 10) =
        (if SolveQuartic.select (Spf.fin 0) (Spf.fin 0) (Spf.fin 4) (Spf.fin (-40)) true
              (P.SolveP3 Spf.pinf Spf.ninf Spf.pinf) > Spf.fin 10 then Spf.nan
          else SolveQuartic.select (Spf.fin 0) (Spf.fin 0) (Spf.fin 4) (Spf.fin (-40)) true
              (P.SolveP3 Spf.pinf Spf.ninf Spf.pinf)) := by
    intro P
    obtain ⟨ha, hb, hc, hd, he, ht⟩ := headOn_coefficients
    have hcall : SolveQuartic.callSolver P (Spf.fin 0) (Spf.fin 0) (Spf.fin 4) (Spf.fin (-40))
        (Spf.fin 96) = P.SolveP3 Spf.pinf Spf.ninf Spf.pinf := by
      have h1 : (Spf.fin (4 : ℚ) / Spf.fin 0) = Spf.pinf := by decide!
      have h2 : (Spf.fin (-40 : ℚ) / Spf.fin 0) = Spf.ninf := by decide!
      have h3 : (Spf.fin (96 : ℚ) / Spf.fin 0) = Spf.pinf := by decide!
      simp only [SolveQuartic.callSolver, Spf.ceq_fin_fin, decide_True, if_true, h1, h2, h3]
    simp only [Circle.TimeUntilCollide, Circle.TimeUntilCollideCircle, if_neg headOn_not_rejected,
      ha, hb, hc, hd, he, ht, SolveQuartic, hcall]
  refine ⟨gen, ?_⟩
  rw [gen]
  simp [noRootSolver, SolveQuartic.select]
/-- C5: immovable wall, collision time.  For the circle of radius 1 at `(-5,0)` with velocity
`(1,0)` and zero friction and the wall on the y-axis, the normal distance is 5 and the expected
time is `(5 - 1) / 1 = 4`.  The code adds the radius to the distance (`collisionDist = 6`), calls
`SolveQuadratic` with `a = 0`, which divides by `4*a*a = 0` and returns `+Infinity`, and
`TimeUntilCollide` returns NaN. -/
theorem wall_collision_time_is_nan :
    Vec2d.Dot (wallCircle.position - wall.LinePos.a) wall.Normal = Spf.fin 5 ∧
      Vec2d.Dot (wallCircle.position - wall.LinePos.a) wall.Normal
        + wallCircle.radius * Spf.fin 1 = Spf.fin 6 ∧
      Vec2d.Dot wallCircle.Acceleration wall.Normal / Spf.fin 2 = Spf.fin 0 ∧
      SolveQuadratic (Spf.fin (0 : ℚ)) (Spf.fin (-1)) (Spf.fin 6) true = Spf.pinf ∧
      (∀ P : PolySolver ℚ,
        wallCircle.TimeUntilCollide P (Body.line wall) (Spf.fin 10) = Spf.nan) ∧
      (Spf.fin 5 - Spf.fin 1) / Spf.fin 1 = Spf.fin (4 : ℚ) := by
  refine ⟨by decide!, by decide!, by decide!, by decide!, fun P => ?_, by decide!⟩
  have h : wallCircle.TimeUntilCollideLine wall (Spf.fin 10) = Spf.nan := by decide!
  simpa only [Circle.TimeUntilCollide] using h

/-- C11: horizon bound.  The circle-circle overload discards a time beyond `maxtime`; the
circle-line overload returns the time of `SolveQuadratic` without comparing it with `maxtime`:
for the circle at `(-7,0)` with velocity `(4,0)`, friction value 1 and radius 1, the wall on the
y-axis and `maxtime = 3` it returns 4. -/
theorem line_collision_time_exceeds_horizon :
    (∀ (P : PolySolver ℚ) (self other : Circle ℚ) (maxtime : Spf ℚ),
      self.TimeUntilCollideCircle P other maxtime = Spf.nan ∨
        ¬ (self.TimeUntilCollideCircle P other maxtime > maxtime)) ∧
    (∀ P : PolySolver ℚ,
      horizonCircle.TimeUntilCollide P (Body.line wall) (Spf.fin 3) = Spf.fin 4) ∧
    ¬ (Spf.fin (4 : ℚ) ≤ Spf.fin 3) := by
  refine ⟨?_, ?_, by decide!⟩
  · intro P self other maxtime
    simp only [Circle.TimeUntilCollideCircle]
    split
    · exact Or.inl rfl
    · split
      · exact Or.inl rfl
      · rename_i h
        exact Or.inr h
  · intro P
    have h : horizonCircle.TimeUntilCollideLine wall (Spf.fin 3) = Spf.fin 4 := by decide!
    simpa only [Circle.TimeUntilCollide] using h

end Detection

/-! ## Timeline -/

section Timeline

variable {K : Type} [LinearOrderedField K]

/-- C3: rewind/replay idempotence.  Let `s` be the state that `CalculateToTime(t2)` returns when
started from a single initial snapshot at `k0` on which `Calculate` has been called, the fixtures
being static.  For every `t` later than `k0` (and `t < t2`), `RewindToTime(t)` followed by
`CalculateToTime(t2)` returns, and returns exactly `s`: the same timeline, fixtures, input queue
and cached next transition.  This holds whether new map entries are allocated or left null. -/
theorem rewind_replay_idempotent [SqrtOp K] (P : PolySolver K) (fresh : Option (Snapshot K))
    (k0 t t2 : Spf K) (S0 fixtures : Snapshot K) (queue : List (Spf K × List (Action K)))
    (nt0 : Transition K) (fuel : Nat) (s : System K)
    (hstatic : FixturesStatic fixtures)
    (hrun : CalculateToTime P fresh fuel t2
      (Calculate P ⟨[(k0, S0)], fixtures, queue, nt0⟩) = some s)
    (ht0 : k0 < t) (_ht : t < t2) :
    ∃ fuel', CalculateToTime P fresh fuel' t2 (RewindToTime P t s) = some s := by
  have hwf : (Calculate P ⟨[(k0, S0)], fixtures, queue, nt0⟩).WellFormed P := by
    refine ⟨?_, ⟨[], (k0, S0), ?_, Spf.ne_nan_of_ltb_left ht0⟩, Calculate_idem _ _, ?_⟩
    · rw [Calculate_snapshots]; exact List.pairwise_singleton _ _
    · rw [Calculate_snapshots]; rfl
    · rw [Calculate_fixtures]; exact hstatic
  exact rewind_replay_aux P fresh t t2 fuel _ s [] (k0, S0) hwf
    (by rw [Calculate_snapshots]; rfl) ht0 hrun

theorem rewind_replay_idempotent_witness :
    frictionSystemAt10.snapshots.length = 2 ∧
      (RewindToTime noRootSolver (Spf.fin 1) frictionSystemAt10).snapshots.length = 1 ∧
      ∃ fuel', CalculateToTime noRootSolver (some ⟨[]⟩) fuel' (Spf.fin 10)
        (RewindToTime noRootSolver (Spf.fin 1) frictionSystemAt10) = some frictionSystemAt10 :=
  ⟨by decide!, by decide!,
    rewind_replay_idempotent noRootSolver (some ⟨[]⟩) (Spf.fin 0) (Spf.fin 1) (Spf.fin 10)
      ⟨[(1, Body.circle frictionCircle)]⟩ ⟨[(3, Body.line wall)]⟩ [] (Spf.nan, []) 5
      frictionSystemAt10
      (by intro p hp
          simp only [List.mem_singleton] at hp
          subst hp
          exact Or.inr rfl)
      (option_eq_some_getD _ _ (by decide!)) (by decide!) (by decide!)⟩

/-- C14: point-in-time lookup.  For a timeline with increasing finite keys and a finite `t` not
earlier than the first key, `At(t)` returns a snapshot of the timeline whose key `k` is the
greatest key with `k <= t`, together with the duration `t - k`, which is `>= 0`.  `At` returns
only this pair: the timeline is not changed. -/
theorem at_returns_latest (sys : System K) (τ : K)
    (hsorted : sys.snapshots.Pairwise (fun a b => Spf.ltb a.1 b.1 = true))
    (hfin : ∀ e ∈ sys.snapshots, e.1.IsFinite)
    (hfirst : ∃ e0 rest, sys.snapshots = e0 :: rest ∧ e0.1 ≤ Spf.fin τ) :
    ∃ (k : K) (S : Snapshot K), At (Spf.fin τ) sys = some (Spf.fin (τ - k), S) ∧
      (Spf.fin k, S) ∈ sys.snapshots ∧ k ≤ τ ∧ 0 ≤ τ - k ∧
      ∀ e ∈ sys.snapshots, e.1 ≤ Spf.fin τ → e.1 ≤ Spf.fin k := by
  obtain ⟨e0, rest, hl, h0⟩ := hfirst
  rw [hl] at hsorted hfin
  have hconv : ∀ a : Spf K, a.IsFinite → ∀ b : K,
      (Spf.ltb (Spf.fin b) a = false ↔ a ≤ Spf.fin b) := by
    intro a ha b
    obtain ⟨x, rfl⟩ := Spf.IsFinite.exists_eq ha
    rw [Spf.fin_le_fin]
    simp [Spf.ltb]
  have h0' : Spf.ltb (Spf.fin τ) e0.1 = false :=
    (hconv e0.1 (hfin e0 (List.mem_cons_self _ _)) τ).mpr h0
  obtain ⟨x, hx1, hx2, hx3, hx4⟩ := takeWhile_not_after_last (Spf.fin τ) rest e0 hsorted h0'
  obtain ⟨k, hk⟩ := Spf.IsFinite.exists_eq (hfin x hx2)
  obtain ⟨xk, S⟩ := x
  simp only at hk
  subst hk
  have hkτ : k ≤ τ := by
    have := (hconv (Spf.fin k) trivial τ).mp hx3
    exact (Spf.fin_le_fin _ _).mp this
  refine ⟨k, S, ?_, by rw [hl]; exact hx2, hkτ, sub_nonneg.mpr hkτ, ?_⟩
  · simp only [At, hl, hx1, Spf.fin_sub_fin]
  · intro e he hte
    rw [hl] at he
    have h1 := hx4 e he ((hconv e.1 (hfin e he) τ).mpr hte)
    exact (hconv e.1 (hfin e he) k).mp h1

theorem at_returns_latest_witness :
    ∃ (k : ℚ) (S : Snapshot ℚ), At (Spf.fin 3) threeSnapshots = some (Spf.fin (3 - k), S) ∧
      (Spf.fin k, S) ∈ threeSnapshots.snapshots ∧ k ≤ 3 ∧ 0 ≤ 3 - k ∧
      ∀ e ∈ threeSnapshots.snapshots, e.1 ≤ Spf.fin 3 → e.1 ≤ Spf.fin k :=
  at_returns_latest threeSnapshots 3 (by decide!) (by decide!) ⟨_, _, rfl, by decide!⟩

/-- C15: rewind removes exactly the suffix.  For a timeline with increasing keys and a `t` with
at least one snapshot before it, the timeline after `RewindToTime(t)` is not empty and consists of
exactly the entries of the old timeline whose key is strictly less than `t`, in the same order
and with the same snapshots; no entry with key at or after `t` remains. -/
theorem rewind_removes_exactly_suffix [SqrtOp K] (P : PolySolver K) (t : Spf K) (s : System K)
    (hsorted : s.snapshots.Pairwise (fun a b => Spf.ltb a.1 b.1 = true))
    (hbefore : ∃ e ∈ s.snapshots, e.1 < t) :
    (RewindToTime P t s).snapshots = s.snapshots.filter (fun e => Spf.ltb e.1 t) ∧
      (RewindToTime P t s).snapshots ≠ [] ∧
      (∀ e, e ∈ (RewindToTime P t s).snapshots ↔ (e ∈ s.snapshots ∧ e.1 < t)) ∧
      (∀ e ∈ (RewindToTime P t s).snapshots, ¬ (t ≤ e.1)) := by
  have h1 : (RewindToTime P t s).snapshots = s.snapshots.filter (fun e => Spf.ltb e.1 t) := by
    rw [RewindToTime, Calculate_snapshots]
    exact takeWhile_before_eq_filter t s.snapshots hsorted
  have h3 : ∀ e, e ∈ (RewindToTime P t s).snapshots ↔ (e ∈ s.snapshots ∧ e.1 < t) := by
    intro e
    rw [h1, List.mem_filter]
    exact Iff.rfl
  refine ⟨h1, ?_, h3, ?_⟩
  · obtain ⟨e, he, hlt⟩ := hbefore
    intro hnil
    have := (h3 e).mpr ⟨he, hlt⟩
    rw [hnil] at this
    simp at this
  · intro e he hle
    have hlt : Spf.ltb e.1 t = true := ((h3 e).mp he).2
    have hle' : Spf.leb t e.1 = true := hle
    revert hlt hle'
    cases e.1 <;> cases t <;> simp [Spf.ltb, Spf.leb]

theorem rewind_removes_exactly_suffix_witness :
    (RewindToTime noRootSolver (Spf.fin 2) threeSnapshots).snapshots
        = threeSnapshots.snapshots.filter (fun e => Spf.ltb e.1 (Spf.fin 2)) ∧
      (RewindToTime noRootSolver (Spf.fin 2) threeSnapshots).snapshots ≠ [] ∧
      (∀ e, e ∈ (RewindToTime noRootSolver (Spf.fin 2) threeSnapshots).snapshots ↔
        (e ∈ threeSnapshots.snapshots ∧ e.1 < Spf.fin 2)) ∧
      (∀ e ∈ (RewindToTime noRootSolver (Spf.fin 2) threeSnapshots).snapshots,
        ¬ (Spf.fin 2 ≤ e.1)) :=
  rewind_removes_exactly_suffix noRootSolver (Spf.fin 2) threeSnapshots (by decide!)
    ⟨(Spf.fin 0, ⟨[]⟩), List.mem_cons_self _ _, by decide!⟩

/-- C16, counterexample: the guard of `CalculateToTime` is `t > end + duration`.  For the timeline
with one snapshot at 0 and the pending friction stop at `5/2`, `CalculateToTime(5/2)` returns at
once: no snapshot is materialised and the pending transition's timestamp `0 + 5/2` equals the
query time, it is not strictly greater. -/
theorem transition_at_query_time_stays_pending :
    timelineView frictionSystem
        = [(Spf.fin 0, [⟨1, vec 0 0, vec 3 4, false⟩])] ∧
      frictionSystem.next_transition.1 = Spf.fin (5 / 2) ∧
      CalculateToTime noRootSolver none 1 (Spf.fin (5 / 2)) frictionSystem
        = some frictionSystem ∧
      CalculateToTime noRootSolver (some ⟨[]⟩) 5 (Spf.fin (5 / 2)) frictionSystem
        = some frictionSystem ∧
      Spf.fin (0 : ℚ) + Spf.fin (5 / 2) ≤ Spf.fin (5 / 2) ∧
      ¬ (Spf.fin (0 : ℚ) + Spf.fin (5 / 2) > Spf.fin (5 / 2)) := by
  have hdue : CalculateToTime.due (Spf.fin (5 / 2)) frictionSystem = false := by decide!
  refine ⟨by decide!, by decide!, ?_, ?_, by decide!, by decide!⟩
  · simp only [CalculateToTime, hdue, Bool.false_eq_true, if_false]
  · simp only [CalculateToTime, hdue, Bool.false_eq_true, if_false]

/-- C16, amended: when `CalculateToTime(t)` returns, the pending transition's absolute timestamp
(last snapshot time + transition duration) is not less than `t`: it is NaN (no pending
transition) or `t <=` it.  Every transition strictly before `t` has been materialised; one at
exactly `t` stays pending. -/
theorem calculateToTime_materialises_before [SqrtOp K] (P : PolySolver K)
    (fresh : Option (Snapshot K)) (fuel : Nat) (t : Spf K) (s s' : System K)
    (hrun : CalculateToTime P fresh fuel t s = some s') :
    CalculateToTime.due t s' = false ∧
      ∀ e, s'.snapshots.getLast? = some e →
        ¬ (e.1 + s'.next_transition.1 < t) ∧
        (t ≠ Spf.nan →
          e.1 + s'.next_transition.1 = Spf.nan ∨ t ≤ e.1 + s'.next_transition.1) := by
  have hdue0 := calculateToTime_not_due P fresh fuel t s s' hrun
  refine ⟨hdue0, ?_⟩
  intro e he
  have hdue := hdue0
  simp only [CalculateToTime.due, he, decide_eq_false_iff_not] at hdue
  refine ⟨hdue, fun ht => ?_⟩
  have h : Spf.ltb (e.1 + s'.next_transition.1) t = false := by
    cases hh : Spf.ltb (e.1 + s'.next_transition.1) t
    · rfl
    · exact absurd hh hdue
  exact Spf.nan_or_le_of_ltb_false ht h

theorem calculateToTime_materialises_before_witness :
    timelineView frictionSystemAt10 =
        [(Spf.fin 0, [⟨1, vec 0 0, vec 3 4, false⟩]),
          (Spf.fin (5 / 2), [⟨1, vec (15 / 4) 5, vec 0 0, true⟩])] ∧
      frictionSystemAt10.next_transition.1 = Spf.nan ∧
      CalculateToTime.due (Spf.fin 10) frictionSystemAt10 = false :=
  ⟨by decide!, by decide!,
    (calculateToTime_materialises_before noRootSolver (some ⟨[]⟩) 5 (Spf.fin 10) frictionSystem
      frictionSystemAt10 (option_eq_some_getD _ _ (by decide!))).1⟩

/-- C18: timeline non-emptiness.  `RewindToTime(ts)` erases from `lower_bound(ts)`, the first key
not less than `ts`: rewinding the timeline with one snapshot at 0 to `ts = 0` erases the initial
snapshot and leaves the timeline empty, and so do `AddInputEvent(0, ...)` and
`AddImpulseEvent(0, ...)`, which call it.  Rewinding to 1 keeps the initial snapshot. -/
theorem rewind_to_initial_time_empties_timeline :
    frictionSystem.snapshots.map (fun e => e.1) = [Spf.fin 0] ∧
      (RewindToTime noRootSolver (Spf.fin 0) frictionSystem).snapshots.length = 0 ∧
      (AddInputEvent noRootSolver (Spf.fin 0) (Action.stop 1) frictionSystem).snapshots.length
        = 0 ∧
      (AddImpulseEvent noRootSolver (Spf.fin 0) 1 (vec 1 0) frictionSystem).snapshots.length
        = 0 ∧
      (RewindToTime noRootSolver (Spf.fin 1) frictionSystem).snapshots.length = 1 := by
  refine ⟨by decide!, by decide!, by decide!, by decide!, by decide!⟩

/-- C20: append-only timeline.  A body that is not stopped and has zero velocity (as the moving
circle is after an equal-mass head-on hit on a resting one) has `TimeUntilStop() = 0`, so
`Calculate` schedules a transition of duration 0.  `CalculateToTime` then takes the existing
last snapshot as `snapshots[end + 0]` and overwrites it: the timeline keeps its single key 0 and
the snapshot stored there changes (the body becomes stopped). -/
theorem zero_duration_overwrites_snapshot :
    (timelineView idleSystem = [(Spf.fin 0, [⟨1, vec 0 0, vec 0 0, false⟩])] ∧
      idleSystem.next_transition.1 = Spf.fin 0 ∧
      (CalculateToTime noRootSolver none 5 (Spf.fin 10) idleSystem).map timelineView
        = some [(Spf.fin 0, [⟨1, vec 0 0, vec 0 0, true⟩])]) ∧
    ((hitMoving.ApplyCollision (Body.circle hitResting)).1.velocity = vec 0 0 ∧
      (hitMoving.ApplyCollision (Body.circle hitResting)).1.stopped = false ∧
      (hitMoving.ApplyCollision (Body.circle hitResting)).1.TimeUntilStop = Spf.fin 0) := by
  refine ⟨⟨by decide!, by decide!, by decide!⟩, by decide!⟩

/-- C17: tied events are coalesced.  A candidate whose duration equals the best one keeps the
scheduled actions and appends its own; a strictly earlier one replaces the list by its own
action; a later one changes nothing.  `Calculate` is the scan of its candidates (friction stops,
then collisions) started from the next input batch, and after it the action list holds the
actions of the input batch, if its duration is the final one, followed by one action for every
candidate whose duration, when examined, equals the final duration. -/
theorem tied_events_coalesced [SqrtOp K] (P : PolySolver K) (ts : Spf K)
    (ss fixtures : Snapshot K) (queue : List (Spf K × List (Action K))) :
    (∀ (nt : Transition K) (t : Spf K) (act : Action K), Spf.ceq nt.1 t = true →
      addTransition nt t act = (t, nt.2 ++ [act])) ∧
    (∀ (nt : Transition K) (t : Spf K) (act : Action K), t < nt.1 →
      addTransition nt t act = (t, [act])) ∧
    (∀ (nt : Transition K) (t : Spf K) (act : Action K), t > nt.1 →
      addTransition nt t act = nt) ∧
    Calculate.nextTransition P ts ss fixtures queue
      = scanCandidates (Calculate.candidates P fixtures ss.bodies)
          (Calculate.inputs ts queue) ∧
    (Calculate.nextTransition P ts ss fixtures queue).2 =
      (if Spf.ceq (Calculate.inputs ts queue).1
            (Calculate.nextTransition P ts ss fixtures queue).1
        then (Calculate.inputs ts queue).2 else [])
      ++ ((observedDurations (Calculate.candidates P fixtures ss.bodies)
              (Calculate.inputs ts queue)).filter
            (fun x => Spf.ceq x.1 (Calculate.nextTransition P ts ss fixtures queue).1)).map
          (fun x => x.2) := by
  refine ⟨?_, ?_, ?_, nextTransition_eq_scan P ts ss fixtures queue, ?_⟩
  · intro nt t act htie
    have heq := Spf.eq_of_ceq htie
    have hirr : Spf.ltb t t = false := by
      cases h : Spf.ltb t t
      · rfl
      · rw [Spf.ltb_asymm h] at h; exact absurd h (by simp)
    have hnan : Spf.isnan t = false := by
      rw [heq] at htie
      cases t <;> simp_all [Spf.isnan, Spf.ceq]
    have hgt : ¬ (t > nt.1) := by
      intro h
      have h' : Spf.ltb nt.1 t = true := h
      rw [heq, hirr] at h'
      exact absurd h' (by simp)
    rw [addTransition_eq]
    simp [hnan, hgt, htie]
  · intro nt t act hlt
    have hlt' : Spf.ltb t nt.1 = true := hlt
    have hacc : (Spf.isnan t || decide (t > nt.1)) = false := by
      have h1 : Spf.ltb nt.1 t = false := Spf.ltb_asymm hlt'
      have h2 : ¬ (t > nt.1) := by
        intro h
        have h' : Spf.ltb nt.1 t = true := h
        rw [h1] at h'
        exact absurd h' (by simp)
      have h3 : Spf.isnan t = false := by
        cases t <;> simp_all [Spf.isnan, Spf.ltb]
      simp [h2, h3]
    rw [addTransition_eq]
    simp [hacc, (Spf.ceq_false_of_ltb hlt').2]
  · intro nt t act hgt
    rw [addTransition_eq]
    simp [hgt]
  · rw [nextTransition_eq_scan]
    exact scanCandidates_actions _ _ (inputs_seed ts queue)

theorem tied_events_coalesced_witness :
    (Calculate.nextTransition noRootSolver (Spf.fin 0) tiedSnapshot ⟨[(3, Body.line wall)]⟩
        tiedQueue).1 = Spf.fin (5 / 2) ∧
      (Calculate.nextTransition noRootSolver (Spf.fin 0) tiedSnapshot ⟨[(3, Body.line wall)]⟩
        tiedQueue).2.map Action.code = [(3, 0, 0), (0, 1, 0), (0, 2, 0)] ∧
      (Calculate.nextTransition noRootSolver (Spf.fin 0) tiedSnapshot ⟨[(3, Body.line wall)]⟩
          tiedQueue).2 =
        (if Spf.ceq (Calculate.inputs (Spf.fin 0) tiedQueue).1
              (Calculate.nextTransition noRootSolver (Spf.fin 0) tiedSnapshot
                ⟨[(3, Body.line wall)]⟩ tiedQueue).1
          then (Calculate.inputs (Spf.fin 0) tiedQueue).2 else [])
        ++ ((observedDurations
                (Calculate.candidates noRootSolver ⟨[(3, Body.line wall)]⟩ tiedSnapshot.bodies)
                (Calculate.inputs (Spf.fin 0) tiedQueue)).filter
              (fun x => Spf.ceq x.1
                (Calculate.nextTransition noRootSolver (Spf.fin 0) tiedSnapshot
                  ⟨[(3, Body.line wall)]⟩ tiedQueue).1)).map
            (fun x => x.2) :=
  ⟨by decide!, by decide!,
    (tied_events_coalesced noRootSolver (Spf.fin 0) tiedSnapshot ⟨[(3, Body.line wall)]⟩
      tiedQueue).2.2.2.2⟩

/-- C22: `Calculate` selects the earliest event.  For a system whose last snapshot is `e` and
whose input queue is in increasing key order, write `seed` for the next input batch, `obs` for
the durations that the scan of `Calculate` observes, in order (`TimeUntilStop` of each body that
is not stopped, then each value returned by `TimeUntilCollide` for an examined pair), and `r` for
the duration cached by `Calculate`.  The seed is the delay to the earliest input key strictly
after `e.1`, or NaN when there is none; `r` is NaN when the seed and every observed duration are
NaN; otherwise `r` is not NaN, is the seed's duration or an observed one, and is at most the
seed's duration and every observed duration that is not NaN, in particular at most
`TimeUntilStop` of every body that is not stopped.  The scan has this property for arbitrary
candidate functions of the horizon. -/
theorem calculate_selects_earliest [SqrtOp K] (P : PolySolver K) (sys : System K)
    (e : Spf K × Snapshot K) (hlast : sys.snapshots.getLast? = some e)
    (hq : sys.input_queue.Pairwise (fun a b => Spf.ltb a.1 b.1 = true)) :
    let seed := Calculate.inputs e.1 sys.input_queue
    let obs := observedDurations (Calculate.candidates P sys.fixtures e.2.bodies) seed
    let r := (Calculate P sys).next_transition.1
    (((∀ k ∈ sys.input_queue, ¬ (e.1 < k.1)) ∧ seed.1 = Spf.nan) ∨
      ∃ k0 ∈ sys.input_queue, e.1 < k0.1 ∧ (∀ k ∈ sys.input_queue, e.1 < k.1 → k0.1 ≤ k.1) ∧
        seed.1 = k0.1 - e.1 ∧ seed.1 ≠ Spf.nan) ∧
    ((seed.1 = Spf.nan ∧ ∀ o ∈ obs, o.1 = Spf.nan) → r = Spf.nan) ∧
    ((seed.1 ≠ Spf.nan ∨ ∃ o ∈ obs, o.1 ≠ Spf.nan) → r ≠ Spf.nan) ∧
    (r = seed.1 ∨ ∃ o ∈ obs, o.1 = r) ∧
    (seed.1 ≠ Spf.nan → r ≤ seed.1) ∧
    (∀ o ∈ obs, o.1 ≠ Spf.nan → r ≤ o.1) ∧
    (∀ p ∈ e.2.bodies, p.2.IsStopped = false → p.2.TimeUntilStop ≠ Spf.nan →
      r ≤ p.2.TimeUntilStop) ∧
    (∀ (cands : List (Candidate K)) (nt : Transition K),
      ((scanCandidates cands nt).1 = nt.1 ∨
        ∃ o ∈ observedDurations cands nt, o.1 = (scanCandidates cands nt).1) ∧
      (nt.1 ≠ Spf.nan → (scanCandidates cands nt).1 ≤ nt.1) ∧
      (∀ o ∈ observedDurations cands nt, o.1 ≠ Spf.nan → (scanCandidates cands nt).1 ≤ o.1)) := by
  intro seed obs r
  have hr : r = (scanCandidates (Calculate.candidates P sys.fixtures e.2.bodies) seed).1 := by
    show (Calculate P sys).next_transition.1 = _
    rw [Calculate_of_getLast P sys e hlast, nextTransition_eq_scan]
  obtain ⟨h1, h2, h3⟩ :=
    scanCandidates_least (Calculate.candidates P sys.fixtures e.2.bodies) seed
  rw [← hr] at h1 h2 h3
  have hnn : ∀ x : Spf K, r ≤ x → r ≠ Spf.nan := by
    intro x hx hn
    rw [hn] at hx
    exact Spf.not_nan_le x hx
  refine ⟨?_, ?_, ?_, h1, h2, h3, ?_, scanCandidates_least⟩
  · rcases inputs_earliest e.1 sys.input_queue hq with ⟨ha, hb⟩ | ⟨k0, hk0, ha, hb, hc⟩
    · left
      refine ⟨fun k hk hlt => ?_, by show (Calculate.inputs e.1 sys.input_queue).1 = _; rw [hb]⟩
      have : Spf.ltb e.1 k.1 = true := hlt
      rw [ha k hk] at this
      exact absurd this (by simp)
    · right
      refine ⟨k0, hk0, ha, fun k hk hlt => hb k hk hlt, ?_, ?_⟩
      · show (Calculate.inputs e.1 sys.input_queue).1 = _
        rw [hc]
      · show (Calculate.inputs e.1 sys.input_queue).1 ≠ _
        rw [hc]
        exact Spf.sub_ne_nan_of_ltb ha
  · rintro ⟨hs, ho⟩
    rcases h1 with h | ⟨o, hmem, h⟩
    · rw [h, hs]
    · rw [← h, ho o hmem]
  · rintro (hs | ⟨o, hmem, ho⟩)
    · exact hnn _ (h2 hs)
    · exact hnn _ (h3 o hmem ho)
  · intro p hp hstop hne
    have hmem : ((fun _ => p.2.TimeUntilStop, Action.stop p.1) : Candidate K)
        ∈ Calculate.candidates P sys.fixtures e.2.bodies := by
      unfold Calculate.candidates Calculate.stopCandidates
      refine List.mem_append_left _ (List.mem_map.mpr ⟨p, ?_, rfl⟩)
      simp [List.mem_filter, hp, hstop]
    obtain ⟨m, hm⟩ := observed_of_mem _ seed _ hmem
    exact h3 _ hm hne

theorem calculate_selects_earliest_witness :
    (Calculate noRootSolver earliestSystem).next_transition.1 = Spf.fin (1 / 2) ∧
      (Calculate noRootSolver earliestSystem).next_transition.2.map Action.code = [(0, 2, 0)] ∧
      (Calculate.inputs (Spf.fin 0) earliestSystem.input_queue).1 = Spf.fin 7 ∧
      (observedDurations
          (Calculate.candidates noRootSolver earliestSystem.fixtures
            [(1, Body.circle frictionCircle), (2, Body.circle briefCircle)])
          (Calculate.inputs (Spf.fin 0) earliestSystem.input_queue)).map (fun o => o.1)
        = [Spf.fin (5 / 2), Spf.fin (1 / 2), Spf.nan, Spf.nan, Spf.nan] ∧
      (Calculate noRootSolver earliestSystem).next_transition.1
        ≤ (Body.circle frictionCircle).TimeUntilStop :=
  ⟨by decide!, by decide!, by decide!, by decide!,
    (calculate_selects_earliest noRootSolver earliestSystem
      (Spf.fin 0, ⟨[(1, Body.circle frictionCircle), (2, Body.circle briefCircle)]⟩) rfl
      (List.pairwise_singleton _ _)).2.2.2.2.2.2.1
      (1, Body.circle frictionCircle) (by simp) rfl (by decide!)⟩

/-- C23: pair-scan coverage.  For a snapshot and fixtures whose maps are in increasing key
order, the collision scan of `Calculate` is the scan of one candidate per recorded call of
`TimeUntilCollide`.  Among the calls, each unordered pair of distinct snapshot bodies of which at
least one is not stopped occurs exactly once (in one of its two directions); no call names a
stopped body as the body it is invoked on, so a pair of two stopped bodies never occurs; every
call is invoked on a body that is not stopped; each combination of a body that is not stopped and
a fixture occurs exactly once, and none for a stopped body; and there are no other calls. -/
theorem pair_scan_coverage [SqrtOp K] (P : PolySolver K) (ss fixtures : Snapshot K)
    (hb : ss.bodies.Pairwise (fun x y => idLt x.1 y.1 = true))
    (hf : fixtures.bodies.Pairwise (fun x y => idLt x.1 y.1 = true)) :
    let calls := Calculate.collisionCalls P fixtures [] ss.bodies
    (∀ nt : Transition K,
      Calculate.collisions P fixtures [] ss.bodies nt
          = scanCandidates (Calculate.collisionCandidates P fixtures [] ss.bodies) nt ∧
        (observedDurations (Calculate.collisionCandidates P fixtures [] ss.bodies) nt).map
          (fun o => o.2.code) = calls) ∧
    (∀ p ∈ ss.bodies, ∀ q ∈ ss.bodies, p.1 ≠ q.1 →
      (p.2.IsStopped = false ∨ q.2.IsStopped = false) →
        calls.count (1, p.1, q.1) + calls.count (1, q.1, p.1) = 1) ∧
    (∀ p ∈ ss.bodies, ∀ q ∈ ss.bodies, p.2.IsStopped = true → q.2.IsStopped = true →
      calls.count (1, p.1, q.1) = 0) ∧
    (∀ c ∈ calls, ∃ p ∈ ss.bodies, p.1 = c.2.1 ∧ p.2.IsStopped = false) ∧
    (∀ p ∈ ss.bodies, ∀ f ∈ fixtures.bodies,
      calls.count (2, p.1, f.1) = if p.2.IsStopped then 0 else 1) ∧
    (∀ c ∈ calls,
      (∃ p ∈ ss.bodies, ∃ q ∈ ss.bodies, p.1 ≠ q.1 ∧ c = (1, p.1, q.1)) ∨
        ∃ p ∈ ss.bodies, ∃ f ∈ fixtures.bodies, c = (2, p.1, f.1)) := by
  intro calls
  have hb0 : ss.bodies.Pairwise (fun x y => x.1 < y.1) :=
    hb.imp (fun h => by simpa [idLt] using h)
  have hb' : (([] : List (Int × Body K)) ++ ss.bodies).Pairwise (fun x y => x.1 < y.1) := by
    simpa using hb0
  have hf' : fixtures.bodies.Pairwise (fun x y => x.1 < y.1) :=
    hf.imp (fun h => by simpa [idLt] using h)
  have hnd : calls.Nodup := collisionCalls_nodup P fixtures [] ss.bodies hb' hf'
  have hmem : ∀ a b : Int, ((1 : Nat), a, b) ∈ calls ↔
      ∃ p ∈ ss.bodies, ∃ o ∈ ss.bodies, p.1 = a ∧ o.1 = b ∧ p.2.IsStopped = false ∧
        ((o.1 < p.1 ∧ o.2.IsStopped = true) ∨ p.1 < o.1) := by
    intro a b
    have := collisionCalls_mem_body P fixtures [] ss.bodies a b hb'
    simpa using this
  have hfix : ∀ a b : Int, ((2 : Nat), a, b) ∈ calls ↔
      ∃ p ∈ ss.bodies, ∃ f ∈ fixtures.bodies, p.1 = a ∧ f.1 = b ∧ p.2.IsStopped = false :=
    collisionCalls_mem_fixture P fixtures [] ss.bodies
  have hself : ∀ c ∈ calls, (c.1 = 1 ∨ c.1 = 2) ∧
      ∃ p ∈ ss.bodies, p.1 = c.2.1 ∧ p.2.IsStopped = false :=
    collisionCalls_self P fixtures [] ss.bodies
  have huniq := eq_of_key_eq ss.bodies hb0
  -- a call is never invoked on a stopped body
  have hstopped : ∀ p ∈ ss.bodies, p.2.IsStopped = true → ∀ k b, (k, p.1, b) ∉ calls := by
    intro p hp hst k b hc
    obtain ⟨-, p', hp', h1, h2⟩ := hself _ hc
    rw [huniq p' p hp' hp h1, hst] at h2
    exact absurd h2 (by simp)
  -- the two directions of a pair, the first body having the smaller key
  have hfwd : ∀ p ∈ ss.bodies, ∀ q ∈ ss.bodies, p.1 < q.1 → p.2.IsStopped = false →
      ((1 : Nat), p.1, q.1) ∈ calls ∧ ((1 : Nat), q.1, p.1) ∉ calls := by
    intro p hp q hq hlt hns
    refine ⟨(hmem _ _).mpr ⟨p, hp, q, hq, rfl, rfl, hns, Or.inr hlt⟩, ?_⟩
    intro hc
    obtain ⟨q', hq', p', hp', h1, h2, -, h4⟩ := (hmem _ _).mp hc
    have e1 := huniq q' q hq' hq h1
    have e2 := huniq p' p hp' hp h2
    subst e1 e2
    rcases h4 with ⟨-, hst⟩ | hlt'
    · rw [hns] at hst; exact absurd hst (by simp)
    · exact absurd hlt' (lt_asymm hlt)
  have hbwd : ∀ p ∈ ss.bodies, ∀ q ∈ ss.bodies, p.1 < q.1 → p.2.IsStopped = true →
      q.2.IsStopped = false →
      ((1 : Nat), q.1, p.1) ∈ calls ∧ ((1 : Nat), p.1, q.1) ∉ calls := by
    intro p hp q hq hlt hst hns
    exact ⟨(hmem _ _).mpr ⟨q, hq, p, hp, rfl, rfl, hns, Or.inl ⟨hlt, hst⟩⟩,
      hstopped p hp hst 1 q.1⟩
  have hpair : ∀ p ∈ ss.bodies, ∀ q ∈ ss.bodies, p.1 < q.1 →
      (p.2.IsStopped = false ∨ q.2.IsStopped = false) →
        calls.count (1, p.1, q.1) + calls.count (1, q.1, p.1) = 1 := by
    intro p hp q hq hlt hor
    cases hst : p.2.IsStopped with
    | false =>
      obtain ⟨h1, h2⟩ := hfwd p hp q hq hlt hst
      rw [count_one_of_nodup_mem hnd h1, List.count_eq_zero_of_not_mem h2]
    | true =>
      have hns : q.2.IsStopped = false := by
        rcases hor with h | h
        · rw [hst] at h; exact absurd h (by simp)
        · exact h
      obtain ⟨h1, h2⟩ := hbwd p hp q hq hlt hst hns
      rw [count_one_of_nodup_mem hnd h1, List.count_eq_zero_of_not_mem h2]
  refine ⟨fun nt => ⟨collisions_eq_scan P fixtures [] ss.bodies nt, observedDurations_codes _ nt⟩,
    ?_, ?_, fun c hc => (hself c hc).2, ?_, ?_⟩
  · intro p hp q hq hne hor
    rcases lt_or_gt_of_ne hne with hlt | hgt
    · exact hpair p hp q hq hlt hor
    · rw [add_comm]
      exact hpair q hq p hp hgt hor.symm
  · intro p hp q _ hst _
    exact List.count_eq_zero_of_not_mem (hstopped p hp hst 1 q.1)
  · intro p hp f hf0
    cases hst : p.2.IsStopped with
    | true =>
      simp only [if_true]
      exact List.count_eq_zero_of_not_mem (hstopped p hp hst 2 f.1)
    | false =>
      simp only [Bool.false_eq_true, if_false]
      exact count_one_of_nodup_mem hnd ((hfix _ _).mpr ⟨p, hp, f, hf0, rfl, rfl, hst⟩)
  · intro c hc
    obtain ⟨k, a, b⟩ := c
    rcases (hself _ hc).1 with hk | hk
    · simp only at hk
      subst hk
      obtain ⟨p, hp, o, ho, h1, h2, -, h4⟩ := (hmem _ _).mp hc
      left
      refine ⟨p, hp, o, ho, ?_, by rw [h1, h2]⟩
      rcases h4 with ⟨h, -⟩ | h
      · exact (ne_of_lt h).symm
      · exact ne_of_lt h
    · simp only at hk
      subst hk
      obtain ⟨p, hp, f, hf0, h1, h2, -⟩ := (hfix _ _).mp hc
      exact Or.inr ⟨p, hp, f, hf0, by rw [h1, h2]⟩

theorem pair_scan_coverage_witness :
    Calculate.collisionCalls noRootSolver ⟨[(3, Body.line wall)]⟩ [] scanSnapshot.bodies
        = [(1, 2, 1), (1, 2, 4), (1, 2, 5), (2, 2, 3), (1, 5, 1), (1, 5, 4), (2, 5, 3)] ∧
      (Calculate.collisionCalls noRootSolver ⟨[(3, Body.line wall)]⟩ [] scanSnapshot.bodies).count
          (1, 2, 5)
        + (Calculate.collisionCalls noRootSolver ⟨[(3, Body.line wall)]⟩ []
            scanSnapshot.bodies).count (1, 5, 2) = 1 :=
  ⟨by decide!,
    (pair_scan_coverage noRootSolver scanSnapshot ⟨[(3, Body.line wall)]⟩
      (by simp [scanSnapshot, idLt]) (by simp [idLt])).2.1
      (2, Body.circle (movingCircle 2 (vec 10 0) (vec 1 0) (Spf.fin 1) (Spf.fin 1) (Spf.fin 1)))
      (by simp [scanSnapshot])
      (5, Body.circle (movingCircle 5 (vec 30 0) (vec 0 1) (Spf.fin 1) (Spf.fin 1) (Spf.fin 1)))
      (by simp [scanSnapshot]) (by decide) (Or.inl rfl)⟩

end Timeline

/-! ## Segment distances -/

section Distances

variable {K : Type} [LinearOrderedField K]

/-- C12: segment-segment distance.  `LineSegsIntersect` multiplies by `l1.a.x - l1.a.x` and
`l2.a.x - l2.a.x`, which are zero.  The segments `(0,0)-(1,0)` and `(5,-1)-(5,1)` share no point
(every two of their points are at squared distance at least 16) and are reported as
intersecting, distance 0; the segments `(0,0)-(2,2)` and `(3,-1)-(-1,3)` cross at `(1,1)` and
are reported as not intersecting, squared distance 2. -/
theorem segment_distance_wrong :
    (LineSegsIntersect segFlat segFar = true ∧
      LineSegsDistanceSquared segFlat segFar = Spf.fin 0 ∧
      ∀ u w : ℚ, 16 ≤ (clamp01 u - 5) * (clamp01 u - 5)
        + (0 - (-1 + 2 * clamp01 w)) * (0 - (-1 + 2 * clamp01 w))) ∧
    (LineSegsIntersect segDiag segAnti = false ∧
      LineSegsDistanceSquared segDiag segAnti = Spf.fin 2 ∧
      segPointDistSq (1 : ℚ) 1 0 0 2 2 (1 / 2) = 0 ∧
      segPointDistSq (1 : ℚ) 1 3 (-1) (-1) 3 (1 / 2) = 0) := by
  refine ⟨⟨by decide!, by decide!, ?_⟩, by decide!, by decide!, ?_, ?_⟩
  · intro u w
    have h1 := (clamp01_mem u).2
    nlinarith [mul_self_nonneg (0 - (-1 + 2 * clamp01 w)), h1]
  · norm_num [segPointDistSq]
  · norm_num [segPointDistSq]
/-- C13: point-segment distance.  For every point `p` and segment from `a` to `c` with finite
coordinates (a zero-length segment included), `PointLineSegDistanceSquared(p, l)` is the value of
`|a + u (c - a) - p|^2` at some `u0` in `[0,1]`, and no `u` in `[0,1]` gives a smaller value. -/
theorem point_segment_distance_is_min (px py ax ay cx cy : K) :
    ∃ u0 : K, 0 ≤ u0 ∧ u0 ≤ 1 ∧
      PointLineSegDistanceSquared ⟨Spf.fin px, Spf.fin py⟩
          ⟨⟨Spf.fin ax, Spf.fin ay⟩, ⟨Spf.fin cx, Spf.fin cy⟩⟩
        = Spf.fin (segPointDistSq px py ax ay cx cy u0) ∧
      ∀ u : K, 0 ≤ u → u ≤ 1 →
        segPointDistSq px py ax ay cx cy u0 ≤ segPointDistSq px py ax ay cx cy u := by
  by_cases h0 : (cx - ax = 0 ∧ cy - ay = 0)
  · refine ⟨0, le_refl _, zero_le_one, ?_, ?_⟩
    · simp [PointLineSegDistanceSquared, LineSeg.GetDelta, h0, Vec2d.SqrMagnitude, segPointDistSq]
    · intro u _ _
      simp [segPointDistSq, h0]
  · have hL := sqrMag_pos_aux h0
    have hL' : (cx - ax) * (cx - ax) + (cy - ay) * (cy - ay) ≠ 0 := ne_of_gt hL
    have h0' : (decide (cx - ax = 0) && decide (cy - ay = 0)) = false := by simpa using h0
    obtain ⟨L, hLdef⟩ : ∃ L, L = (cx - ax) * (cx - ax) + (cy - ay) * (cy - ay) := ⟨_, rfl⟩
    obtain ⟨T, hT⟩ : ∃ T, ((px - ax) * (cx - ax) + (py - ay) * (cy - ay)) /
        ((cx - ax) * (cx - ax) + (cy - ay) * (cy - ay)) = T := ⟨_, rfl⟩
    have hLpos : 0 < L := by rw [hLdef]; exact hL
    obtain ⟨C, key⟩ : ∃ C, ∀ u : K, segPointDistSq px py ax ay cx cy u = L * (u - T) ^ 2 + C := by
      refine ⟨segPointDistSq px py ax ay cx cy 0 - L * T ^ 2, ?_⟩
      intro u
      rw [← hT, hLdef]
      simp only [segPointDistSq]
      field_simp
      ring
    simp only [PointLineSegDistanceSquared, LineSeg.GetDelta, Vec2d.mk_sub_mk, Spf.fin_sub_fin,
      Spf.ceq_fin_fin, h0', Bool.false_eq_true, if_false, Spf.fin_mul_fin, Spf.fin_add_fin,
      Spf.fin_div_fin _ hL', hT, Spf.fin_lt_fin, gt_iff_lt, Vec2d.SqrMagnitude]
    by_cases ht0 : T < 0
    · refine ⟨0, le_refl _, zero_le_one, ?_, ?_⟩
      · simp only [ht0, if_true, segPointDistSq, Spf.fin.injEq]
        ring
      · intro u hu _
        rw [key u, key 0]
        have : (0 - T) ^ 2 ≤ (u - T) ^ 2 := by nlinarith
        nlinarith
    · by_cases ht1 : 1 < T
      · refine ⟨1, zero_le_one, le_refl _, ?_, ?_⟩
        · simp only [ht0, ht1, if_true, if_false, segPointDistSq, Spf.fin.injEq]
          ring
        · intro u _ hu
          rw [key u, key 1]
          have : (1 - T) ^ 2 ≤ (u - T) ^ 2 := by nlinarith
          nlinarith
      · refine ⟨T, not_lt.mp ht0, not_lt.mp ht1, ?_, ?_⟩
        · simp only [ht0, ht1, if_false, segPointDistSq, Spf.fin_mul_fin, Spf.fin_add_fin,
            Spf.fin_sub_fin, Spf.fin.injEq]
        · intro u _ _
          rw [key u, key T]
          have : (0 : K) ≤ (u - T) ^ 2 := sq_nonneg _
          have h2 : (T - T) ^ 2 = 0 := by ring
          rw [h2]
          nlinarith

theorem point_segment_distance_is_min_witness :
    ∃ u0 : ℚ, 0 ≤ u0 ∧ u0 ≤ 1 ∧
      PointLineSegDistanceSquared ⟨Spf.fin 3, Spf.fin 4⟩
          ⟨⟨Spf.fin 0, Spf.fin 0⟩, ⟨Spf.fin 2, Spf.fin 0⟩⟩
        = Spf.fin (segPointDistSq 3 4 0 0 2 0 u0) ∧
      ∀ u : ℚ, 0 ≤ u → u ≤ 1 →
        segPointDistSq 3 4 0 0 2 0 u0 ≤ segPointDistSq 3 4 0 0 2 0 u :=
  point_segment_distance_is_min 3 4 0 0 2 0

end Distances

/-! ## Projection of bodies -/

section Projection

variable {K : Type} [LinearOrderedField K]

/-- C24: projection composes.  For a circle with friction value greater than 0, durations
`d1, d2 >= 0` with `d1 + d2 < TimeUntilStop()` (so the velocity is not zero), and magnitudes of
the velocity computed exactly (before and after `d1`), `CopyAfterDuration(d1)` followed by
`CopyAfterDuration(d2)` gives the same circle, in every member, as `CopyAfterDuration(d1 + d2)`,
also through the virtual function of `Body`, and the velocity is not zero; `CopyAfterDuration(0)`
gives the circle itself, as it does for every circle at rest with a finite friction value; and
for a `Line` `CopyAfterDuration(d)` gives the line itself for every `d`. -/
theorem projection_composes [SqrtOp K] (c : Circle K) (d1 d2 : Spf K)
    (hf : Spf.fin 0 < c.friction)
    (hd1 : Spf.fin 0 ≤ d1) (hd2 : Spf.fin 0 ≤ d2) (hlt : d1 + d2 < c.TimeUntilStop)
    (hex1 : ExactMagnitude c.velocity)
    (hex2 : ExactMagnitude (c.CopyAfterDuration d1).velocity) :
    (c.CopyAfterDuration d1).CopyAfterDuration d2 = c.CopyAfterDuration (d1 + d2) ∧
      ((Body.circle c).CopyAfterDuration d1).CopyAfterDuration d2
        = (Body.circle c).CopyAfterDuration (d1 + d2) ∧
      c.velocity ≠ Vec2d.Zero ∧
      c.CopyAfterDuration (Spf.fin 0) = c ∧
      (∀ r : Circle K, r.velocity = Vec2d.Zero → r.friction.IsFinite →
        r.CopyAfterDuration (Spf.fin 0) = r) ∧
      (∀ (l : Line K) (d : Spf K), (Body.line l).CopyAfterDuration d = Body.line l) := by
  obtain ⟨a, b, ha, hb, rfl, rfl⟩ := Spf.fin_of_nonneg_add_lt hd1 hd2 hlt
  obtain ⟨vx, vy, m, hvel, hm0, hmag, hsq⟩ := exactMagnitude_fin _ hex1
  -- the friction value is finite: with infinite friction `TimeUntilStop()` is 0
  obtain ⟨f, hfr, hfpos⟩ : ∃ f : K, c.friction = Spf.fin f ∧ 0 < f := by
    cases hfr : c.friction with
    | nan => rw [hfr] at hf; exact absurd hf (Spf.not_lt_nan _)
    | ninf => rw [hfr] at hf; exact absurd hf (Spf.not_lt_ninf _)
    | fin f => rw [hfr] at hf; exact ⟨f, rfl, (Spf.fin_lt_fin _ _).mp hf⟩
    | pinf =>
      exfalso
      have hstop : c.TimeUntilStop = Spf.fin 0 := by
        rw [BodyData.TimeUntilStop, hmag, hfr]
        rfl
      rw [hstop, Spf.fin_add_fin, Spf.fin_lt_fin] at hlt
      linarith
  have hstop : c.TimeUntilStop = Spf.fin (m / f) := by
    rw [BodyData.TimeUntilStop, hmag, hfr, Spf.fin_div_fin _ hfpos.ne']
  rw [hstop, Spf.fin_add_fin, Spf.fin_lt_fin, lt_div_iff₀ hfpos] at hlt
  have hfa : f * a ≤ (a + b) * f := by nlinarith
  have hmpos : 0 < m := by nlinarith
  have hm1pos : 0 < m - f * a := by linarith
  have hnz : ¬ (vx = 0 ∧ vy = 0) := by
    rintro ⟨rfl, rfl⟩
    have : m * m = 0 := by rw [← hsq]; ring
    have := mul_self_eq_zero.mp this
    linarith
  -- after `d1` the velocity has the same direction and the magnitude `m - f * a`
  obtain ⟨hv1, hp1⟩ := copyAfterDuration_fin c vx vy f m a hvel hfr hmag hmpos.ne' hnz
  obtain ⟨wx, wy, m1, hw, hm10, hmag1, hsq1⟩ := exactMagnitude_fin _ hex2
  rw [hv1] at hw
  simp only [Vec2d.mk.injEq, Spf.fin.injEq] at hw
  obtain ⟨hwx, hwy⟩ := hw
  have hm1 : m1 = m - f * a := by
    apply (mul_self_inj hm10 hm1pos.le).mp
    rw [← hsq1, ← hwx, ← hwy]
    field_simp
    linear_combination (m - f * a) ^ 2 * hsq
  have hnz1 : ¬ (wx = 0 ∧ wy = 0) := by
    rintro ⟨rfl, rfl⟩
    have : m1 * m1 = 0 := by rw [← hsq1]; ring
    have := mul_self_eq_zero.mp this
    linarith
  have hfr1 : (c.CopyAfterDuration (Spf.fin a)).friction = Spf.fin f := hfr
  have hv1' : (c.CopyAfterDuration (Spf.fin a)).velocity = ⟨Spf.fin wx, Spf.fin wy⟩ := by
    rw [hv1, hwx, hwy]
  obtain ⟨hv2, hp2⟩ := copyAfterDuration_fin (c.CopyAfterDuration (Spf.fin a)) wx wy f m1 b
    hv1' hfr1 hmag1 (by rw [hm1]; exact hm1pos.ne') hnz1
  obtain ⟨hv3, hp3⟩ := copyAfterDuration_fin c vx vy f m (a + b) hvel hfr hmag hmpos.ne' hnz
  obtain ⟨hv0, hp0⟩ := copyAfterDuration_fin c vx vy f m 0 hvel hfr hmag hmpos.ne' hnz
  have hm1ne : m - f * a ≠ 0 := hm1pos.ne'
  have hmne : m ≠ 0 := hmpos.ne'
  have hcomp : (c.CopyAfterDuration (Spf.fin a)).CopyAfterDuration (Spf.fin b)
      = c.CopyAfterDuration (Spf.fin a + Spf.fin b) := by
    rw [Spf.fin_add_fin]
    refine Circle.eq_of_fields _ _ rfl rfl rfl ?_ ?_ rfl rfl rfl
    · rw [hp2, hp3, hp1]
      simp only [Spf.add_fin_add_fin, Vec2d.mk.injEq]
      constructor
      · congr 2
        rw [← hwx, hm1]
        field_simp
        ring
      · congr 2
        rw [← hwy, hm1]
        field_simp
        ring
    · rw [hv2, hv3]
      simp only [Vec2d.mk.injEq, Spf.fin.injEq]
      constructor
      · rw [← hwx, hm1]
        field_simp
        ring
      · rw [← hwy, hm1]
        field_simp
        ring
  refine ⟨hcomp, ?_, ?_, ?_, ?_, fun l d => rfl⟩
  · show Body.circle _ = Body.circle _
    rw [hcomp]
  · intro h0
    rw [hvel] at h0
    simp only [Vec2d.Zero, Vec2d.mk.injEq, Spf.fin.injEq] at h0
    exact hnz h0
  · refine Circle.eq_of_fields _ _ rfl rfl rfl ?_ ?_ rfl rfl rfl
    · rw [hp0]
      simp [Spf.add_fin_zero]
    · rw [hv0, hvel]
      simp
  · intro r hr hfin
    obtain ⟨g, hg⟩ := Spf.IsFinite.exists_eq hfin
    have hn : (Vec2d.Zero : Vec2d K).Normalized = Vec2d.Zero := by
      simp [Vec2d.Normalized, Vec2d.Zero]
    refine Circle.eq_of_fields _ _ rfl rfl rfl ?_ ?_ rfl rfl rfl
    · show r.PositionAfterDuration (Spf.fin 0) = r.position
      simp only [BodyData.PositionAfterDuration, BodyData.Acceleration, hr, hg, hn]
      generalize r.position = pos
      obtain ⟨px, py⟩ := pos
      have h2 : (2 : K) ≠ 0 := two_ne_zero
      simp [Vec2d.Zero, Spf.fin_div_fin _ h2, Spf.add_fin_add_fin, Spf.add_fin_zero]
    · show r.VelocityAfterDuration (Spf.fin 0) = r.velocity
      simp only [BodyData.VelocityAfterDuration, BodyData.Acceleration, hr, hg, hn]
      simp [Vec2d.Zero]

theorem projection_composes_witness :
    (frictionCircle.CopyAfterDuration (Spf.fin (1 / 2))).CopyAfterDuration (Spf.fin 1)
        = frictionCircle.CopyAfterDuration (Spf.fin (1 / 2) + Spf.fin 1) ∧
      frictionCircle.TimeUntilStop = Spf.fin (5 / 2) ∧
      (frictionCircle.CopyAfterDuration (Spf.fin (1 / 2))).position = vec (27 / 20) (9 / 5) ∧
      (frictionCircle.CopyAfterDuration (Spf.fin (1 / 2))).velocity = vec (12 / 5) (16 / 5) ∧
      (frictionCircle.CopyAfterDuration (Spf.fin (1 / 2) + Spf.fin 1)).position
        = vec (63 / 20) (21 / 5) ∧
      (frictionCircle.CopyAfterDuration (Spf.fin (1 / 2) + Spf.fin 1)).velocity
        = vec (6 / 5) (8 / 5) :=
  ⟨(projection_composes frictionCircle (Spf.fin (1 / 2)) (Spf.fin 1) (by decide!) (by decide!)
      (by decide!) (by decide!) ⟨5, by norm_num, by decide!, by decide!⟩
      ⟨4, by norm_num, by decide!, by decide!⟩).1,
    by decide!, by decide!, by decide!, by decide!, by decide!⟩

end Projection

end SharpPhysics
